import Mathlib

/-!
Searn sequence labeller (`vowpalwabbit/sequence.cc`): a shallow embedding.

The file follows the layout of `sequence.cc`.  Globals that are fixed once the
options are parsed live in `config`, the mutable globals (and the locals of
`process_next_example_sequence` that survive a loop iteration) live in `state`,
and the things the file only calls (`global.cs_learn`, `qsort`, `drand48`,
`get_example`, `free_example`) are either fields of `collaborators` or ghost
logs in `state`.

Conventions.
* `uint32_t` and `size_t` values are natural numbers; every place where the C
  arithmetic can wrap carries an explicit `% 2 ^ 32` or `% 2 ^ 64`.
* The `float` sums of squares of an example are binary32 numbers: they are
  held as the rationals they denote and updated with the rounding operations
  `f32_add` and `f32_sub`.  The other `float` and `double` values (losses,
  weights, `beta`, the draws of `drand48`, the reporting counters) are exact
  rationals.
* An array is a `List`; a read outside the array yields the default value and a
  write outside the array is dropped.
* A `history` pointer stored in a `history_item` is the index of the buffer in
  `all_histories`, so that two cache items can share one buffer as in the C code.
-/

namespace Sequence

/-! ## Machine arithmetic and loops -/

/-- Unsigned 32-bit wrap. -/
def u32 (n : Nat) : Nat := n % 2 ^ 32

/-- Unsigned 64-bit wrap (`size_t`). -/
def u64 (n : Nat) : Nat := n % 2 ^ 64

/-- The `size_t` difference `a - b`, wrapping below zero. -/
def size_t_sub (a b : Nat) : Nat := (a % 2 ^ 64 + (2 ^ 64 - b % 2 ^ 64)) % 2 ^ 64

/-- Conversion `int -> size_t`. -/
def size_t_of_int (i : Int) : Nat := (i % 2 ^ 64).toNat

/-! ## The type `float`

A `float` is an IEEE binary32 number.  A finite one is held as the rational it
denotes, and every operation rounds its exact result to the nearest binary32
value, ties to the even significand.  IEEE gives an infinity for a result of
magnitude `2^128 - 2^103` or more; the model has no infinities, and `is_f32`
says that a rational is a finite binary32 value. -/

/-- The power `2^e` for an integer exponent. -/
def pow2 (e : Int) : ℚ :=
  if e ≥ 0 then ((2 ^ e.toNat : Nat) : ℚ) else 1 / ((2 ^ (-e).toNat : Nat) : ℚ)

/-- The number `floor(log2 n)` for `n >= 1`, by halving; the first argument
bounds the number of halvings. -/
def log2_halving : Nat → Nat → Nat
  | 0, _ => 0
  | fuel + 1, n => if n ≥ 2 then log2_halving fuel (n / 2) + 1 else 0

/-- The integer `floor(log2 a)` for a rational `a > 0`: the difference of the
bit lengths of numerator and denominator, or one less. -/
def floor_log2 (a : ℚ) : Int :=
  let k : Int := (log2_halving a.num.natAbs a.num.natAbs : Int) - (log2_halving a.den a.den : Int)
  if pow2 k ≤ a then k else k - 1

/-- Rounding of `x >= 0` to the nearest integer, ties to the even one. -/
def round_half_even (x : ℚ) : Int :=
  let f := Rat.floor x
  if x - f < 1 / 2 then f
  else if x - f > 1 / 2 then f + 1
  else if f % 2 = 0 then f else f + 1

/-- Rounding to binary32: 24 significant bits, the least exponent -126 (below
it the spacing stays `2^-149`), round to nearest, ties to even. -/
def f32_round (q : ℚ) : ℚ :=
  if q = 0 then 0
  else
    let e := max (floor_log2 |q|) (-126)
    let ulp := pow2 (e - 23)
    (if q < 0 then -1 else 1) * (round_half_even (|q| / ulp) : ℚ) * ulp

/-- The `float` sum `a + b`. -/
def f32_add (a b : ℚ) : ℚ := f32_round (a + b)

/-- The `float` difference `a - b`. -/
def f32_sub (a b : ℚ) : ℚ := f32_round (a - b)

/-- The rational `q` is a finite binary32 value. -/
def is_f32 (q : ℚ) : Bool := decide (f32_round q = q ∧ |q| < 2 ^ 128)

/-- The C loop `for (i = lo; i < hi; i++) s = body i s`. -/
def for_loop {σ : Type} (lo hi : Nat) (body : Nat → σ → σ) (s : σ) : σ :=
  (List.range' lo (hi - lo)).foldl (fun s i => body i s) s

/-! ## Data model -/

/-- A `feature` of `example.h`: a value and a 32-bit weight index. -/
structure feature where
  x : ℚ
  weight_index : Nat
deriving DecidableEq

/-- An `audit_data` record, without its two name strings. -/
structure audit_data where
  weight_index : Nat
  x : ℚ
  alloced : Bool
deriving DecidableEq

/-- The multiclass label `OAA::mc_label`: a 32-bit class and a weight. -/
structure mc_label where
  label : Nat
  weight : ℚ
deriving DecidableEq

/-- What `ec->ld` can point to.  `mc addr val` is the parser-owned label object
at address `addr`, whose current contents are `val`; `empty_costs` is the global
`empty_costs`; `costs c` is the local `CSOAA::label` of
`generate_training_example`, holding the cost vector `c`. -/
inductive label_ptr where
  | mc (addr : Nat) (val : mc_label)
  | empty_costs
  | costs (c : List ℚ)
deriving DecidableEq

/-- Reading through `(OAA::mc_label*)p`. -/
def label_ptr.deref : label_ptr → mc_label
  | .mc _ v => v
  | _ => ⟨0, 0⟩

/-- The store `((OAA::mc_label*)p)->label = y`. -/
def label_ptr.store_label : label_ptr → Nat → label_ptr
  | .mc a v, y => .mc a { v with label := y }
  | p, _ => p

/-- The fields of `example` that `sequence.cc` touches.  `addr` is the address
of the example in the parser ring; it identifies the example in the logs.
`sum_feat_sq` and `total_sum_feat_sq` are `float`s (`example.h`, outside
`sequence.cc`); they are updated with `f32_add` and `f32_sub`. -/
structure vw_example where
  addr : Nat
  ld : label_ptr
  final_prediction : Nat
  indices : List Nat
  atomics : Nat → List feature
  audit_features : Nat → List audit_data
  sum_feat_sq : Nat → ℚ
  num_features : Nat
  total_sum_feat_sq : ℚ
  example_counter : Nat
  pass : Nat

instance : Inhabited vw_example :=
  ⟨⟨0, .empty_costs, 0, [], fun _ => [], fun _ => [], fun _ => 0, 0, 0, 0, 0⟩⟩

/-- A rollout candidate.  `predictions` is the index in `all_histories` of the
buffer the C pointer refers to. -/
structure history_item where
  predictions : Nat
  predictions_hash : Nat
  loss : ℚ
  original_label : Nat
  same : Bool
deriving DecidableEq

instance : Inhabited history_item := ⟨⟨0, 0, 0, 0, false⟩⟩

/-- Everything that stays fixed while sequences are processed: the fields of
`global` and the constants of `constant.h` that the file reads (these are
declared outside `sequence.cc` and are parameters here), and the file-level
settings written by `parse_sequence_args`. -/
structure config where
  ring_size : Nat
  parse_mask : Nat
  length : Nat
  stride : Nat
  audit : Bool
  quiet : Bool
  bfgs : Bool
  quadratic_constant : Nat
  history_namespace : Nat
  constant_namespace : Nat
  PRINT_UPDATE_EVERY_EXAMPLE : Bool
  OPTIMIZE_SHARED_HISTORIES : Bool
  sequence_history : Nat
  sequence_bigrams : Bool
  sequence_features : Nat
  sequence_bigram_features : Bool
  sequence_rollout : Nat
  sequence_passes_per_policy : Nat
  sequence_beta : ℚ
  sequence_k : Nat
  sequence_gamma : Nat
  history_length : Nat
  total_number_of_policies : Nat
  constant_pow_history_length : Nat
  history_constant : Nat

/-- The generator behind `drand48`: the values it will return, and how many
have been drawn. -/
structure drand48_state where
  draws : Nat → ℚ
  pos : Nat

/-- One call of `drand48()`. -/
def drand48 (g : drand48_state) : ℚ × drand48_state :=
  (g.draws g.pos, { g with pos := g.pos + 1 })

/-- The reporting counters `global.sd`. -/
structure shared_data where
  weighted_examples : ℚ
  old_weighted_examples : ℚ
  total_features : Nat
  sum_loss : ℚ
  sum_loss_since_last_dump : ℚ
  example_number : Nat
  dump_interval : ℚ

/-- The external routines the file calls: the cost-sensitive learner
`global.cs_learn`, which receives the encoded example, may update its own state
`L` and hands the example back (with `final_prediction` set), and the C library
`qsort`. -/
structure collaborators (L : Type) where
  cs_learn : L → vw_example → L × vw_example
  qsort : (history_item → history_item → Int) → List history_item → List history_item

/-- The mutable globals of `sequence.cc`, then the locals of
`process_next_example_sequence` that live across loop iterations, then the
outside world (`parser`: the examples `get_example` has still to deliver;
`learner`; `rng`) and two ghost logs: `freed` lists the arguments of
`free_example` (`none` for a null pointer) and `learn_calls` the examples handed
to `global.cs_learn`, both in call order. -/
structure state (L : Type) where
  current_policy : Nat
  current_history : List Nat
  ec_seq : List (Option vw_example)
  pred_seq : List Nat
  policy_seq : List Int
  all_histories : List (List Nat)
  hcache : List history_item
  true_labels : List label_ptr
  loss_vector : List ℚ
  read_example_this_loop : Nat
  read_example_last_id : Nat
  read_example_last_pass : Nat
  read_example_should_warn_eof : Int
  passes_since_new_policy : Nat
  warned_about_class_overage : Bool
  got_null : Bool
  sd : shared_data
  all_policies_optimal : Bool
  last_new : Nat
  prediction_matches_history : Bool
  entered_rollout : Bool
  gamma : ℚ
  parser : List vw_example
  learner : L
  rng : drand48_state
  freed : List (Option Nat)
  learn_calls : List vw_example

/-! ## Generic helper functions: `random_policy` -/

/-- The loop `while ((r > 0) && (pid < num_valid_policies-1)) { pid++; r -= beta * pow(1-beta, pid); }`.
The first argument bounds the number of iterations; `num_valid_policies - 1`
is always enough since `pid` starts at 0 and grows by one each time. -/
def random_policy_loop (beta : ℚ) (num_valid_policies : Int) : Nat → Int → ℚ → Int
  | 0, pid, _ => pid
  | fuel + 1, pid, r =>
    if r > 0 ∧ pid < num_valid_policies - 1 then
      random_policy_loop beta num_valid_policies fuel (pid + 1)
        (r - beta * (1 - beta) ^ (pid + 1).toNat)
    else pid

/-- The rank `pid` that `random_policy` computes from the draw `r` when there
are at least two valid policies (lines 129-137). -/
def random_policy_rank (beta : ℚ) (num_valid_policies : Int) (r : ℚ) : Int :=
  if r > beta then
    random_policy_loop beta num_valid_policies (num_valid_policies - 1).toNat 0 (r - beta)
  else 0

/-- The tail of `random_policy` (lines 140-148): which policy the rank `pid`
refers to. -/
def random_policy_of_rank (current_policy : Nat) (allow_optimal allow_current : Int)
    (num_valid_policies pid : Int) : Int :=
  if allow_optimal ≠ 0 ∧ pid = num_valid_policies - 1 then -1
  else
    let pid := (current_policy : Int) - pid
    if allow_current = 0 then pid - 1 else pid

/-- The function `random_policy(allow_optimal, allow_current)`; `-1` is the
optimal (oracle) policy.  The generator state is returned so that a draw is
consumed exactly when `drand48()` is called. -/
def random_policy (beta : ℚ) (current_policy : Nat) (allow_optimal allow_current : Int)
    (g : drand48_state) : Int × drand48_state :=
  if beta ≥ 1 then
    if allow_current ≠ 0 then ((current_policy : Int), g)
    else if current_policy > 0 then ((current_policy : Int) - 1, g)
    else if allow_optimal ≠ 0 then (-1, g)
    else ((current_policy : Int), g)
  else
    let num_valid_policies : Int := (current_policy : Int) + allow_optimal + allow_current
    if num_valid_policies = 0 then ((current_policy : Int), g)
    else if num_valid_policies = 1 then
      (random_policy_of_rank current_policy allow_optimal allow_current num_valid_policies 0, g)
    else
      let (r, g) := drand48 g
      (random_policy_of_rank current_policy allow_optimal allow_current num_valid_policies
        (random_policy_rank beta num_valid_policies r), g)

/-! ## History manipulation -/

/-- The function `append_history(h, p)`: shift left by one, write `p` last. -/
def append_history (history_length : Nat) (h : List Nat) (p : Nat) : List Nat :=
  let h := for_loop 1 history_length (fun i h => h.set (i - 1) (h.getD i 0)) h
  if history_length > 0 then h.set (history_length - 1) p else h

/-- Conversion `uint32_t -> int` (two's complement). -/
def int_of_u32 (n : Nat) : Int :=
  if n % 2 ^ 32 < 2 ^ 31 then (n % 2 ^ 32 : Nat) else (n % 2 ^ 32 : Nat) - 2 ^ 32

/-- The function `append_history_item(hi, p)`.  The item is passed by value, so
the updates of `hi.predictions_hash` and `hi.same` are made on a copy and are
lost when the function returns; only the write through the pointer
`hi.predictions` reaches the caller.  The result is the new contents of
`all_histories`, and the hash that the copy held on return. -/
def append_history_item (cfg : config) (all_histories : List (List Nat))
    (hi : history_item) (p : Nat) : List (List Nat) × Nat :=
  if cfg.history_length > 0 then
    let buf := all_histories.getD hi.predictions []
    let old_val := int_of_u32 (buf.getD 0 0)
    let hash := u32 (size_t_sub hi.predictions_hash
      (u64 (size_t_of_int old_val * cfg.constant_pow_history_length)))
    let hash := u32 (hash + p)
    let hash := u32 (hash * cfg.quadratic_constant)
    (all_histories.set hi.predictions (append_history cfg.history_length buf p), hash)
  else (all_histories, hi.predictions_hash)

/-- The function `last_prediction(h)`, reading `h[history_length-1]`. -/
def last_prediction (cfg : config) (h : List Nat) : Nat :=
  h.getD (size_t_sub cfg.history_length 1) 0

/-- The comparator `order_history_item(a, b)`.  Its second test repeats the
first, and the loop over the slots returns in its first iteration, at
`i = history_length-1`. -/
def order_history_item (cfg : config) (all_histories : List (List Nat))
    (a b : history_item) : Int :=
  if a.predictions_hash < b.predictions_hash then -1
  else if a.predictions_hash < b.predictions_hash then 1
  else
    let i := size_t_sub cfg.history_length 1
    let pa := (all_histories.getD a.predictions []).getD i 0
    let pb := (all_histories.getD b.predictions []).getD i 0
    if pa < pb then -1
    else if pa > pb then 1
    else 0

/-- The function `sort_hcache_and_mark_equality()`. -/
def sort_hcache_and_mark_equality {L : Type} (cfg : config) (env : collaborators L)
    (s : state L) : state L :=
  let hcache := env.qsort (order_history_item cfg s.all_histories) s.hcache
  let hcache := hcache.set 0 { (hcache.getD 0 default) with same := false }
  let hcache := for_loop 1 cfg.sequence_k (fun i hc =>
    let order := order_history_item cfg s.all_histories (hc.getD i default) (hc.getD (i - 1) default)
    hc.set i { (hc.getD i default) with same := decide (order = 0) }) hcache
  { s with hcache := hcache }

/-- The function `hcache_all_equal()`. -/
def hcache_all_equal {L : Type} (cfg : config) (s : state L) : Bool :=
  (List.range' 1 (cfg.sequence_k - 1)).all (fun i => (s.hcache.getD i default).same)

/-- The function `clear_history(h)`. -/
def clear_history (history_length : Nat) (h : List Nat) : List Nat :=
  for_loop 0 history_length (fun t h => h.set t 0) h

/-! ## Example manipulation -/

/-- The function `example_is_newline(ec)`. -/
def example_is_newline (cfg : config) (ec : vw_example) : Bool :=
  ec.indices.length = 0 ∨
    (ec.indices.length = 1 ∧ ec.indices.getLast? = some cfg.constant_namespace)

/-- The function `example_is_test(ec)`: the label is `(uint32_t)-1`. -/
def example_is_test (ec : vw_example) : Bool :=
  ec.ld.deref.label = 2 ^ 32 - 1

/-- The function `remove_history_from_example(ec)`.  Line 397 is a `float`
subtraction. -/
def remove_history_from_example (cfg : config) (ec : vw_example) : vw_example :=
  if ec.indices.length = 0 then ec
  else if ec.indices.getLast? ≠ some cfg.history_namespace then ec
  else
    let hn := cfg.history_namespace
    { ec with
      num_features := size_t_sub ec.num_features (ec.atomics hn).length
      total_sum_feat_sq := f32_sub ec.total_sum_feat_sq (ec.sum_feat_sq hn)
      sum_feat_sq := Function.update ec.sum_feat_sq hn 0
      atomics := Function.update ec.atomics hn []
      audit_features :=
        if cfg.audit then Function.update ec.audit_features hn [] else ec.audit_features
      indices := ec.indices.dropLast }

/-- The two statements `push(ec->atomics[history_namespace], temp)` and, under
`global.audit`, `push(ec->audit_features[history_namespace], a_feature)` for the
index `(uint32_t)((2*v) & global.parse_mask)`. -/
def push_history_feature (cfg : config) (ec : vw_example) (v : Nat) : vw_example :=
  let hn := cfg.history_namespace
  let idx := u32 (u64 (2 * v) &&& cfg.parse_mask)
  { ec with
    atomics := Function.update ec.atomics hn (ec.atomics hn ++ [⟨1, idx⟩])
    audit_features :=
          if cfg.audit then
            Function.update ec.audit_features hn (ec.audit_features hn ++ [⟨idx, 1, true⟩])
          else ec.audit_features }

/-- The first loop of `add_history_to_example` (lines 421-458), one iteration.
`quadratic_constant` is an `int` constant, so its product with a `uint32_t`
history slot is a 32-bit product; the rest is `size_t` arithmetic. -/
def add_history_unigram_step (cfg : config) (h : List Nat) (t : Nat) (ec : vw_example) :
    vw_example :=
  let qc := cfg.quadratic_constant
  let v0 := u64 (u64 ((u32 (h.getD (size_t_sub cfg.history_length t) 0 * qc) + t) * qc)
    + cfg.history_constant)
  let ec := push_history_feature cfg ec v0
  if t > 1 ∧ cfg.sequence_bigrams then
    let v0 := u64 (u64 ((u64 (size_t_sub v0 cfg.history_constant * qc)
      + h.getD (u64 (size_t_sub cfg.history_length t + 1)) 0) * qc) + cfg.history_constant)
    push_history_feature cfg ec v0
  else ec

/-- The innermost loop of `add_history_to_example` (lines 479-517), one
iteration, for the base feature value `v`. -/
def add_history_cross_step (cfg : config) (h : List Nat) (v : Nat) (t : Nat) (ec : vw_example) :
    vw_example :=
  let qc := cfg.quadratic_constant
  let v0 := u64 ((u32 (h.getD (size_t_sub cfg.history_length t) 0 * qc) + t) * qc)
  let ec := push_history_feature cfg ec (u64 (v0 + v))
  if t > 0 ∧ cfg.sequence_bigram_features then
    let v0 := u64 ((v0 + h.getD (u64 (size_t_sub cfg.history_length t + 1)) 0) * qc)
    push_history_feature cfg ec (u64 (v + v0))
  else ec

/-- The function `add_history_to_example(ec, h)`.  The two outer loops of the
cross-feature part walk the namespaces listed in `ec->indices` and the features
of each; the walk over a namespace sees the features it held when the walk
started, which is what the C loop does as long as the history namespace is not
itself listed in `ec->indices`.  Lines 523-524 are `float` additions; in the
first the `size_t` count is converted to `float`. -/
def add_history_to_example (cfg : config) (ec : vw_example) (h : List Nat) : vw_example :=
  let hn := cfg.history_namespace
  let ec := for_loop 1 (cfg.sequence_history + 1) (add_history_unigram_step cfg h) ec
  let ec :=
    if cfg.sequence_features > 0 then
      ec.indices.foldl (fun ec i =>
        (ec.atomics i).foldl (fun ec f =>
          let v := u32 (f.weight_index + cfg.history_constant)
          for_loop 1 (cfg.sequence_features + 1) (add_history_cross_step cfg h v) ec) ec) ec
    else ec
  let ec := { ec with indices := ec.indices ++ [hn] }
  let ec := { ec with
    sum_feat_sq := Function.update ec.sum_feat_sq hn
      (f32_add (ec.sum_feat_sq hn) (f32_round ((ec.atomics hn).length : ℚ))) }
  let ec := { ec with total_sum_feat_sq := f32_add ec.total_sum_feat_sq (ec.sum_feat_sq hn) }
  { ec with num_features := u64 (ec.num_features + (ec.atomics hn).length) }

/-- Modelled from the spec: `OAA::update_indicies(ec, amount)` is defined in
`oaa.cc`, outside `sequence.cc`.  Following the words
"shift every feature index in the example by a deterministic, policy-specific
block size", it adds `amount` to the 32-bit weight index of every feature of
every namespace that the example lists. -/
def update_indicies (ec : vw_example) (amount : Nat) : vw_example :=
  { ec with
    atomics := fun ns =>
      if ns ∈ ec.indices then
        (ec.atomics ns).map (fun f => { f with weight_index := u32 (f.weight_index + amount) })
      else ec.atomics ns }

/-- The amount computed by `add_policy_offset` and `remove_policy_offset`:
`(policy * global.length() / sequence_k / total_number_of_policies) * global.stride`
in `size_t` arithmetic.  Division is the total division of `Nat`; the C code
divides by zero when `sequence_k` or `total_number_of_policies` is 0. -/
def policy_offset_amount (cfg : config) (policy : Nat) : Nat :=
  u64 (u64 (policy * cfg.length) / cfg.sequence_k / cfg.total_number_of_policies * cfg.stride)

/-- The function `add_policy_offset(ec, policy)`. -/
def add_policy_offset (cfg : config) (ec : vw_example) (policy : Nat) : vw_example :=
  update_indicies ec (policy_offset_amount cfg policy)

/-- The function `remove_policy_offset(ec, policy)`: the amount is negated as a
`size_t`. -/
def remove_policy_offset (cfg : config) (ec : vw_example) (policy : Nat) : vw_example :=
  update_indicies ec (size_t_sub 0 (policy_offset_amount cfg policy))

/-! ## Interface to the learner -/

instance : Inhabited label_ptr := ⟨.empty_costs⟩

/-- One call `global.cs_learn(ec)`: the example is logged as it is handed over,
the learner state advances, and the example comes back as the learner left it
(at the same address). -/
def cs_learn_call {L : Type} (env : collaborators L) (s : state L) (ec : vw_example) :
    vw_example × state L :=
  let r := env.cs_learn s.learner ec
  ({ (r.2) with addr := ec.addr },
   { s with learner := r.1, learn_calls := s.learn_calls ++ [ec] })

/-- The function `generate_training_example(ec, h, costs)`; returns the example
as it is left behind. -/
def generate_training_example {L : Type} (cfg : config) (env : collaborators L) (s : state L)
    (ec : vw_example) (h : List Nat) (costs : List ℚ) : vw_example × state L :=
  let ec := add_history_to_example cfg ec h
  let ec := add_policy_offset cfg ec s.current_policy
  let ec := { ec with ld := label_ptr.costs costs }
  let r := cs_learn_call env s ec
  let ec := remove_history_from_example cfg r.1
  let ec := remove_policy_offset cfg ec s.current_policy
  (ec, r.2)

/-- The function `predict(ec, h, policy, truth)`; returns the prediction, the
example as it is left behind, and the new state. -/
def predict {L : Type} (cfg : config) (env : collaborators L) (s : state L)
    (ec : vw_example) (h : List Nat) (policy : Int) (truth : Nat) :
    Nat × vw_example × state L :=
  if policy = -1 then (truth, ec, s)
  else
    let ec := add_history_to_example cfg ec h
    let ec := add_policy_offset cfg ec (size_t_of_int policy)
    let ec := { ec with ld := label_ptr.empty_costs }
    let r := cs_learn_call env s ec
    let yhat := u32 r.1.final_prediction
    let ec := remove_history_from_example cfg r.1
    let ec := remove_policy_offset cfg ec (size_t_of_int policy)
    (yhat, ec, r.2)

/-- The call `free_example(ec)` of the parser: logged, `none` for a null
pointer. -/
def free_example {L : Type} (s : state L) (ec : Option vw_example) : state L :=
  { s with freed := s.freed ++ [ec.map (fun e => e.addr)] }

/-- The part of `safe_get_example` that runs when the pass counter of the
example differs from the last one seen (lines 650-666). -/
def note_new_pass {L : Type} (cfg : config) (allow_past_eof : Int) (pass : Nat)
    (s : state L) : state L :=
  let s := { s with read_example_last_pass := pass }
  let s :=
    if allow_past_eof = 0 ∧ s.read_example_should_warn_eof ≠ 0 then
      { s with read_example_should_warn_eof := 0 }
    else s
  let s := { s with passes_since_new_policy := s.passes_since_new_policy + 1 }
  if s.passes_since_new_policy ≥ cfg.sequence_passes_per_policy then
    let s := { s with passes_since_new_policy := 0, current_policy := s.current_policy + 1 }
    if s.current_policy > cfg.total_number_of_policies then
      { s with current_policy := cfg.total_number_of_policies }
    else s
  else s

/-- The part of `safe_get_example` that runs once `get_example()` has returned
the example `ec` (lines 646-678). -/
def accept_example {L : Type} (cfg : config) (allow_past_eof : Int) (ec : vw_example)
    (s : state L) : Option vw_example × state L :=
  let s := { s with
    read_example_this_loop := s.read_example_this_loop + 1
    read_example_last_id := ec.example_counter }
  let s := if ec.pass ≠ s.read_example_last_pass then note_new_pass cfg allow_past_eof ec.pass s
    else s
  let y := ec.ld.deref.label
  if y > cfg.sequence_k then
    let s := if ¬ s.warned_about_class_overage then { s with warned_about_class_overage := true }
      else s
    (some { ec with ld := ec.ld.store_label (u32 cfg.sequence_k) }, s)
  else (some ec, s)

/-- The function `safe_get_example(allow_past_eof)`; `get_example()` hands out
the head of `parser`, or null when nothing is left. -/
def safe_get_example {L : Type} (cfg : config) (allow_past_eof : Int) (s : state L) :
    Option vw_example × state L :=
  let s := { s with got_null := false }
  if s.read_example_this_loop = cfg.ring_size then (none, s)
  else
    match s.parser with
    | [] => (none, { s with got_null := true })
    | ec :: rest => accept_example cfg allow_past_eof ec { s with parser := rest }

/-- The state effects of `print_update`; what it prints is not modelled. -/
def print_update {L : Type} (cfg : config) (s : state L) : state L :=
  if ¬ (s.sd.weighted_examples > s.sd.dump_interval ∧ ¬ cfg.quiet ∧ ¬ cfg.bfgs)
      ∧ ¬ cfg.PRINT_UPDATE_EVERY_EXAMPLE then s
  else
    { s with sd := { s.sd with
        sum_loss_since_last_dump := 0
        old_weighted_examples := s.sd.weighted_examples
        dump_interval := s.sd.dump_interval * 2 } }

/-- The `while` loop of `run_test`; the first argument bounds the number of
iterations. -/
def run_test_loop {L : Type} (cfg : config) (env : collaborators L) :
    Nat → Option vw_example → state L → Option vw_example × state L
  | 0, ec, s => (ec, s)
  | _ + 1, none, s => (none, s)
  | fuel + 1, some ec, s =>
    if example_is_newline cfg ec then (some ec, s)
    else
      let pr := random_policy cfg.sequence_beta s.current_policy 0 0 s.rng
      let s := { s with rng := pr.2 }
      let old_label := ec.ld
      let s := { s with sd := { s.sd with
        weighted_examples := s.sd.weighted_examples + old_label.deref.weight
        total_features := s.sd.total_features + ec.num_features } }
      let p := predict cfg env s ec s.current_history pr.1 (2 ^ 64 - 1)
      let ec := { (p.2.1) with ld := old_label }
      let s := p.2.2
      let s := { s with
        current_history := append_history cfg.history_length s.current_history (u32 p.1) }
      let s := free_example s (some ec)
      let r := safe_get_example cfg 0 s
      run_test_loop cfg env fuel r.1 r.2

/-- The function `run_test(ec)`. -/
def run_test {L : Type} (cfg : config) (env : collaborators L) (ec : vw_example)
    (s : state L) : state L :=
  let s := { s with current_history := clear_history cfg.history_length s.current_history }
  let r := run_test_loop cfg env (s.parser.length + 1) (some ec) s
  let s := match r.1 with
    | some e => free_example r.2 (some e)
    | none => r.2
  let s := { s with sd := { s.sd with example_number := s.sd.example_number + 1 } }
  print_update cfg s

/-! ## `process_next_example_sequence` -/

/-- The pointer read `ec_seq[t]`, dereferenced. -/
def ec_at {L : Type} (s : state L) (t : Nat) : vw_example :=
  (s.ec_seq.getD t none).getD default

/-- The read `true_labels[t]`, dereferenced. -/
def true_label_at {L : Type} (s : state L) (t : Nat) : mc_label :=
  (s.true_labels.getD t default).deref

/-- The loop that skips initial newlines (lines 730-735); the first argument
bounds the number of iterations.  The result is the first example that is not
a newline, or null when the reader gave up. -/
def skip_initial_newlines {L : Type} (cfg : config) :
    Nat → vw_example → state L → Option vw_example × state L
  | 0, cur_ec, s => (some cur_ec, s)
  | fuel + 1, cur_ec, s =>
    if example_is_newline cfg cur_ec then
      let s := free_example s (some cur_ec)
      let r := safe_get_example cfg 1 s
      match r.1 with
      | none => (none, r.2)
      | some e => skip_initial_newlines cfg fuel e r.2
    else (some cur_ec, s)

/-- The loop that reads the sequence into `ec_seq` (lines 745-754); the first
argument bounds the number of iterations.  The result is `n`, `skip_this_one`,
`cur_ec` and the state. -/
def read_sequence_loop {L : Type} (cfg : config) :
    Nat → Nat → Bool → Option vw_example → state L → Nat × Bool × Option vw_example × state L
  | 0, n, skip_this_one, cur_ec, s => (n, skip_this_one, cur_ec, s)
  | _ + 1, n, skip_this_one, none, s => (n, skip_this_one, none, s)
  | fuel + 1, n, skip_this_one, some cur_ec, s =>
    if example_is_newline cfg cur_ec then (n, skip_this_one, some cur_ec, s)
    else
      let skip_this_one :=
        if example_is_test cur_ec ∧ ¬ skip_this_one then true else skip_this_one
      let s := { s with ec_seq := s.ec_seq.set n (some cur_ec) }
      let r := safe_get_example cfg 0 s
      read_sequence_loop cfg fuel (n + 1) skip_this_one r.1 r.2

/-- The early exit taken when a test example was found (lines 756-762). -/
def skip_sequence {L : Type} (n : Nat) (cur_ec : Option vw_example) (s : state L) : state L :=
  let s := for_loop 0 n (fun _ s => free_example s (s.ec_seq.getD n none)) s
  match cur_ec with
  | some e => free_example s (some e)
  | none => s

/-- One iteration of the first loop over the positions (lines 768-787): choose
the policy, record the label, predict, advance the running history. -/
def behavior_step {L : Type} (cfg : config) (env : collaborators L) (t : Nat)
    (s : state L) : state L :=
  let pr := if s.current_policy = 0 then ((0 : Int), s.rng)
    else random_policy cfg.sequence_beta s.current_policy 0 0 s.rng
  let s := { s with rng := pr.2, policy_seq := s.policy_seq.set t pr.1 }
  let s := { s with true_labels := s.true_labels ++ [(ec_at s t).ld] }
  let s := { s with sd := { s.sd with
    weighted_examples := s.sd.weighted_examples + (true_label_at s t).weight
    total_features := s.sd.total_features + (ec_at s t).num_features } }
  let p := predict cfg env s (ec_at s t) s.current_history (s.policy_seq.getD t 0) (2 ^ 64 - 1)
  let s := { (p.2.2) with
    ec_seq := p.2.2.ec_seq.set t (some p.2.1)
    pred_seq := p.2.2.pred_seq.set t p.1 }
  let s := { s with
    current_history :=
        append_history cfg.history_length s.current_history (u32 (s.pred_seq.getD t 0)) }
  let s :=
    if s.pred_seq.getD t 0 ≠ (true_label_at s t).label then
      { s with sd := { s.sd with
        sum_loss := s.sd.sum_loss + (true_label_at s t).weight
        sum_loss_since_last_dump := s.sd.sum_loss_since_last_dump + (true_label_at s t).weight } }
    else s
  let pr := random_policy cfg.sequence_beta s.current_policy 1 0 s.rng
  let s := { s with rng := pr.2 }
  if pr.1 = -1 then { s with policy_seq := s.policy_seq.set t (-1) } else s

/-- The seeding of cache entry `i` at position `t` (lines 808-818).  The call
`append_history_item(hcache[i], i+1)` works on a copy of the entry, so only the
history buffer changes. -/
def seed_item {L : Type} (cfg : config) (t : Nat) (i : Nat) (s : state L) : state L :=
  let s := { s with
    all_histories :=
        s.all_histories.set i (clear_history cfg.history_length (s.all_histories.getD i [])) }
  let hi : history_item := {
    predictions := i
    predictions_hash := 0
    loss := (true_label_at s t).weight * (if i + 1 ≠ (true_label_at s t).label then 1 else 0)
    same := false
    original_label := i }
  let s := { s with hcache := s.hcache.set i hi }
  { s with
    all_histories :=
          (append_history_item cfg s.all_histories (s.hcache.getD i default) (u32 (i + 1))).1 }

/-- The loop `while (end_pos >= t+1) { if (policy_seq[end_pos-1] >= 0) break; end_pos--; }`;
the first argument bounds the number of iterations. -/
def end_pos_loop (policy_seq : List Int) (t : Nat) : Nat → Nat → Nat
  | 0, end_pos => end_pos
  | fuel + 1, end_pos =>
    if end_pos ≥ t + 1 then
      if policy_seq.getD (end_pos - 1) 0 ≥ 0 then end_pos
      else end_pos_loop policy_seq t fuel (end_pos - 1)
    else end_pos

/-- The value of `end_pos` when the rollout loop starts (lines 821-832); the sum
`t+1+sequence_rollout` is a `size_t` sum. -/
def rollout_end_pos {L : Type} (cfg : config) (n t : Nat) (s : state L) : Nat :=
  let end_pos := if n < u64 (t + 1 + cfg.sequence_rollout) then n
    else u64 (t + 1 + cfg.sequence_rollout)
  if s.all_policies_optimal then t + 1
  else end_pos_loop s.policy_seq t (end_pos + 1) end_pos

/-- The branch under the label `NOT_REALLY_NEW` (lines 860-867): simulate the
prediction of cache entry `i` at position `t2`. -/
def rollout_item_new {L : Type} (cfg : config) (env : collaborators L) (t t2 i : Nat)
    (s : state L) : state L :=
  let s := { s with last_new := i }
  let hi := s.hcache.getD i default
  let s := { s with
    prediction_matches_history :=
        decide (t2 = t + 1 ∧
          last_prediction cfg (s.all_histories.getD hi.predictions []) = s.pred_seq.getD t 0) }
  let p := predict cfg env s (ec_at s t2) (s.all_histories.getD hi.predictions [])
    (s.policy_seq.getD t2 0) (true_label_at s t2).label
  let s := { (p.2.2) with ec_seq := p.2.2.ec_seq.set t2 (some p.2.1) }
  let yhat := p.1
  let s := { s with
    all_histories :=
        (append_history_item cfg s.all_histories (s.hcache.getD i default) (u32 yhat)).1 }
  let hi := s.hcache.getD i default
  { s with hcache := s.hcache.set i { hi with
      loss := hi.loss + s.gamma * (true_label_at s t2).weight *
        (if yhat ≠ (true_label_at s t2).label then 1 else 0) } }

/-- The branch that copies from the previous new cache entry (lines 853-857). -/
def rollout_item_copy {L : Type} (cfg : config) (t t2 i : Nat) (s : state L) : state L :=
  let hi := s.hcache.getD i default
  let s := { s with
    prediction_matches_history :=
        decide (t2 = t + 1 ∧
          last_prediction cfg (s.all_histories.getD hi.predictions []) = s.pred_seq.getD t 0) }
  let ln := s.hcache.getD s.last_new default
  let s := { s with hcache := s.hcache.set i { (s.hcache.getD i default) with
    predictions := ln.predictions } }
  let ln := s.hcache.getD s.last_new default
  let s := { s with hcache := s.hcache.set i { (s.hcache.getD i default) with
    predictions_hash := ln.predictions_hash } }
  let ln := s.hcache.getD s.last_new default
  let hi := s.hcache.getD i default
  { s with hcache := s.hcache.set i { hi with
      loss := hi.loss + s.gamma * (true_label_at s t2).weight *
        (if last_prediction cfg (s.all_histories.getD ln.predictions []) ≠
            (true_label_at s t2).label then 1 else 0) } }

/-- The body of the loop over the cache entries inside the rollout
(lines 845-873).  `last_new` is a `size_t`, so the test `last_new < 0` never
holds. -/
def rollout_item {L : Type} (cfg : config) (env : collaborators L) (t t2 i : Nat)
    (s : state L) : state L :=
  let s := { s with prediction_matches_history := false }
  let s :=
    if cfg.OPTIMIZE_SHARED_HISTORIES ∧ (s.hcache.getD i default).same then
      if s.last_new < 0 then rollout_item_new cfg env t t2 i s
      else rollout_item_copy cfg t t2 i s
    else rollout_item_new cfg env t t2 i s
  let s := { s with hcache := s.hcache.set i { (s.hcache.getD i default) with same := false } }
  if s.prediction_matches_history then
    { s with
      pred_seq := s.pred_seq.set (t + 1)
        (last_prediction cfg (s.all_histories.getD (s.hcache.getD i default).predictions [])) }
  else s

/-- The rollout loop `for (t2 = t+1; t2 < end_pos; t2++)` (lines 836-875); the
first argument is the number of iterations left, the second is `t2`. -/
def rollout_loop {L : Type} (cfg : config) (env : collaborators L) (t : Nat) :
    Nat → Nat → state L → state L
  | 0, _, s => s
  | fuel + 1, t2, s =>
    let s := { s with gamma := s.gamma * cfg.sequence_gamma }
    let s := if cfg.OPTIMIZE_SHARED_HISTORIES then sort_hcache_and_mark_equality cfg env s else s
    if cfg.OPTIMIZE_SHARED_HISTORIES ∧ hcache_all_equal cfg s then s
    else
      let s := { s with entered_rollout := true }
      let s := for_loop 0 cfg.sequence_k (rollout_item cfg env t t2) s
      rollout_loop cfg env t fuel (t2 + 1) s

/-- Position `t` up to the end of the rollout (lines 808-880): seed the cache,
roll out, repair `pred_seq[t]`. -/
def rollout_position {L : Type} (cfg : config) (env : collaborators L) (n t : Nat)
    (s : state L) : state L :=
  let s := for_loop 0 cfg.sequence_k (seed_item cfg t) s
  let end_pos := rollout_end_pos cfg n t s
  let s := { s with entered_rollout := false, gamma := 1 }
  let s := rollout_loop cfg env t (end_pos - (t + 1)) (t + 1) s
  if s.entered_rollout ∧ (s.pred_seq.getD t 0 ≤ 0 ∨ s.pred_seq.getD t 0 > cfg.sequence_k) then
    { s with pred_seq := s.pred_seq.set t 1 }
  else s

/-- The minimum computed at lines 884-887. -/
def min_loss (k : Nat) (hcache : List history_item) : ℚ :=
  for_loop 1 k (fun i m => if (hcache.getD i default).loss < m then (hcache.getD i default).loss
    else m) (hcache.getD 0 default).loss

/-- The cost vector written at lines 884-890. -/
def compute_loss_vector {L : Type} (cfg : config) (s : state L) : state L :=
  let m := min_loss cfg.sequence_k s.hcache
  { s with
    loss_vector := for_loop 0 cfg.sequence_k (fun i lv =>
      lv.set (s.hcache.getD i default).original_label ((s.hcache.getD i default).loss - m))
      s.loss_vector }

/-- The rest of position `t` (lines 883-898): cost vector, training example,
update of the running history. -/
def train_position {L : Type} (cfg : config) (env : collaborators L) (n t : Nat)
    (s : state L) : state L :=
  let s := compute_loss_vector cfg s
  let g := generate_training_example cfg env s (ec_at s t) s.current_history s.loss_vector
  let s := { (g.2) with ec_seq := g.2.ec_seq.set t (some g.1) }
  let s := { s with
    current_history :=
        append_history cfg.history_length s.current_history (u32 (s.pred_seq.getD t 0)) }
  if ¬ s.entered_rollout ∧ t < n - 1 then
    let p := predict cfg env s (ec_at s (t + 1)) s.current_history
      (s.policy_seq.getD (t + 1) 0) (true_label_at s (t + 1)).label
    { (p.2.2) with
      ec_seq := p.2.2.ec_seq.set (t + 1) (some p.2.1)
      pred_seq := p.2.2.pred_seq.set (t + 1) p.1 }
  else s

/-- The body of the main loop over the positions (lines 806-899). -/
def learn_position {L : Type} (cfg : config) (env : collaborators L) (n t : Nat)
    (s : state L) : state L :=
  train_position cfg env n t (rollout_position cfg env n t s)

/-- The statement `ec_seq[i]->ld = (void*)true_labels[i]` (line 902). -/
def restore_label {L : Type} (i : Nat) (s : state L) : state L :=
  { s with
    ec_seq := s.ec_seq.set i (some { (ec_at s i) with ld := s.true_labels.getD i default }) }

/-- The training part of `process_next_example_sequence` for the `n` examples
held in `ec_seq` (lines 764-902). -/
def train_sequence {L : Type} (cfg : config) (env : collaborators L) (n : Nat)
    (s : state L) : state L :=
  let s := { s with
    current_history := clear_history cfg.history_length s.current_history
    true_labels := [] }
  let s := for_loop 0 n (behavior_step cfg env) s
  let s := { s with sd := { s.sd with example_number := s.sd.example_number + 1 } }
  let s := print_update cfg s
  let s := { s with all_policies_optimal := true }
  let s := for_loop 0 n (fun t s =>
    let s := if s.policy_seq.getD t 0 ≥ 0 then { s with all_policies_optimal := false } else s
    { s with pred_seq := s.pred_seq.set 0 (2 ^ 64 - 1) }) s
  let s := { s with current_history := clear_history cfg.history_length s.current_history }
  let p := predict cfg env s (ec_at s 0) s.current_history (s.policy_seq.getD 0 0)
    (true_label_at s 0).label
  let s := { (p.2.2) with
    ec_seq := p.2.2.ec_seq.set 0 (some p.2.1)
    pred_seq := p.2.2.pred_seq.set 0 p.1 }
  let s := { s with last_new := 2 ^ 64 - 1, prediction_matches_history := false }
  let s := for_loop 0 n (learn_position cfg env n) s
  for_loop 0 n restore_label s

/-- The two release loops at the end (lines 905-909). -/
def release_sequence {L : Type} (n : Nat) (cur_ec : Option vw_example) (s : state L) :
    state L :=
  let s := for_loop 0 n (fun i s => free_example s (s.ec_seq.getD i none)) s
  match cur_ec with
  | some e => free_example s (some e)
  | none => s

/-- The train mode of `process_next_example_sequence` (lines 742-909), entered
with the first example `cur_ec` of the sequence. -/
def process_training_sequence {L : Type} (cfg : config) (env : collaborators L)
    (cur_ec : vw_example) (s : state L) : state L :=
  let rd := read_sequence_loop cfg (s.parser.length + 1) 0 false (some cur_ec) s
  let n := rd.1
  let skip_this_one := rd.2.1
  let cur_ec := rd.2.2.1
  let s := rd.2.2.2
  if skip_this_one then skip_sequence n cur_ec s
  else release_sequence n cur_ec (train_sequence cfg env n s)

/-- The function `process_next_example_sequence()`. -/
def process_next_example_sequence {L : Type} (cfg : config) (env : collaborators L)
    (s : state L) : state L :=
  let s := { s with read_example_this_loop := 0 }
  let r := safe_get_example cfg 1 s
  match r.1 with
  | none => r.2
  | some cur_ec =>
    let r := skip_initial_newlines cfg (r.2.parser.length + 1) cur_ec r.2
    match r.1 with
    | none => r.2
    | some cur_ec =>
      if example_is_test cur_ec then run_test cfg env cur_ec r.2
      else process_training_sequence cfg env cur_ec r.2

/-- The function `allocate_required_memory()` run on the initial values of the
globals, with the outside world given: every buffer is zero-filled, the loss
vector holds `sequence_k` zeros. -/
def allocate_required_memory {L : Type} (cfg : config) (parser : List vw_example)
    (learner : L) (rng : drand48_state) (sd : shared_data) : state L :=
  { current_policy := 0
    current_history := List.replicate cfg.history_length 0
    ec_seq := List.replicate cfg.ring_size none
    pred_seq := List.replicate cfg.ring_size 0
    policy_seq := List.replicate cfg.ring_size 0
    all_histories := List.replicate cfg.sequence_k (List.replicate cfg.history_length 0)
    hcache := List.replicate cfg.sequence_k ⟨0, 0, 0, 0, false⟩
    true_labels := []
    loss_vector := List.replicate cfg.sequence_k 0
    read_example_this_loop := 0
    read_example_last_id := 0
    read_example_last_pass := 0
    read_example_should_warn_eof := 1
    passes_since_new_policy := 0
    warned_about_class_overage := false
    got_null := false
    sd := sd
    all_policies_optimal := false
    last_new := 0
    prediction_matches_history := false
    entered_rollout := false
    gamma := 1
    parser := parser
    learner := learner
    rng := rng
    freed := []
    learn_calls := []  }

/-! ## The options -/

/-- The entries of the variables map `vm` that `parse_sequence_args` reads.
`sequence` is required; the two toggles are present or absent; the others are
absent or carry a value of their C type (`size_t`, or `float` for the last
two). -/
structure sequence_options where
  sequence : Nat
  sequence_bigrams : Bool
  sequence_bigram_features : Bool
  sequence_history : Option Nat
  sequence_features : Option Nat
  sequence_rollout : Option Nat
  sequence_passes_per_policy : Option Nat
  sequence_beta : Option ℚ
  sequence_gamma : Option ℚ

/-- The file-level settings as their definitions initialise them (lines 55-77);
the fields of `global` and the constants of `constant.h` are those of `g`. -/
def initial_settings (g : config) : config :=
  { g with
    PRINT_UPDATE_EVERY_EXAMPLE := false
    OPTIMIZE_SHARED_HISTORIES := true
    sequence_history := 1
    sequence_bigrams := false
    sequence_features := 0
    sequence_bigram_features := false
    sequence_rollout := 256
    sequence_passes_per_policy := 1
    sequence_beta := 1 / 2
    sequence_k := 2
    sequence_gamma := 1
    history_length := 1
    total_number_of_policies := 1
    constant_pow_history_length := 0
    history_constant := 8290741 }

/-- The `float` quotient `a / b`. -/
def f32_div (a b : ℚ) : ℚ := f32_round (a / b)

/-- The function `parse_sequence_args(vm)`, on the settings `c`, with
`numpasses` the value of `global.numpasses`.  An option that is absent leaves
its setting as it is.  Both toggles set
`sequence_bigrams` (lines 553-556) and the option `sequence_gamma` is stored in
`sequence_beta` (lines 568-569), as in the source.  Line 581 divides two
`float`s; for `sequence_passes_per_policy = 0` the C value is not defined and
the model gives 0.  `max_string_length` (lines 583-584) only sizes the name
strings of the audit records, which the model leaves out. -/
def parse_sequence_args (vm : sequence_options) (numpasses : Nat) (c : config) : config :=
  let c := { c with sequence_k := vm.sequence }
  let c := { c with
    sequence_bigrams := if vm.sequence_bigrams then true else c.sequence_bigrams }
  let c := { c with
    sequence_bigrams := if vm.sequence_bigram_features then true else c.sequence_bigrams }
  let c := { c with sequence_history := vm.sequence_history.getD c.sequence_history }
  let c := { c with sequence_features := vm.sequence_features.getD c.sequence_features }
  let c := { c with sequence_rollout := vm.sequence_rollout.getD c.sequence_rollout }
  let c := { c with
    sequence_passes_per_policy :=
        vm.sequence_passes_per_policy.getD c.sequence_passes_per_policy }
  let c := { c with sequence_beta := vm.sequence_beta.getD c.sequence_beta }
  let c := { c with sequence_beta := vm.sequence_gamma.getD c.sequence_beta }
  let c := { c with sequence_beta := if c.sequence_beta ≤ 0 then 1 / 2 else c.sequence_beta }
  let c := { c with
    history_length :=
        if c.sequence_history > c.sequence_features then c.sequence_history
        else c.sequence_features }
  let c := { c with constant_pow_history_length := 1 }
  let c := { c with
    constant_pow_history_length :=
        for_loop 0 c.history_length (fun _ p => u64 (p * c.quadratic_constant))
          c.constant_pow_history_length }
  { c with
    total_number_of_policies :=
          size_t_of_int (-(Rat.floor (-(f32_div (f32_round numpasses)
            (f32_round c.sequence_passes_per_policy))))) }
/-! ## Auxiliary definitions used in the statements -/

/-- The example `ec` with the features `b` (and, under `global.audit`, the audit
records `ab`) pushed onto the history namespace. -/
def push_block (cfg : config) (ec : vw_example) (b : List feature) (ab : List audit_data) :
    vw_example :=
  { ec with
    atomics := Function.update ec.atomics cfg.history_namespace
      (ec.atomics cfg.history_namespace ++ b)
    audit_features :=
      if cfg.audit then
        Function.update ec.audit_features cfg.history_namespace
          (ec.audit_features cfg.history_namespace ++ ab)
      else ec.audit_features }

/-- The learner leaves the feature data of the example alone: namespace list,
features, and the feature accounting are the same after `global.cs_learn`. -/
def learner_keeps_features {L : Type} (env : collaborators L) : Prop :=
  ∀ (l : L) (e : vw_example),
    (env.cs_learn l e).2.indices = e.indices ∧
    (env.cs_learn l e).2.atomics = e.atomics ∧
    (env.cs_learn l e).2.sum_feat_sq = e.sum_feat_sq ∧
    (env.cs_learn l e).2.num_features = e.num_features ∧
    (env.cs_learn l e).2.total_sum_feat_sq = e.total_sum_feat_sq

/-- The training calls in a log of learner calls: for every example that was
handed to `global.cs_learn` with a cost-vector label, its address and the cost
vector, in call order. -/
def training_calls (log : List vw_example) : List (Nat × List ℚ) :=
  log.filterMap (fun e =>
    match e.ld with
    | label_ptr.costs c => some (e.addr, c)
    | _ => none)

/-- The loss held by the cache entry that represents label index `i`. -/
def candidate_loss (hcache : List history_item) (i : Nat) : ℚ :=
  ((hcache.find? (fun hi => decide (hi.original_label = i))).getD default).loss

/-- The address held in a slot of `ec_seq`, if the slot is not null. -/
def addr_of (slot : Option vw_example) : Option Nat := slot.map (fun e => e.addr)

/-- The example as `safe_get_example` hands it out: a label above `sequence_k`
is replaced by `sequence_k` (lines 669-676). -/
def clamp_label (cfg : config) (ec : vw_example) : vw_example :=
  if ec.ld.deref.label > cfg.sequence_k then
    { ec with ld := ec.ld.store_label (u32 cfg.sequence_k) }
  else ec

/-- A step from `s` to `t` that trains nothing and releases nothing: the learner
log grows by prediction calls only (label `empty_costs`), the loss vector, the
recorded true labels, the release log and the parser are as before, `ec_seq`
keeps its length, and a slot of `ec_seq` that held an example still holds an
example at the same address. -/
def quiet_step {L : Type} (s t : state L) : Prop :=
  (∃ new, t.learn_calls = s.learn_calls ++ new ∧ ∀ e ∈ new, e.ld = label_ptr.empty_costs) ∧
  t.loss_vector = s.loss_vector ∧
  t.true_labels = s.true_labels ∧
  t.freed = s.freed ∧
  t.parser = s.parser ∧
  t.current_policy = s.current_policy ∧
  t.ec_seq.length = s.ec_seq.length ∧
  ∀ i a, addr_of (s.ec_seq.getD i none) = some a → addr_of (t.ec_seq.getD i none) = some a

/-- The rollout cache at position `t` when the rollout is over (line 881),
starting the position in state `s`. -/
def position_cache {L : Type} (cfg : config) (env : collaborators L) (n t : Nat)
    (s : state L) : List history_item :=
  (rollout_position cfg env n t s).hcache

/-- The cost vector of position `t` (lines 883-890), starting the position in
state `s`. -/
def position_costs {L : Type} (cfg : config) (env : collaborators L) (n t : Nat)
    (s : state L) : List ℚ :=
  (compute_loss_vector cfg (rollout_position cfg env n t s)).loss_vector

/-- The parser of state `s` starts with a training sequence: a non-empty run
`seq` of examples that are neither boundary examples nor, once their label is
clamped, test examples; the run fits the ring (and `ec_seq` has the size of the
ring, as allocated); and it is followed by a boundary example or by the end of
the data, unless it fills the ring. -/
def starts_training_sequence {L : Type} (cfg : config) (s : state L)
    (seq rest : List vw_example) : Prop :=
  s.parser = seq ++ rest ∧
  seq ≠ [] ∧
  (∀ e ∈ seq, example_is_newline cfg e = false ∧ example_is_test (clamp_label cfg e) = false) ∧
  seq.length ≤ cfg.ring_size ∧
  s.ec_seq.length = cfg.ring_size ∧
  (seq.length = cfg.ring_size ∨ rest = [] ∨
    ∃ b r, rest = b :: r ∧ example_is_newline cfg b = true)


/-- The value of `pid` at line 140 of `random_policy`, for a draw `r` and at
least one valid policy: 0 when there is a single valid policy (line 127), the
sampled rank otherwise (lines 129-137). -/
def random_policy_pid (beta : ℚ) (num_valid_policies : Int) (r : ℚ) : Int :=
  if num_valid_policies = 1 then 0 else random_policy_rank beta num_valid_policies r

/-- How often the pass counter changes along a stream of examples, given by
their pass counters, when the pass seen last before the stream was `last`. -/
def pass_changes : Nat → List Nat → Nat
  | _, [] => 0
  | last, p :: ps => (if p ≠ last then 1 else 0) + pass_changes p ps

/-- One call of `safe_get_example` inside a run.  The call `c` gives the
argument `allow_past_eof` and says whether `read_example_this_loop` is set to 0
before the call, as the callers do at the start of a sequence (lines 723
and 927). -/
def safe_get_call {L : Type} (cfg : config) (c : Bool × Int) (s : state L) : state L :=
  let s := if c.1 then { s with read_example_this_loop := 0 } else s
  (safe_get_example cfg c.2 s).2

/-- A run of calls of `safe_get_example`, one for each entry of the list. -/
def safe_get_run {L : Type} (cfg : config) : List (Bool × Int) → state L → state L
  | [], s => s
  | c :: cs, s => safe_get_run cfg cs (safe_get_call cfg c s)

/-- The states a run of calls of `safe_get_example` goes through: the state
before the first call, then the state after each call. -/
def safe_get_trace {L : Type} (cfg : config) : List (Bool × Int) → state L → List (state L)
  | [], s => [s]
  | c :: cs, s => s :: safe_get_trace cfg cs (safe_get_call cfg c s)

/-- The indices `n` of the writes `ec_seq[n] = cur_ec` (line 751) that the loop
of lines 745-754 makes, in order; the arguments are those of
`read_sequence_loop`. -/
def read_sequence_indices {L : Type} (cfg : config) :
    Nat → Nat → Option vw_example → state L → List Nat
  | 0, _, _, _ => []
  | _ + 1, _, none, _ => []
  | fuel + 1, n, some cur_ec, s =>
    if example_is_newline cfg cur_ec then []
    else
      let s := { s with ec_seq := s.ec_seq.set n (some cur_ec) }
      let r := safe_get_example cfg 0 s
      n :: read_sequence_indices cfg fuel (n + 1) r.1 r.2

/-- The body of the `while` loop of `run_test` (lines 691-711) for the example
`ec`; the result is the next example and the state. -/
def run_test_step {L : Type} (cfg : config) (env : collaborators L) (ec : vw_example)
    (s : state L) : Option vw_example × state L :=
  let pr := random_policy cfg.sequence_beta s.current_policy 0 0 s.rng
  let s := { s with rng := pr.2 }
  let old_label := ec.ld
  let s := { s with sd := { s.sd with
    weighted_examples := s.sd.weighted_examples + old_label.deref.weight
    total_features := s.sd.total_features + ec.num_features } }
  let p := predict cfg env s ec s.current_history pr.1 (2 ^ 64 - 1)
  let ec := { (p.2.1) with ld := old_label }
  let s := p.2.2
  let s := { s with
    current_history := append_history cfg.history_length s.current_history (u32 p.1) }
  let s := free_example s (some ec)
  safe_get_example cfg 0 s

/-- The policies of a run of the `while` loop of `run_test`: for every
iteration, the value of `current_policy` when `random_policy(0, 0)` is called
(line 691) and the policy that call returns, which is the one handed to
`predict` (line 705).  The arguments are those of `run_test_loop`. -/
def run_test_policies {L : Type} (cfg : config) (env : collaborators L) :
    Nat → Option vw_example → state L → List (Nat × Int)
  | 0, _, _ => []
  | _ + 1, none, _ => []
  | fuel + 1, some ec, s =>
    if example_is_newline cfg ec then []
    else
      (s.current_policy, (random_policy cfg.sequence_beta s.current_policy 0 0 s.rng).1) ::
        run_test_policies cfg env fuel (run_test_step cfg env ec s).1 (run_test_step cfg env ec s).2

/-- A step from `s` to `u` that neither calls the learner nor touches the
running history, `pred_seq`, `policy_seq` or the counters of `global.sd`. -/
def nothing_learned {L : Type} (s u : state L) : Prop :=
  u.learn_calls = s.learn_calls ∧
  u.current_history = s.current_history ∧
  u.pred_seq = s.pred_seq ∧
  u.policy_seq = s.policy_seq ∧
  u.sd = s.sd

/-- The indices at which the loop of lines 828-832 reads `policy_seq`, in
order; the arguments are those of `end_pos_loop`. -/
def end_pos_reads (policy_seq : List Int) (t : Nat) : Nat → Nat → List Nat
  | 0, _ => []
  | fuel + 1, end_pos =>
    if end_pos ≥ t + 1 then
      (end_pos - 1) ::
        (if policy_seq.getD (end_pos - 1) 0 ≥ 0 then []
          else end_pos_reads policy_seq t fuel (end_pos - 1))
    else []

/-- The indices at which lines 821-832 read `policy_seq`; the arguments are
those of `rollout_end_pos`. -/
def rollout_end_pos_reads {L : Type} (cfg : config) (n t : Nat) (s : state L) : List Nat :=
  let end_pos := if n < u64 (t + 1 + cfg.sequence_rollout) then n
    else u64 (t + 1 + cfg.sequence_rollout)
  if s.all_policies_optimal then []
  else end_pos_reads s.policy_seq t (end_pos + 1) end_pos

/-- The rolling hash of the contents `h` of a history: the sum over the slots
`j` of `h[j] * c^(history_length - j)` modulo `2^32`, with
`c = quadratic_constant`. -/
def rolling_hash (cfg : config) (h : List Nat) : Nat :=
  ((List.range cfg.history_length).map
    (fun j => h.getD j 0 * cfg.quadratic_constant ^ (cfg.history_length - j))).sum % 2 ^ 32

/-- The stored hashes `hcache[i].predictions_hash` of the cache, in order. -/
def stored_hashes {L : Type} (s : state L) : List Nat :=
  s.hcache.map (fun hi => hi.predictions_hash)

/-- The rolling hashes of the history contents `*hcache[i].predictions` of the
cache, in order. -/
def rolling_hashes {L : Type} (cfg : config) (s : state L) : List Nat :=
  s.hcache.map (fun hi => rolling_hash cfg (s.all_histories.getD hi.predictions []))

/-- The history contents `*hcache[i].predictions` of the cache, in order. -/
def cache_histories {L : Type} (s : state L) : List (List Nat) :=
  s.hcache.map (fun hi => s.all_histories.getD hi.predictions [])

/-- The history slots that one iteration of the first loop of
`add_history_to_example` reads (lines 422 and 441). -/
def unigram_reads (cfg : config) (t : Nat) : List Nat :=
  size_t_sub cfg.history_length t ::
    (if t > 1 ∧ cfg.sequence_bigrams then [u64 (size_t_sub cfg.history_length t + 1)] else [])

/-- The history slots that one iteration of the innermost loop of
`add_history_to_example` reads (lines 480 and 500). -/
def cross_reads (cfg : config) (t : Nat) : List Nat :=
  size_t_sub cfg.history_length t ::
    (if t > 0 ∧ cfg.sequence_bigram_features then [u64 (size_t_sub cfg.history_length t + 1)]
      else [])

/-- The indices of the history slots `h[...]` that `add_history_to_example(ec, h)`
reads, in order: the first loop, then, for every feature of every namespace
listed in `ec->indices`, the innermost loop.  The features are those the
example holds on entry, as in `add_history_to_example`. -/
def add_history_reads (cfg : config) (ec : vw_example) : List Nat :=
  (List.range' 1 cfg.sequence_history).flatMap (unigram_reads cfg) ++
    (if cfg.sequence_features > 0 then
      ec.indices.flatMap (fun i =>
        (ec.atomics i).flatMap (fun _ =>
          (List.range' 1 cfg.sequence_features).flatMap (cross_reads cfg)))
    else [])

/-- The states in which the rollout loop of position `t` calls
`sort_hcache_and_mark_equality` (line 839), in order; the arguments are those of
`rollout_loop`. -/
def rollout_sort_states {L : Type} (cfg : config) (env : collaborators L) (t : Nat) :
    Nat → Nat → state L → List (state L)
  | 0, _, _ => []
  | fuel + 1, t2, s =>
    let s := { s with gamma := s.gamma * cfg.sequence_gamma }
    let called := if cfg.OPTIMIZE_SHARED_HISTORIES then [s] else []
    let s := if cfg.OPTIMIZE_SHARED_HISTORIES then sort_hcache_and_mark_equality cfg env s else s
    if cfg.OPTIMIZE_SHARED_HISTORIES ∧ hcache_all_equal cfg s then called
    else
      let s := { s with entered_rollout := true }
      let s := for_loop 0 cfg.sequence_k (rollout_item cfg env t t2) s
      called ++ rollout_sort_states cfg env t fuel (t2 + 1) s

/-- The states in which position `t` calls `sort_hcache_and_mark_equality`; the
arguments are those of `rollout_position`. -/
def position_sort_states {L : Type} (cfg : config) (env : collaborators L) (n t : Nat)
    (s : state L) : List (state L) :=
  let s := for_loop 0 cfg.sequence_k (seed_item cfg t) s
  let end_pos := rollout_end_pos cfg n t s
  let s := { s with entered_rollout := false, gamma := 1 }
  rollout_sort_states cfg env t (end_pos - (t + 1)) (t + 1) s
/-! ## Sample data

A small configuration (`k = 3`, one history slot, table of `2^18` weights, ring
of 8 examples), examples with a single feature in namespace 1, a stub learner
that always predicts label 1, and an insertion sort standing in for `qsort`. -/

/-- A configuration with `k = 3`, `sequence_history = 1` and no cross features. -/
def sample_config : config :=
  { ring_size := 8, parse_mask := 2 ^ 18 - 1, length := 2 ^ 18, stride := 1, audit := false,
    quiet := true, bfgs := false, quadratic_constant := 27942141, history_namespace := 127,
    constant_namespace := 128, PRINT_UPDATE_EVERY_EXAMPLE := false,
    OPTIMIZE_SHARED_HISTORIES := true, sequence_history := 1, sequence_bigrams := false,
    sequence_features := 0, sequence_bigram_features := false, sequence_rollout := 256,
    sequence_passes_per_policy := 1, sequence_beta := 1 / 2, sequence_k := 3,
    sequence_gamma := 1, history_length := 1, total_number_of_policies := 2,
    constant_pow_history_length := 27942141, history_constant := 8290741 }

/-- A configuration with two history slots, bigrams, one cross feature and audit
records. -/
def sample_config_rich : config :=
  { sample_config with
    audit := true, sequence_history := 2, sequence_bigrams := true, sequence_features := 1,
    sequence_bigram_features := true, history_length := 2,
    constant_pow_history_length := 27942141 * 27942141 }

/-- A labelled example at address `addr` with one feature, of weight index
`2^32 - 1 - addr`, in namespace 1. -/
def sample_example (addr label : Nat) : vw_example :=
  { addr := addr, ld := label_ptr.mc (100 + addr) ⟨label, 1⟩, final_prediction := 0,
    indices := [1],
    atomics := fun ns => if ns = 1 then [⟨1, 2 ^ 32 - 1 - addr⟩] else [],
    audit_features := fun _ => [],
    sum_feat_sq := fun ns => if ns = 1 then 1 else 0,
    num_features := 1, total_sum_feat_sq := 1, example_counter := addr, pass := 0 }

/-- An empty (boundary) example at address `addr`. -/
def sample_newline (addr : Nat) : vw_example :=
  { addr := addr, ld := label_ptr.mc (100 + addr) ⟨2 ^ 32 - 1, 1⟩, final_prediction := 0,
    indices := [], atomics := fun _ => [], audit_features := fun _ => [],
    sum_feat_sq := fun _ => 0, num_features := 0, total_sum_feat_sq := 0,
    example_counter := addr, pass := 0 }

/-- An example that already carries a feature in namespace 127. -/
def sample_example_history_taken : vw_example :=
  { addr := 1, ld := label_ptr.mc 101 ⟨1, 1⟩, final_prediction := 0,
    indices := [127],
    atomics := fun ns => if ns = 127 then [⟨1, 7⟩] else [],
    audit_features := fun _ => [],
    sum_feat_sq := fun ns => if ns = 127 then 1 else 0,
    num_features := 1, total_sum_feat_sq := 1, example_counter := 1, pass := 0 }

/-- Insertion sort by a C comparator. -/
def insertion_qsort (cmp : history_item → history_item → Int) (l : List history_item) :
    List history_item :=
  l.insertionSort (fun a b => cmp a b ≤ 0)

/-- A stub learner without state that always predicts label 1 and changes
nothing else. -/
def sample_env : collaborators Unit :=
  { cs_learn := fun l e => (l, { e with final_prediction := 1 }), qsort := insertion_qsort }

/-- The initial state for the sample configuration: buffers allocated, a
parser that will deliver `parser`, a generator that always draws `r`. -/
def sample_state (cfg : config) (parser : List vw_example) (r : ℚ) : state Unit :=
  allocate_required_memory cfg parser () ⟨fun _ => r, 0⟩ ⟨0, 0, 0, 0, 0, 0, 1⟩

/-- A sequence of four labelled examples (labels 1, 2, 3, 1) and the boundary
example after it. -/
def sample_sequence : List vw_example :=
  [sample_example 1 1, sample_example 2 2, sample_example 3 3, sample_example 4 1,
    sample_newline 5]

/-- The state at the start of the main loop for the four examples of
`sample_sequence` with one frozen policy: the examples are held in `ec_seq`,
their labels are recorded, every position uses policy 0 and the behaviour pass
predicted label 1 everywhere. -/
def sample_state_held : state Unit :=
  { sample_state sample_config [] (3 / 4) with
    current_policy := 1
    ec_seq := [some (sample_example 1 1), some (sample_example 2 2), some (sample_example 3 3),
      some (sample_example 4 1), none, none, none, none]
    true_labels := [(sample_example 1 1).ld, (sample_example 2 2).ld, (sample_example 3 3).ld,
      (sample_example 4 1).ld]
    pred_seq := [1, 1, 1, 1, 0, 0, 0, 0]
    last_new := 2 ^ 64 - 1 }

/-- The sample configuration with `k = 2^32 - 1` classes, the least `k` for
which the label of a test example survives the clamping of line 670. -/
def sample_config_many_classes : config :=
  { sample_config with sequence_k := 2 ^ 32 - 1 }

/-- A test example (label `(uint32_t)-1`) at address `addr`, with one feature. -/
def sample_test_example (addr : Nat) : vw_example :=
  sample_example addr (2 ^ 32 - 1)

/-- A sequence that mixes a training example and a test example, and the
boundary example after it. -/
def sample_mixed_sequence : List vw_example :=
  [sample_example 1 1, sample_test_example 2, sample_newline 3]


/-- The sample configuration with two passes per policy. -/
def sample_config_two_passes : config :=
  { sample_config with sequence_passes_per_policy := 2 }

/-- Five labelled examples whose pass counters are 0, 0, 1, 2, 2. -/
def sample_pass_stream : List vw_example :=
  [{ sample_example 1 1 with pass := 0 }, { sample_example 2 1 with pass := 0 },
    { sample_example 3 1 with pass := 1 }, { sample_example 4 1 with pass := 2 },
    { sample_example 5 1 with pass := 2 }]

/-- Five calls of `safe_get_example`: the first at the start of a sequence, with
`allow_past_eof` set, the others inside the sequence. -/
def sample_calls : List (Bool × Int) :=
  [(true, 1), (false, 0), (false, 0), (false, 0), (false, 0)]

/-- The sample configuration with a ring of two examples. -/
def sample_config_small_ring : config :=
  { sample_config with ring_size := 2 }

/-- The sample configuration with two history slots (`sequence_history = 2`). -/
def sample_config_two_slots : config :=
  { sample_config with
    sequence_history := 2, history_length := 2,
    constant_pow_history_length := 27942141 * 27942141 }

/-- The sample configuration with `k = 2` classes. -/
def sample_config_two_classes : config :=
  { sample_config with sequence_k := 2 }

/-- The state at the start of the main loop for the four examples of
`sample_sequence` under the configuration `cfg`, with one frozen policy: the
examples are held in `ec_seq`, their labels are recorded, every position uses
policy 0 and the behaviour pass predicted label 1 everywhere. -/
def sample_state_held_for (cfg : config) : state Unit :=
  { sample_state cfg [] (3 / 4) with
    current_policy := 1
    ec_seq := [some (sample_example 1 1), some (sample_example 2 2), some (sample_example 3 3),
      some (sample_example 4 1), none, none, none, none]
    true_labels := [(sample_example 1 1).ld, (sample_example 2 2).ld, (sample_example 3 3).ld,
      (sample_example 4 1).ld]
    pred_seq := [1, 1, 1, 1, 0, 0, 0, 0]
    last_new := 2 ^ 64 - 1 }

/-- A rollout cache of three candidates for two history slots: all rolling
hashes are 0 and the histories are `[1,1]`, `[2,1]`, `[3,1]`, as they are after
the first rollout step when the learner predicts label 1 for every candidate. -/
def sample_state_cache : state Unit :=
  { sample_state sample_config_two_slots [] (3 / 4) with
    all_histories := [[1, 1], [2, 1], [3, 1]]
    hcache := [⟨0, 0, 1, 0, false⟩, ⟨1, 0, 2, 1, false⟩, ⟨2, 0, 2, 2, false⟩] }

/-- A rollout cache whose first two candidates have the same history `[2,1]` and
the rolling hashes 0 and 5. -/
def sample_state_cache_hashes : state Unit :=
  { sample_state sample_config_two_slots [] (3 / 4) with
    all_histories := [[2, 1], [2, 1], [0, 0]]
    hcache := [⟨0, 0, 0, 0, false⟩, ⟨1, 5, 1, 1, false⟩, ⟨2, 9, 1, 2, false⟩] }

/-- The rollout cache for `k = 2` at position 0 of the sample sequence after
the first rollout step (`t2 = 1`): the cache is seeded with the histories `[1]`
and `[2]`, and the stub learner predicts label 1 for both candidates. -/
def sample_state_after_first_step : state Unit :=
  rollout_loop sample_config_two_classes sample_env 0 1 1
    (for_loop 0 2 (seed_item sample_config_two_classes 0)
      (sample_state_held_for sample_config_two_classes))

/-- The sample configuration with two history slots and the shared-history
optimisation switched off. -/
def sample_config_two_slots_plain : config :=
  { sample_config_two_slots with OPTIMIZE_SHARED_HISTORIES := false }

/-- A stub learner without state whose prediction is a function of the encoded
example: it reads the second history feature, the one that encodes the older of
the two history slots, and predicts `1 + (weight_index / 4) mod 3`.  For the
older slot holding 0, 1, 2, 3 this is the label 1, 2, 3, 2. -/
def sample_env_older_slot : collaborators Unit :=
  { cs_learn := fun l e =>
      (l, { e with final_prediction :=
        1 + (((e.atomics 127).getD 1 ⟨0, 0⟩).weight_index / 4) % 3 }),
    qsort := insertion_qsort }

/-- The initial state for `cfg` on the sample sequence once the first pass is
over: one frozen policy, and a generator that always draws `1/4`, so that every
position is predicted with policy 0. -/
def sample_state_second_pass (cfg : config) : state Unit :=
  { sample_state cfg sample_sequence (1 / 4) with current_policy := 1 }

/-- A state whose first four positions have the policies 0, 0, -1, -1; the flag
`all_policies_optimal` is unset. -/
def sample_state_policies : state Unit :=
  { sample_state sample_config [] 0 with policy_seq := [0, 0, -1, -1, 0, 0, 0, 0] }

/-- A sequence of one test example (label `(uint32_t)-1`, address 1) and the
boundary example after it. -/
def sample_test_sequence : List vw_example :=
  [sample_test_example 1, sample_newline 2]

/-- The label of the example that a call returned, if it returned one. -/
def returned_label (r : Option vw_example) : Option Nat :=
  r.map (fun e => e.ld.deref.label)

/-- A labelled example at address 1 with one feature of value `2^-13` in
namespace 1, so that its sums of squares are `2^-26`. -/
def sample_example_small_value : vw_example :=
  { addr := 1, ld := label_ptr.mc 101 ⟨2, 1⟩, final_prediction := 0,
    indices := [1],
    atomics := fun ns => if ns = 1 then [⟨1 / 8192, 2 ^ 32 - 2⟩] else [],
    audit_features := fun _ => [],
    sum_feat_sq := fun ns => if ns = 1 then 1 / 67108864 else 0,
    num_features := 1, total_sum_feat_sq := 1 / 67108864, example_counter := 1, pass := 0 }

/-- The example `sample_example 1 2` with the history features of `[3, 2]`
injected, under two history slots, both bigram toggles, one cross feature and
audit records. -/
def sample_injected : vw_example :=
  add_history_to_example sample_config_rich (sample_example 1 2) [3, 2]

/-- The example `sample_injected` with the history features removed again. -/
def sample_restored : vw_example :=
  remove_history_from_example sample_config_rich sample_injected

/-- One `predict` cycle on `sample_example 1 2` with the history `[3]`, policy
1 and the stub learner, from freshly allocated buffers. -/
def sample_predict_cycle : Nat × vw_example × state Unit :=
  predict sample_config sample_env
    (allocate_required_memory sample_config [] () ⟨fun _ => 0, 0⟩ ⟨0, 0, 0, 0, 0, 0, 1⟩)
    (sample_example 1 2) [3] 1 2

/-- One `generate_training_example` cycle on `sample_example 1 2` with the
history `[3]`, the cost vector `[0, 1, 1]` and the stub learner, from freshly
allocated buffers. -/
def sample_training_cycle : vw_example × state Unit :=
  generate_training_example sample_config sample_env
    (allocate_required_memory sample_config [] () ⟨fun _ => 0, 0⟩ ⟨0, 0, 0, 0, 0, 0, 1⟩)
    (sample_example 1 2) [3] [0, 1, 1]

/-- The sample configuration with the rollout length `2^64 - 3`. -/
def sample_config_long_rollout : config :=
  { sample_config with sequence_rollout := 2 ^ 64 - 3 }

/-- A state with eight positions whose policies are all 0; the flag
`all_policies_optimal` is unset. -/
def sample_state_no_oracle : state Unit :=
  { sample_state sample_config [] 0 with policy_seq := [0, 0, 0, 0, 0, 0, 0, 0] }

/-- The options `--sequence 3 --sequence_history 2 --sequence_features 1
--sequence_bigrams --sequence_bigram_features`. -/
def sample_options : sequence_options :=
  { sequence := 3, sequence_bigrams := true, sequence_bigram_features := true,
    sequence_history := some 2, sequence_features := some 1, sequence_rollout := none,
    sequence_passes_per_policy := none, sequence_beta := none, sequence_gamma := none }
/-! ## Loops -/

theorem foldl_range_induction {σ : Type} (P : Nat → σ → Prop) (body : Nat → σ → σ)
    (hi : Nat) : ∀ (d lo : Nat) (s : σ), lo + d = hi → P lo s →
    (∀ i s, lo ≤ i → i < hi → P i s → P (i + 1) (body i s)) →
    P hi ((List.range' lo d).foldl (fun s i => body i s) s) := by
  intro d
  induction d with
  | zero =>
    intro lo s h h0 _
    simp at h
    subst h
    simpa using h0
  | succ d ih =>
    intro lo s h h0 hstep
    rw [List.range'_succ, List.foldl_cons]
    apply ih (lo + 1) (body lo s) (by omega)
    · exact hstep lo s (le_refl _) (by omega) h0
    · intro i s hlo hhi hp
      exact hstep i s (by omega) hhi hp

/-- Invariant rule for `for_loop`: a property indexed by the loop counter that
holds on entry and is carried by every iteration holds on exit. -/
theorem for_loop_inv {σ : Type} (P : Nat → σ → Prop) (body : Nat → σ → σ)
    (lo hi : Nat) (s : σ) (hle : lo ≤ hi) (h0 : P lo s)
    (hstep : ∀ i s, lo ≤ i → i < hi → P i s → P (i + 1) (body i s)) :
    P hi (for_loop lo hi body s) := by
  unfold for_loop
  exact foldl_range_induction P body hi (hi - lo) lo s (by omega) h0 hstep

/-- Invariant rule for `for_loop` when the property does not mention the
counter. -/
theorem for_loop_preserves {σ : Type} (P : σ → Prop) (body : Nat → σ → σ)
    (lo hi : Nat) (s : σ) (h0 : P s)
    (hstep : ∀ i s, lo ≤ i → i < hi → P s → P (body i s)) :
    P (for_loop lo hi body s) := by
  rcases Nat.lt_or_ge hi lo with h | h
  · have : hi - lo = 0 := by omega
    simp [for_loop, this, h0]
  · exact for_loop_inv (fun _ s => P s) body lo hi s h h0 hstep

theorem for_loop_empty {σ : Type} (body : Nat → σ → σ) (lo hi : Nat) (s : σ) (h : hi ≤ lo) :
    for_loop lo hi body s = s := by
  have : hi - lo = 0 := by omega
  simp [for_loop, this]

theorem for_loop_succ {σ : Type} (body : Nat → σ → σ) (lo hi : Nat) (s : σ) (h : lo ≤ hi) :
    for_loop lo (hi + 1) body s = body hi (for_loop lo hi body s) := by
  unfold for_loop
  have : hi + 1 - lo = (hi - lo) + 1 := by omega
  rw [this, List.range'_concat, List.foldl_append]
  simp
  congr 1
  omega

/-! ## History manipulation -/

theorem append_history_loop (hl : Nat) (h : List Nat) (hlen : h.length = hl) :
    (for_loop 1 hl (fun i h => h.set (i - 1) (h.getD i 0)) h).length = hl ∧
    ∀ m, (for_loop 1 hl (fun i h => h.set (i - 1) (h.getD i 0)) h).getD m 0
      = if m + 1 < hl then h.getD (m + 1) 0 else h.getD m 0 := by
  rcases Nat.eq_zero_or_pos hl with h0 | hpos
  · subst h0
    have : h = [] := List.length_eq_zero.mp hlen
    subst this
    simp [for_loop]
  · exact for_loop_inv
      (fun j (x : List Nat) => x.length = hl ∧
        ∀ m, x.getD m 0 = if m + 1 < j then h.getD (m + 1) 0 else h.getD m 0)
      (fun i h => h.set (i - 1) (h.getD i 0)) 1 hl h hpos
      ⟨hlen, by intro m; simp⟩
      (by
        rintro i s hi1 hi2 ⟨hl1, hm⟩
        refine ⟨by simp [hl1], ?_⟩
        intro m
        rw [List.getD_eq_getElem?_getD, List.getElem?_set]
        by_cases hmi : i - 1 = m
        · have hmi2 : m + 1 = i := by omega
          have h3 : i - 1 < s.length := by omega
          have h4 : ¬ (i + 1 < i) := by omega
          rw [if_pos hmi, if_pos h3, hmi2, if_pos (Nat.lt_succ_self i)]
          simp only [Option.getD_some]
          rw [hm i, if_neg h4]
        · rw [if_neg hmi, ← List.getD_eq_getElem?_getD, hm]
          by_cases h5 : m + 1 < i
          · rw [if_pos h5, if_pos (by omega)]
          · rw [if_neg h5, if_neg (by omega)])

theorem append_history_length (hl : Nat) (h : List Nat) (p : Nat) (hlen : h.length = hl) :
    (append_history hl h p).length = hl := by
  unfold append_history
  have := (append_history_loop hl h hlen).1
  by_cases h0 : hl > 0
  · simp only [h0, if_true, List.length_set]
    exact this
  · simp only [h0, if_false]
    exact this

theorem append_history_getD (hl : Nat) (h : List Nat) (p : Nat) (hlen : h.length = hl)
    (m : Nat) :
    (append_history hl h p).getD m 0 =
      if m + 1 < hl then h.getD (m + 1) 0 else if m + 1 = hl then p else 0 := by
  unfold append_history
  obtain ⟨h1, h2⟩ := append_history_loop hl h hlen
  by_cases h0 : hl > 0
  · simp only [h0, if_true]
    rw [List.getD_eq_getElem?_getD, List.getElem?_set]
    by_cases hm : hl - 1 = m
    · have h3 : hl - 1 < (for_loop 1 hl (fun i h => h.set (i - 1) (h.getD i 0)) h).length := by
        omega
      rw [if_pos hm, if_pos h3, if_neg (by omega), if_pos (by omega)]
      rfl
    · rw [if_neg hm, ← List.getD_eq_getElem?_getD, h2]
      by_cases h5 : m + 1 < hl
      · rw [if_pos h5, if_pos h5]
      · rw [if_neg h5, if_neg h5, if_neg (by omega)]
        apply List.getD_eq_default
        omega
  · have : hl = 0 := by omega
    subst this
    have : h = [] := List.length_eq_zero.mp hlen
    subst this
    simp [for_loop]

theorem list_eq_of_getD (a b : List Nat) (hl : a.length = b.length)
    (h : ∀ m, a.getD m 0 = b.getD m 0) : a = b := by
  apply List.ext_getElem hl
  intro n h1 h2
  have := h n
  rw [List.getD_eq_getElem _ _ h1, List.getD_eq_getElem _ _ h2] at this
  exact this

/-- Closed form of `append_history` on a buffer of the right length: drop the
oldest slot, add `p` at the end. -/
theorem append_history_eq (hl : Nat) (h : List Nat) (p : Nat) (hlen : h.length = hl)
    (hpos : 1 ≤ hl) : append_history hl h p = h.drop 1 ++ [p] := by
  apply list_eq_of_getD
  · rw [append_history_length hl h p hlen]
    simp
    omega
  · intro m
    rw [append_history_getD hl h p hlen]
    rw [List.getD_eq_getElem?_getD, List.getD_eq_getElem?_getD]
    by_cases h1 : m + 1 < hl
    · rw [if_pos h1, List.getElem?_append_left (by simp; omega), List.getElem?_drop]
      congr 2
      omega
    · rw [if_neg h1, List.getElem?_append_right (by simp; omega)]
      by_cases h2 : m + 1 = hl
      · rw [if_pos h2]
        have : m - (List.drop 1 h).length = 0 := by simp; omega
        rw [this]
        rfl
      · rw [if_neg h2]
        have : m - (List.drop 1 h).length = (m + 1 - hl) := by simp; omega
        rw [this]
        have : m + 1 - hl = (m - hl) + 1 := by omega
        rw [this]
        simp

/-! ## Policy offsets -/

theorem u32_shift_back (w a : Nat) (hw : w < 2 ^ 32) :
    u32 (u32 (w + a) + size_t_sub 0 a) = w := by
  unfold u32 size_t_sub
  omega

theorem feature_shift_back (f : feature) (a : Nat) (hw : f.weight_index < 2 ^ 32) :
    ({ ({ f with weight_index := u32 (f.weight_index + a) } : feature) with
        weight_index := u32 (u32 (f.weight_index + a) + size_t_sub 0 a) } : feature) = f := by
  cases f with
  | mk x w =>
    simp only [feature.mk.injEq, true_and]
    exact u32_shift_back w a hw

theorem map_shift_back (l : List feature) (a : Nat)
    (hw : ∀ f ∈ l, f.weight_index < 2 ^ 32) :
    (l.map (fun f => ({ f with weight_index := u32 (f.weight_index + a) } : feature))).map
      (fun f => ({ f with weight_index := u32 (f.weight_index + size_t_sub 0 a) } : feature)) = l := by
  rw [List.map_map]
  conv_rhs => rw [← List.map_id l]
  apply List.map_congr_left
  intro f hf
  simp only [Function.comp, id]
  exact feature_shift_back f a (hw f hf)

theorem update_indicies_round_trip (ec : vw_example) (a : Nat)
    (hw : ∀ ns, ns ∈ ec.indices → ∀ f ∈ ec.atomics ns, f.weight_index < 2 ^ 32) :
    update_indicies (update_indicies ec a) (size_t_sub 0 a) = ec := by
  cases ec with
  | mk addr ld fp indices atomics audit sfs nf tsfs cnt pass =>
    simp only [update_indicies, vw_example.mk.injEq, true_and, and_true]
    funext ns
    by_cases h : ns ∈ indices
    · simp only [h, if_true]
      exact map_shift_back (atomics ns) a (hw ns h)
    · simp only [h, if_false]

/-! ## History features -/

theorem foldl_preserves {α σ : Type} (P : σ → Prop) (f : σ → α → σ) :
    ∀ (l : List α) (s : σ), P s → (∀ s a, a ∈ l → P s → P (f s a)) → P (l.foldl f s) := by
  intro l
  induction l with
  | nil =>
    intro s h _
    exact h
  | cons a l ih =>
    intro s h hstep
    rw [List.foldl_cons]
    apply ih
    · exact hstep s a (List.mem_cons_self _ _) h
    · intro s b hb hp
      exact hstep s b (List.mem_cons_of_mem _ hb) hp

theorem push_block_nil (cfg : config) (ec : vw_example) : push_block cfg ec [] [] = ec := by
  cases ec
  simp [push_block]

theorem push_history_feature_block (cfg : config) (ec : vw_example) (b : List feature)
    (ab : List audit_data) (v : Nat) :
    push_history_feature cfg (push_block cfg ec b ab) v =
      push_block cfg ec (b ++ [⟨1, u32 (u64 (2 * v) &&& cfg.parse_mask)⟩])
        (ab ++ [⟨u32 (u64 (2 * v) &&& cfg.parse_mask), 1, true⟩]) := by
  cases ec
  by_cases ha : cfg.audit <;> simp [push_history_feature, push_block, ha]

/-- Pushing a history feature keeps an example of the form "`ec` plus a block
on the history namespace" in that form. -/
theorem push_history_feature_is_block (cfg : config) (ec e : vw_example) (v : Nat)
    (h : ∃ b ab, e = push_block cfg ec b ab) :
    ∃ b ab, push_history_feature cfg e v = push_block cfg ec b ab := by
  obtain ⟨b, ab, rfl⟩ := h
  exact ⟨_, _, push_history_feature_block cfg ec b ab v⟩

theorem add_history_unigram_step_is_block (cfg : config) (hist : List Nat) (t : Nat)
    (ec e : vw_example) (h : ∃ b ab, e = push_block cfg ec b ab) :
    ∃ b ab, add_history_unigram_step cfg hist t e = push_block cfg ec b ab := by
  unfold add_history_unigram_step
  simp only
  split
  · exact push_history_feature_is_block cfg ec _ _ (push_history_feature_is_block cfg ec _ _ h)
  · exact push_history_feature_is_block cfg ec _ _ h

theorem add_history_cross_step_is_block (cfg : config) (hist : List Nat) (v t : Nat)
    (ec e : vw_example) (h : ∃ b ab, e = push_block cfg ec b ab) :
    ∃ b ab, add_history_cross_step cfg hist v t e = push_block cfg ec b ab := by
  unfold add_history_cross_step
  simp only
  split
  · exact push_history_feature_is_block cfg ec _ _ (push_history_feature_is_block cfg ec _ _ h)
  · exact push_history_feature_is_block cfg ec _ _ h

/-- The shape of `add_history_to_example`: a block of features on the history
namespace, the history namespace appended to the namespace list, and the
accounting of lines 522-525. -/
theorem add_history_to_example_shape (cfg : config) (ec : vw_example) (hist : List Nat) :
    ∃ b ab, add_history_to_example cfg ec hist =
      { push_block cfg ec b ab with
        indices := ec.indices ++ [cfg.history_namespace]
        sum_feat_sq := Function.update ec.sum_feat_sq cfg.history_namespace
          (f32_add (ec.sum_feat_sq cfg.history_namespace)
            (f32_round ((ec.atomics cfg.history_namespace ++ b).length : ℚ)))
        total_sum_feat_sq := f32_add ec.total_sum_feat_sq
          (f32_add (ec.sum_feat_sq cfg.history_namespace)
            (f32_round ((ec.atomics cfg.history_namespace ++ b).length : ℚ)))
        num_features := u64 (ec.num_features + (ec.atomics cfg.history_namespace ++ b).length) } := by
  have h1 : ∃ b ab, for_loop 1 (cfg.sequence_history + 1) (add_history_unigram_step cfg hist) ec
      = push_block cfg ec b ab := by
    apply for_loop_preserves (fun e => ∃ b ab, e = push_block cfg ec b ab)
    · exact ⟨[], [], (push_block_nil cfg ec).symm⟩
    · intro i s _ _ hs
      exact add_history_unigram_step_is_block cfg hist i ec s hs
  have h2 : ∃ b ab,
      (if cfg.sequence_features > 0 then
        (for_loop 1 (cfg.sequence_history + 1) (add_history_unigram_step cfg hist) ec).indices.foldl
          (fun ec i =>
            (ec.atomics i).foldl (fun ec f =>
              for_loop 1 (cfg.sequence_features + 1)
                (add_history_cross_step cfg hist (u32 (f.weight_index + cfg.history_constant))) ec)
              ec)
          (for_loop 1 (cfg.sequence_history + 1) (add_history_unigram_step cfg hist) ec)
      else for_loop 1 (cfg.sequence_history + 1) (add_history_unigram_step cfg hist) ec)
      = push_block cfg ec b ab := by
    split
    · apply foldl_preserves (fun e => ∃ b ab, e = push_block cfg ec b ab)
      · exact h1
      · intro s i _ hs
        apply foldl_preserves (fun e => ∃ b ab, e = push_block cfg ec b ab)
        · exact hs
        · intro s2 f _ hs2
          apply for_loop_preserves (fun e => ∃ b ab, e = push_block cfg ec b ab)
          · exact hs2
          · intro t s3 _ _ hs3
            exact add_history_cross_step_is_block cfg hist _ t ec s3 hs3
    · exact h1
  obtain ⟨b, ab, hb⟩ := h2
  refine ⟨b, ab, ?_⟩
  unfold add_history_to_example
  simp only [hb]
  simp [push_block]

/-- The effect of `remove_history_from_example` after `add_history_to_example`,
for any example: the history namespace and its sum of squares are cleared,
`total_sum_feat_sq` has gone through the `float` addition and subtraction of
the sum of squares of the history namespace, and everything else is as
before. -/
theorem remove_after_add_history (cfg : config) (ec : vw_example) (hist : List Nat) :
    remove_history_from_example cfg (add_history_to_example cfg ec hist) =
      { ec with
        num_features := ec.num_features % 2 ^ 64
        total_sum_feat_sq :=
          f32_sub (f32_add ec.total_sum_feat_sq
              ((add_history_to_example cfg ec hist).sum_feat_sq cfg.history_namespace))
            ((add_history_to_example cfg ec hist).sum_feat_sq cfg.history_namespace)
        sum_feat_sq := Function.update ec.sum_feat_sq cfg.history_namespace 0
        atomics := Function.update ec.atomics cfg.history_namespace []
        audit_features :=
          if cfg.audit then Function.update ec.audit_features cfg.history_namespace []
          else ec.audit_features } := by
  obtain ⟨b, ab, hb⟩ := add_history_to_example_shape cfg ec hist
  rw [hb]
  have harith : ∀ nf m : Nat, size_t_sub (u64 (nf + m)) m = nf % 2 ^ 64 := by
    intro nf m
    unfold size_t_sub u64
    omega
  cases ec with
  | mk addr ld fp indices atomics audit sfs nf tsfs cnt pass =>
    by_cases ha : cfg.audit
    · simp [remove_history_from_example, push_block, ha, harith]
    · simp [remove_history_from_example, push_block, ha, harith]

/-! ## binary32 rounding -/

theorem log2_halving_le : ∀ (fuel n k : Nat), n < 2 ^ (k + 1) → log2_halving fuel n ≤ k := by
  intro fuel
  induction fuel with
  | zero =>
    intro n k _
    simp [log2_halving]
  | succ fuel ih =>
    intro n k h
    unfold log2_halving
    by_cases h2 : n ≥ 2
    · rw [if_pos h2]
      cases k with
      | zero => omega
      | succ k =>
        have hdiv : n / 2 < 2 ^ (k + 1) := by
          apply Nat.div_lt_of_lt_mul
          rw [pow_succ] at h
          omega
        have := ih (n / 2) k hdiv
        omega
    · rw [if_neg h2]
      exact Nat.zero_le _

theorem round_half_even_natCast (N : Nat) : round_half_even (N : ℚ) = N := by
  unfold round_half_even
  have hf : Rat.floor (N : ℚ) = (N : Int) := by
    simp [Rat.floor]
  simp only [hf]
  have h0 : ((N : ℚ) - ((N : Int) : ℚ)) = 0 := by
    simp
  rw [h0]
  norm_num

/-- A natural number below `2^24` is a binary32 value: converting it to `float`
does not round. -/
theorem f32_round_natCast (n : Nat) (h : n < 2 ^ 24) : f32_round (n : ℚ) = n := by
  unfold f32_round
  by_cases h0 : (n : ℚ) = 0
  · rw [if_pos h0, h0]
  · rw [if_neg h0]
    have hn : 0 < n := by
      rcases Nat.eq_zero_or_pos n with h1 | h1
      · exact absurd (by simp [h1]) h0
      · exact h1
    have habs : |(n : ℚ)| = n := abs_of_nonneg (by positivity)
    have hneg : ¬ ((n : ℚ) < 0) := by
      have : (0 : ℚ) ≤ n := by positivity
      linarith
    rw [habs, if_neg hneg]
    have hL : log2_halving n n ≤ 23 := log2_halving_le n n 23 (by simpa using h)
    have h1 : log2_halving 1 1 = 0 := by decide
    have hfl : floor_log2 (n : ℚ) ≤ 23 ∧ -1 ≤ floor_log2 (n : ℚ) := by
      unfold floor_log2
      simp only [Rat.num_natCast, Int.natAbs_ofNat, Rat.den_natCast, h1]
      split_ifs
      · constructor
        · push_cast
          omega
        · push_cast
          omega
      · constructor
        · push_cast
          omega
        · push_cast
          omega
    obtain ⟨hfl1, hfl2⟩ := hfl
    have hmax : max (floor_log2 (n : ℚ)) (-126) = floor_log2 (n : ℚ) := max_eq_left (by omega)
    simp only [hmax]
    generalize floor_log2 (n : ℚ) = e at hfl1 hfl2
    have hp : pow2 (e - 23) = 1 / ((2 ^ (23 - e).toNat : Nat) : ℚ) := by
      unfold pow2
      by_cases he : e - 23 ≥ 0
      · rw [if_pos he]
        have e23 : e = 23 := by omega
        subst e23
        norm_num
      · rw [if_neg he]
        have : -(e - 23) = 23 - e := by ring
        rw [this]
    rw [hp]
    have hq : (n : ℚ) / (1 / ((2 ^ (23 - e).toNat : Nat) : ℚ))
        = ((n * 2 ^ (23 - e).toNat : Nat) : ℚ) := by
      push_cast
      field_simp
    rw [hq, round_half_even_natCast]
    push_cast
    field_simp
/-! ## Policy selection -/

/-- The mass of the first `j + 1` ranks of the geometric law: `1 - (1-beta)^(j+1)`. -/
theorem geometric_mass_succ (beta : ℚ) (j : Nat) :
    1 - (1 - beta) ^ (j + 1 + 1) = (1 - (1 - beta) ^ (j + 1)) + beta * (1 - beta) ^ (j + 1) := by
  ring

/-- What the loop of `random_policy` returns when it is entered at rank `j` with
`r - (1 - (1-beta)^(j+1))` left of the draw: a rank `m` between `j` and
`N - 1`, such that the draw exceeds the mass of every rank from `j` up to `m - 1`
and, unless `m` is the last rank, does not exceed the mass up to `m`. -/
theorem random_policy_loop_spec (beta r : ℚ) (N : Int) :
    ∀ (fuel j : Nat), (j : Int) + fuel = N - 1 →
    ∃ m : Nat, random_policy_loop beta N fuel (j : Int) (r - (1 - (1 - beta) ^ (j + 1))) = (m : Int)
      ∧ j ≤ m ∧ (m : Int) ≤ N - 1
      ∧ (∀ i, j ≤ i → i < m → 1 - (1 - beta) ^ (i + 1) < r)
      ∧ ((m : Int) < N - 1 → r ≤ 1 - (1 - beta) ^ (m + 1)) := by
  intro fuel
  induction fuel with
  | zero =>
    intro j hj
    refine ⟨j, rfl, le_refl _, by omega, ?_, ?_⟩
    · intro i h1 h2
      omega
    · intro h
      omega
  | succ fuel ih =>
    intro j hj
    unfold random_policy_loop
    by_cases hc : r - (1 - (1 - beta) ^ (j + 1)) > 0 ∧ (j : Int) < N - 1
    · rw [if_pos hc]
      have hexp : ((j : Int) + 1).toNat = j + 1 := by omega
      have hr : r - (1 - (1 - beta) ^ (j + 1)) - beta * (1 - beta) ^ ((j : Int) + 1).toNat
          = r - (1 - (1 - beta) ^ (j + 1 + 1)) := by
        rw [hexp, geometric_mass_succ]
        ring
      rw [hr]
      have hcast : ((j : Int) + 1) = ((j + 1 : Nat) : Int) := by push_cast; ring
      rw [hcast]
      obtain ⟨m, h1, h2, h3, h4, h5⟩ := ih (j + 1) (by push_cast; omega)
      refine ⟨m, h1, by omega, h3, ?_, h5⟩
      intro i hi1 hi2
      rcases Nat.eq_or_lt_of_le hi1 with heq | hlt
      · subst heq
        linarith [hc.1]
      · exact h4 i hlt hi2
    · rw [if_neg hc]
      refine ⟨j, rfl, le_refl _, by omega, ?_, ?_⟩
      · intro i h1 h2
        omega
      · intro h
        have : ¬ (r - (1 - (1 - beta) ^ (j + 1)) > 0) := fun h0 => hc ⟨h0, h⟩
        linarith

/-- What `random_policy_rank` returns for at least two valid policies. -/
theorem random_policy_rank_spec (beta r : ℚ) (N : Int) (hN : 2 ≤ N) :
    ∃ m : Nat, random_policy_rank beta N r = (m : Int)
      ∧ (m : Int) ≤ N - 1
      ∧ (∀ i, i < m → 1 - (1 - beta) ^ (i + 1) < r)
      ∧ ((m : Int) < N - 1 → r ≤ 1 - (1 - beta) ^ (m + 1)) := by
  unfold random_policy_rank
  by_cases hb : r > beta
  · rw [if_pos hb]
    have h0 : r - beta = r - (1 - (1 - beta) ^ (0 + 1)) := by ring
    rw [h0]
    obtain ⟨m, h1, h2, h3, h4, h5⟩ :=
      random_policy_loop_spec beta r N (N - 1).toNat 0 (by push_cast; omega)
    refine ⟨m, h1, h3, ?_, h5⟩
    intro i hi
    exact h4 i (Nat.zero_le _) hi
  · rw [if_neg hb]
    refine ⟨0, rfl, by push_cast; omega, ?_, ?_⟩
    · intro i hi
      omega
    · intro _
      have : (1 : ℚ) - (1 - beta) ^ (0 + 1) = beta := by ring
      rw [this]
      linarith

/-- Some rank has enough geometric mass to cover a draw below 1. -/
theorem geometric_mass_covers (beta r : ℚ) (hb0 : 0 < beta) (hb1 : beta < 1) (hr1 : r < 1) :
    ∃ j : Nat, r ≤ 1 - (1 - beta) ^ (j + 1) := by
  obtain ⟨n, hn⟩ := exists_pow_lt_of_lt_one (show (0 : ℚ) < 1 - r by linarith)
    (show 1 - beta < 1 by linarith)
  refine ⟨n, ?_⟩
  have h : (0 : ℚ) ≤ 1 - beta := by linarith
  have h1 : (1 - beta) ^ (n + 1) ≤ (1 - beta) ^ n := by
    rw [pow_succ]
    calc (1 - beta) ^ n * (1 - beta) ≤ (1 - beta) ^ n * 1 := by
          apply mul_le_mul_of_nonneg_left (by linarith) (pow_nonneg h n)
      _ = (1 - beta) ^ n := by ring
  linarith


/-- The value of `pid` at line 140 is a rank between 0 and
`num_valid_policies - 1`, whatever the draw. -/
theorem random_policy_pid_range (beta r : ℚ) (N : Int) (hN : 1 ≤ N) :
    ∃ j : Nat, random_policy_pid beta N r = (j : Int) ∧ (j : Int) ≤ N - 1 := by
  unfold random_policy_pid
  by_cases h1 : N = 1
  · rw [if_pos h1]
    exact ⟨0, rfl, by omega⟩
  · rw [if_neg h1]
    obtain ⟨m, hm, hmN, _, _⟩ := random_policy_rank_spec beta r N (by omega)
    exact ⟨m, hm, hmN⟩

/-- With `beta < 1` and at least one valid policy, `random_policy` maps the
value of `pid` at line 140 through lines 140-148. -/
theorem random_policy_eq_of_pid (beta : ℚ) (current_policy : Nat)
    (allow_optimal allow_current : Int) (g : drand48_state) (hb : beta < 1)
    (hN : 1 ≤ (current_policy : Int) + allow_optimal + allow_current) :
    (random_policy beta current_policy allow_optimal allow_current g).1 =
      random_policy_of_rank current_policy allow_optimal allow_current
        ((current_policy : Int) + allow_optimal + allow_current)
        (random_policy_pid beta ((current_policy : Int) + allow_optimal + allow_current)
          (g.draws g.pos)) := by
  have hb1 : ¬ (beta ≥ 1) := by linarith
  have hN0 : ¬ ((current_policy : Int) + allow_optimal + allow_current = 0) := by omega
  unfold random_policy_pid
  by_cases h1 : (current_policy : Int) + allow_optimal + allow_current = 1
  · simp [random_policy, hb1, h1]
  · simp only [random_policy, hb1, if_false, hN0, h1, drand48]

/-! ## The encode, learn, decode cycle -/

/-- The decode half of the cycle undoes the encode half on the features, the
namespace list and `num_features`, whatever else happened to the example in
between, provided the history namespace was free: `e0` is the example before
the cycle and `e4` the example as the learner hands it back, with the feature
data of the encoded example.  `total_sum_feat_sq` has gone through the `float`
addition and subtraction of the sum of squares of the history namespace. -/
theorem decode_after_encode (cfg : config) (e0 e4 : vw_example) (hist : List Nat) (a : Nat)
    (hfree : e0.atomics cfg.history_namespace = [])
    (hidx : cfg.history_namespace ∉ e0.indices)
    (hw : ∀ ns, ns ∈ e0.indices → ∀ f ∈ e0.atomics ns, f.weight_index < 2 ^ 32)
    (hnf : e0.num_features < 2 ^ 64)
    (h1 : e4.indices = (update_indicies (add_history_to_example cfg e0 hist) a).indices)
    (h2 : e4.atomics = (update_indicies (add_history_to_example cfg e0 hist) a).atomics)
    (h3 : e4.sum_feat_sq = (update_indicies (add_history_to_example cfg e0 hist) a).sum_feat_sq)
    (h4 : e4.num_features = (update_indicies (add_history_to_example cfg e0 hist) a).num_features)
    (h5 : e4.total_sum_feat_sq =
      (update_indicies (add_history_to_example cfg e0 hist) a).total_sum_feat_sq) :
    (update_indicies (remove_history_from_example cfg e4) (size_t_sub 0 a)).atomics = e0.atomics ∧
    (update_indicies (remove_history_from_example cfg e4) (size_t_sub 0 a)).indices = e0.indices ∧
    (update_indicies (remove_history_from_example cfg e4) (size_t_sub 0 a)).num_features
      = e0.num_features ∧
    (update_indicies (remove_history_from_example cfg e4) (size_t_sub 0 a)).total_sum_feat_sq
      = f32_sub (f32_add e0.total_sum_feat_sq
          ((add_history_to_example cfg e0 hist).sum_feat_sq cfg.history_namespace))
        ((add_history_to_example cfg e0 hist).sum_feat_sq cfg.history_namespace) := by
  obtain ⟨b, ab, hb⟩ := add_history_to_example_shape cfg e0 hist
  rw [hb] at h1 h2 h3 h4 h5
  simp only [update_indicies, push_block] at h1 h2 h3 h4 h5
  have harith : ∀ nf m : Nat, nf < 2 ^ 64 → size_t_sub (u64 (nf + m)) m = nf := by
    intro nf m h
    unfold size_t_sub u64
    omega
  have hne : ¬ (e4.indices.length = 0) := by rw [h1]; simp
  have hlast : ¬ (e4.indices.getLast? ≠ some cfg.history_namespace) := by rw [h1]; simp
  have hlen : (e4.atomics cfg.history_namespace).length
      = (e0.atomics cfg.history_namespace ++ b).length := by
    rw [h2]
    simp
  refine ⟨?_, ?_, ?_, ?_⟩
  · funext ns
    simp only [update_indicies, remove_history_from_example, hne, hlast, if_false]
    rw [h1, List.dropLast_concat]
    by_cases hns : ns ∈ e0.indices
    · have hnh : ns ≠ cfg.history_namespace := fun h => hidx (h ▸ hns)
      rw [if_pos hns, Function.update_noteq hnh, h2]
      simp only [List.mem_append, hns, true_or, if_true, Function.update_noteq hnh]
      exact map_shift_back (e0.atomics ns) a (hw ns hns)
    · rw [if_neg hns]
      by_cases hnh : ns = cfg.history_namespace
      · subst hnh
        rw [Function.update_same, hfree]
      · rw [Function.update_noteq hnh, h2]
        simp [hns, hnh]
  · simp only [update_indicies, remove_history_from_example, hne, hlast, if_false]
    rw [h1, List.dropLast_concat]
  · simp only [update_indicies, remove_history_from_example, hne, hlast, if_false]
    rw [h4, hlen]
    exact harith _ _ hnf
  · simp only [update_indicies, remove_history_from_example, hne, hlast, if_false]
    rw [h5, h3, hb]
    simp only [Function.update_same]

/-- The feature data of an example after `cs_learn_call`, for a learner that
keeps features. -/
theorem cs_learn_call_features {L : Type} (env : collaborators L) (s : state L)
    (ec : vw_example) (hl : learner_keeps_features env) :
    (cs_learn_call env s ec).1.indices = ec.indices ∧
    (cs_learn_call env s ec).1.atomics = ec.atomics ∧
    (cs_learn_call env s ec).1.sum_feat_sq = ec.sum_feat_sq ∧
    (cs_learn_call env s ec).1.num_features = ec.num_features ∧
    (cs_learn_call env s ec).1.total_sum_feat_sq = ec.total_sum_feat_sq := by
  simpa [cs_learn_call] using hl s.learner ec

/-! ## Facts about the sample data -/

theorem sample_example_weight_bound (addr label : Nat) :
    ∀ ns, ∀ f ∈ (sample_example addr label).atomics ns, f.weight_index < 2 ^ 32 := by
  intro ns f hf
  unfold sample_example at hf
  simp only at hf
  split at hf
  · simp only [List.mem_singleton] at hf
    subst hf
    simp only
    omega
  · simp at hf

theorem sample_env_keeps_features : learner_keeps_features sample_env := by
  intro l e
  simp [sample_env]

theorem insertion_qsort_perm (cmp : history_item → history_item → Int) (l : List history_item) :
    (insertion_qsort cmp l).Perm l :=
  List.perm_insertionSort _ l

theorem sample_sequence_starts_training :
    starts_training_sequence sample_config (sample_state sample_config sample_sequence (3 / 4))
      [sample_example 1 1, sample_example 2 2, sample_example 3 3, sample_example 4 1]
      [sample_newline 5] := by
  refine ⟨rfl, by simp, ?_, by decide, by decide, Or.inr (Or.inr ⟨_, _, rfl, by decide⟩)⟩
  intro e he
  simp only [List.mem_cons, List.mem_singleton, List.not_mem_nil, or_false] at he
  rcases he with h | h | h | h <;> subst h <;> exact ⟨by decide, by decide⟩

/-! ## Frame properties of the steps of `process_next_example_sequence` -/

theorem quiet_step_refl {L : Type} (s : state L) : quiet_step s s :=
  ⟨⟨[], by simp, by simp⟩, rfl, rfl, rfl, rfl, rfl, rfl, fun _ _ h => h⟩

theorem quiet_step_trans {L : Type} {a b c : state L} (h1 : quiet_step a b)
    (h2 : quiet_step b c) : quiet_step a c := by
  obtain ⟨⟨n1, e1, l1⟩, a2, a8, a3, a4, a5, a6, a7⟩ := h1
  obtain ⟨⟨n2, e2, l2⟩, b2, b8, b3, b4, b5, b6, b7⟩ := h2
  refine ⟨⟨n1 ++ n2, by rw [e2, e1, List.append_assoc], ?_⟩, by rw [b2, a2], by rw [b8, a8],
    by rw [b3, a3], by rw [b4, a4], by rw [b5, a5], by rw [b6, a6],
    fun i x h => b7 i x (a7 i x h)⟩
  intro e he
  rcases List.mem_append.mp he with h | h
  · exact l1 e h
  · exact l2 e h

/-- A state that agrees with a quiet successor on the fields that `quiet_step`
looks at is a quiet successor too. -/
theorem quiet_step_congr {L : Type} {s t u : state L} (h : quiet_step s t)
    (h1 : u.learn_calls = t.learn_calls) (h2 : u.loss_vector = t.loss_vector)
    (h8 : u.true_labels = t.true_labels)
    (h3 : u.freed = t.freed) (h4 : u.parser = t.parser)
    (h5 : u.current_policy = t.current_policy) (h6 : u.ec_seq = t.ec_seq) :
    quiet_step s u := by
  obtain ⟨⟨n1, e1, l1⟩, a2, a8, a3, a4, a5, a6, a7⟩ := h
  exact ⟨⟨n1, by rw [h1, e1], l1⟩, by rw [h2, a2], by rw [h8, a8], by rw [h3, a3],
    by rw [h4, a4], by rw [h5, a5], by rw [h6, a6], fun i x hx => by rw [h6]; exact a7 i x hx⟩

/-- A step that changes none of the fields that `quiet_step` looks at. -/
theorem quiet_step_of_eq {L : Type} {s u : state L}
    (h1 : u.learn_calls = s.learn_calls) (h2 : u.loss_vector = s.loss_vector)
    (h8 : u.true_labels = s.true_labels)
    (h3 : u.freed = s.freed) (h4 : u.parser = s.parser)
    (h5 : u.current_policy = s.current_policy) (h6 : u.ec_seq = s.ec_seq) :
    quiet_step s u :=
  quiet_step_congr (quiet_step_refl s) h1 h2 h8 h3 h4 h5 h6

theorem for_loop_quiet {L : Type} (body : Nat → state L → state L) (lo hi : Nat) (s : state L)
    (h : ∀ i s, quiet_step s (body i s)) : quiet_step s (for_loop lo hi body s) :=
  for_loop_preserves (fun t => quiet_step s t) body lo hi s (quiet_step_refl s)
    (fun i t _ _ ht => quiet_step_trans ht (h i t))

/-! ### Addresses -/

theorem update_indicies_addr (ec : vw_example) (a : Nat) : (update_indicies ec a).addr = ec.addr :=
  rfl

theorem remove_history_addr (cfg : config) (ec : vw_example) :
    (remove_history_from_example cfg ec).addr = ec.addr := by
  unfold remove_history_from_example
  split
  · rfl
  · split <;> rfl

theorem add_history_addr (cfg : config) (ec : vw_example) (h : List Nat) :
    (add_history_to_example cfg ec h).addr = ec.addr := by
  obtain ⟨b, ab, hb⟩ := add_history_to_example_shape cfg ec h
  rw [hb]
  rfl

theorem cs_learn_call_addr {L : Type} (env : collaborators L) (s : state L) (ec : vw_example) :
    (cs_learn_call env s ec).1.addr = ec.addr := rfl

/-- The state after `cs_learn_call`: only the learner and the log change, and
the log grows by the example handed over. -/
theorem cs_learn_call_state {L : Type} (env : collaborators L) (s : state L) (ec : vw_example) :
    (cs_learn_call env s ec).2 =
      { s with learner := (env.cs_learn s.learner ec).1, learn_calls := s.learn_calls ++ [ec] } :=
  rfl

/-- What `predict` does to the state and to the address of the example: only
the learner and the log change, the log grows by calls with the label
`empty_costs`, and the example stays at its address. -/
theorem predict_spec {L : Type} (cfg : config) (env : collaborators L) (s : state L)
    (ec : vw_example) (h : List Nat) (policy : Int) (truth : Nat) :
    ∃ (l : L) (new : List vw_example),
      (predict cfg env s ec h policy truth).2.2 =
        { s with learner := l, learn_calls := s.learn_calls ++ new } ∧
      (∀ e ∈ new, e.ld = label_ptr.empty_costs) ∧
      (predict cfg env s ec h policy truth).2.1.addr = ec.addr := by
  unfold predict
  split
  · refine ⟨s.learner, [], ?_, by simp, rfl⟩
    simp
  · refine ⟨_, _, cs_learn_call_state env s _, ?_, ?_⟩
    · intro e he
      simp only [List.mem_singleton] at he
      rw [he]
    · simp only [remove_policy_offset, update_indicies_addr, remove_history_addr,
        cs_learn_call_addr, add_policy_offset, add_history_addr]

/-- Writing an example with the same address back into its slot keeps the
addresses held in `ec_seq`. -/
theorem set_slot_addr (ec_seq : List (Option vw_example)) (t : Nat) (e : vw_example)
    (he : e.addr = ((ec_seq.getD t none).getD default).addr) :
    ∀ i a, addr_of (ec_seq.getD i none) = some a →
      addr_of ((ec_seq.set t (some e)).getD i none) = some a := by
  intro i a hia
  rw [List.getD_eq_getElem?_getD, List.getElem?_set]
  by_cases hti : t = i
  · subst hti
    rw [if_pos rfl]
    split
    · simp only [Option.getD_some, addr_of, Option.map_some']
      rw [he]
      cases hget : ec_seq.getD t none with
      | none => rw [hget] at hia; simp [addr_of] at hia
      | some x =>
        rw [hget] at hia
        simpa [addr_of] using hia
    · rename_i hlt
      have : ec_seq.getD t none = none := by
        apply List.getD_eq_default
        omega
      rw [this] at hia
      simp [addr_of] at hia
  · rw [if_neg hti, ← List.getD_eq_getElem?_getD]
    exact hia

/-- The pattern `x = predict(ec_seq[t], ...)` with the example written back:
a quiet step, whatever else of the scratch state is updated along with it. -/
theorem predict_writeback_quiet {L : Type} (cfg : config) (env : collaborators L) (s u : state L)
    (t : Nat) (h : List Nat) (policy : Int) (truth : Nat)
    (h1 : u.learn_calls = (predict cfg env s (ec_at s t) h policy truth).2.2.learn_calls)
    (h2 : u.loss_vector = (predict cfg env s (ec_at s t) h policy truth).2.2.loss_vector)
    (h8 : u.true_labels = (predict cfg env s (ec_at s t) h policy truth).2.2.true_labels)
    (h3 : u.freed = (predict cfg env s (ec_at s t) h policy truth).2.2.freed)
    (h4 : u.parser = (predict cfg env s (ec_at s t) h policy truth).2.2.parser)
    (h5 : u.current_policy = (predict cfg env s (ec_at s t) h policy truth).2.2.current_policy)
    (h6 : u.ec_seq = (predict cfg env s (ec_at s t) h policy truth).2.2.ec_seq.set t
      (some (predict cfg env s (ec_at s t) h policy truth).2.1)) :
    quiet_step s u := by
  obtain ⟨l, new, hs, hnew, haddr⟩ := predict_spec cfg env s (ec_at s t) h policy truth
  rw [hs] at h1 h2 h8 h3 h4 h5 h6
  refine ⟨⟨new, h1, hnew⟩, h2, h8, h3, h4, h5, by rw [h6, List.length_set], ?_⟩
  rw [h6]
  exact set_slot_addr s.ec_seq t _ haddr

/-! ### The steps are quiet -/

/-- Iteration `t` of the first loop over the positions records the label
pointer of `ec_seq[t]` and is otherwise quiet. -/
theorem behavior_step_quiet {L : Type} (cfg : config) (env : collaborators L) (t : Nat)
    (s : state L) :
    quiet_step { s with true_labels := s.true_labels ++ [(ec_at s t).ld] }
      (behavior_step cfg env t s) := by
  unfold behavior_step
  lift_lets
  extract_lets pr s1 s2 src1 s3 p src2 s4 s5 src3 s6 pr2 s7
  have h1 : quiet_step { s with true_labels := s.true_labels ++ [(ec_at s t).ld] } s3 :=
    quiet_step_of_eq rfl rfl rfl rfl rfl rfl rfl
  have h2 : quiet_step s3 s5 :=
    predict_writeback_quiet cfg env s3 s5 t _ _ _ rfl rfl rfl rfl rfl rfl rfl
  have h3 : quiet_step s5 s6 := by
    apply quiet_step_of_eq <;> (simp only [s6]; split_ifs <;> rfl)
  have h4 : quiet_step s6 s7 := quiet_step_of_eq rfl rfl rfl rfl rfl rfl rfl
  refine quiet_step_trans (quiet_step_trans (quiet_step_trans h1 h2) h3) ?_
  split_ifs
  · exact quiet_step_trans h4 (quiet_step_of_eq rfl rfl rfl rfl rfl rfl rfl)
  · exact h4

/-- Iteration `t` of the first loop writes `ec_seq` at slot `t` only. -/
theorem behavior_step_ec_seq {L : Type} (cfg : config) (env : collaborators L) (t : Nat)
    (s : state L) :
    ∃ e, (behavior_step cfg env t s).ec_seq = s.ec_seq.set t (some e) := by
  unfold behavior_step
  lift_lets
  extract_lets pr s1 s2 src1 s3 p src2 s4 s5 src3 s6 pr2 s7
  obtain ⟨l, new, hs, _, _⟩ := predict_spec cfg env s3 (ec_at s3 t) s3.current_history
    (s3.policy_seq.getD t 0) (2 ^ 64 - 1)
  have h4 : s4.ec_seq = s.ec_seq.set t (some p.2.1) := by
    show p.2.2.ec_seq.set t (some p.2.1) = _
    simp only [p]
    rw [hs]
  have h6 : s6.ec_seq = s4.ec_seq := by
    simp only [s6]
    split_ifs <;> rfl
  refine ⟨p.2.1, ?_⟩
  split_ifs
  · show s6.ec_seq = _
    rw [h6, h4]
  · show s6.ec_seq = _
    rw [h6, h4]

theorem seed_item_quiet {L : Type} (cfg : config) (t i : Nat) (s : state L) :
    quiet_step s (seed_item cfg t i s) :=
  quiet_step_of_eq rfl rfl rfl rfl rfl rfl rfl

theorem sort_hcache_quiet {L : Type} (cfg : config) (env : collaborators L) (s : state L) :
    quiet_step s (sort_hcache_and_mark_equality cfg env s) :=
  quiet_step_of_eq rfl rfl rfl rfl rfl rfl rfl

theorem rollout_item_new_quiet {L : Type} (cfg : config) (env : collaborators L) (t t2 i : Nat)
    (s : state L) : quiet_step s (rollout_item_new cfg env t t2 i s) := by
  unfold rollout_item_new
  lift_lets
  extract_lets s1 hi s2 p src s3 yhat s4 hi2
  have h1 : quiet_step s s2 := quiet_step_of_eq rfl rfl rfl rfl rfl rfl rfl
  have h2 : quiet_step s2 s3 :=
    predict_writeback_quiet cfg env s2 s3 t2 _ _ _ rfl rfl rfl rfl rfl rfl rfl
  exact quiet_step_trans (quiet_step_trans h1 h2) (quiet_step_of_eq rfl rfl rfl rfl rfl rfl rfl)

theorem rollout_item_copy_quiet {L : Type} (cfg : config) (t t2 i : Nat) (s : state L) :
    quiet_step s (rollout_item_copy cfg t t2 i s) :=
  quiet_step_of_eq rfl rfl rfl rfl rfl rfl rfl

theorem rollout_item_quiet {L : Type} (cfg : config) (env : collaborators L) (t t2 i : Nat)
    (s : state L) : quiet_step s (rollout_item cfg env t t2 i s) := by
  unfold rollout_item
  lift_lets
  extract_lets s1 s2 src s3
  have h1 : quiet_step s s1 := quiet_step_of_eq rfl rfl rfl rfl rfl rfl rfl
  have h2 : quiet_step s1 s2 := by
    simp only [s2]
    split_ifs
    · exact rollout_item_new_quiet cfg env t t2 i s1
    · exact rollout_item_copy_quiet cfg t t2 i s1
    · exact rollout_item_new_quiet cfg env t t2 i s1
  have h3 : quiet_step s2 s3 := quiet_step_of_eq rfl rfl rfl rfl rfl rfl rfl
  refine quiet_step_trans (quiet_step_trans (quiet_step_trans h1 h2) h3) ?_
  split_ifs
  · exact quiet_step_of_eq rfl rfl rfl rfl rfl rfl rfl
  · exact quiet_step_refl _

theorem rollout_loop_quiet {L : Type} (cfg : config) (env : collaborators L) (t : Nat) :
    ∀ (fuel t2 : Nat) (s : state L), quiet_step s (rollout_loop cfg env t fuel t2 s) := by
  intro fuel
  induction fuel with
  | zero =>
    intro t2 s
    exact quiet_step_refl s
  | succ fuel ih =>
    intro t2 s
    unfold rollout_loop
    lift_lets
    extract_lets s1 s2 s3 s4
    have h1 : quiet_step s s1 := quiet_step_of_eq rfl rfl rfl rfl rfl rfl rfl
    have h2 : quiet_step s1 s2 := by
      simp only [s2]
      split_ifs
      · exact sort_hcache_quiet cfg env s1
      · exact quiet_step_refl _
    have h12 := quiet_step_trans h1 h2
    split_ifs
    · exact h12
    · have h3 : quiet_step s2 s3 := quiet_step_of_eq rfl rfl rfl rfl rfl rfl rfl
      have h4 : quiet_step s3 s4 := for_loop_quiet _ _ _ _ (rollout_item_quiet cfg env t t2)
      exact quiet_step_trans (quiet_step_trans (quiet_step_trans h12 h3) h4) (ih _ _)

theorem rollout_position_quiet {L : Type} (cfg : config) (env : collaborators L) (n t : Nat)
    (s : state L) : quiet_step s (rollout_position cfg env n t s) := by
  unfold rollout_position
  lift_lets
  extract_lets s1 end_pos s2 s3
  have h1 : quiet_step s s1 := for_loop_quiet _ _ _ _ (seed_item_quiet cfg t)
  have h2 : quiet_step s1 s2 := quiet_step_of_eq rfl rfl rfl rfl rfl rfl rfl
  have h3 : quiet_step s2 s3 := rollout_loop_quiet cfg env t _ _ _
  refine quiet_step_trans (quiet_step_trans (quiet_step_trans h1 h2) h3) ?_
  split_ifs
  · exact quiet_step_of_eq rfl rfl rfl rfl rfl rfl rfl
  · exact quiet_step_refl _

/-! ## The rollout cache and the cost vector -/

theorem map_label_set (l : List history_item) (i : Nat) (x : history_item)
    (h : x.original_label = (l.getD i default).original_label) :
    (l.set i x).map (fun hi => hi.original_label) = l.map (fun hi => hi.original_label) := by
  rw [List.map_set]
  by_cases hi : i < l.length
  · rw [List.getD_eq_getElem _ _ hi] at h
    rw [h]
    apply List.ext_getElem
    · simp
    · intro n h1 h2
      rw [List.getElem_set]
      split
      · rename_i heq
        subst heq
        simp
      · rfl
  · rw [List.set_eq_of_length_le]
    simp
    omega

/-- Seeding the cache gives entry `i` the label index `i`. -/
theorem seed_labels {L : Type} (cfg : config) (t : Nat) (s : state L)
    (hlen : s.hcache.length = cfg.sequence_k) :
    (for_loop 0 cfg.sequence_k (seed_item cfg t) s).hcache.map (fun hi => hi.original_label)
      = List.range cfg.sequence_k := by
  have key := for_loop_inv
    (fun i (u : state L) => u.hcache.length = cfg.sequence_k ∧
      ∀ j, j < i → (u.hcache.getD j default).original_label = j)
    (seed_item cfg t) 0 cfg.sequence_k s (Nat.zero_le _)
    ⟨hlen, fun j hj => absurd hj (Nat.not_lt_zero _)⟩
    (by
      rintro i u _ hi ⟨hl, hj⟩
      have hset : (seed_item cfg t i u).hcache = u.hcache.set i
          { predictions := i, predictions_hash := 0,
            loss := (true_label_at u t).weight *
              (if i + 1 ≠ (true_label_at u t).label then 1 else 0),
            same := false, original_label := i } := rfl
      rw [hset]
      refine ⟨by simp [hl], ?_⟩
      intro j hjlt
      rw [List.getD_eq_getElem?_getD, List.getElem?_set]
      by_cases hij : i = j
      · subst hij
        rw [if_pos rfl, if_pos (by omega)]
        rfl
      · rw [if_neg hij, ← List.getD_eq_getElem?_getD]
        exact hj j (by omega))
  obtain ⟨hl, hj⟩ := key
  apply List.ext_getElem
  · simp [hl]
  · intro n h1 h2
    simp only [List.getElem_map, List.getElem_range]
    have := hj n (by simpa using h2)
    rw [List.getD_eq_getElem _ _ (by simpa using h1)] at this
    exact this

/-- Sorting and marking rearranges the label indices of the cache. -/
theorem sort_hcache_labels {L : Type} (cfg : config) (env : collaborators L) (s : state L)
    (hq : ∀ cmp l, (env.qsort cmp l).Perm l) :
    ((sort_hcache_and_mark_equality cfg env s).hcache.map (fun hi => hi.original_label)).Perm
      (s.hcache.map (fun hi => hi.original_label)) := by
  unfold sort_hcache_and_mark_equality
  lift_lets
  extract_lets hc0 src hc1 hc2
  have h1 : hc1.map (fun hi => hi.original_label) = hc0.map (fun hi => hi.original_label) := by
    refine (map_label_set hc0 0 _ ?_).trans rfl
    rfl
  have h2 : hc2.map (fun hi => hi.original_label) = hc1.map (fun hi => hi.original_label) := by
    simp only [hc2]
    apply for_loop_preserves
      (fun (hc : List history_item) =>
        hc.map (fun hi => hi.original_label) = hc1.map (fun hi => hi.original_label))
    · rfl
    · intro i hc _ _ h
      refine (map_label_set hc i _ ?_).trans h
      rfl
  show (hc2.map _).Perm _
  rw [h2, h1]
  exact (hq _ _).map _

theorem predict_hcache {L : Type} (cfg : config) (env : collaborators L) (s : state L)
    (ec : vw_example) (h : List Nat) (policy : Int) (truth : Nat) :
    (predict cfg env s ec h policy truth).2.2.hcache = s.hcache ∧
    (predict cfg env s ec h policy truth).2.2.loss_vector = s.loss_vector := by
  obtain ⟨l, new, hs, _, _⟩ := predict_spec cfg env s ec h policy truth
  rw [hs]
  exact ⟨rfl, rfl⟩

theorem rollout_item_labels {L : Type} (cfg : config) (env : collaborators L) (t t2 i : Nat)
    (s : state L) :
    (rollout_item cfg env t t2 i s).hcache.map (fun hi => hi.original_label)
      = s.hcache.map (fun hi => hi.original_label) := by
  have hnew : ∀ u : state L,
      (rollout_item_new cfg env t t2 i u).hcache.map (fun hi => hi.original_label)
        = u.hcache.map (fun hi => hi.original_label) := by
    intro u
    unfold rollout_item_new
    lift_lets
    extract_lets s1 hi s2 p src s3 yhat s4 hi2
    have h4 : s4.hcache = u.hcache := by
      show p.2.2.hcache = _
      simp only [p]
      rw [(predict_hcache cfg env s2 _ _ _ _).1]
    refine (map_label_set s4.hcache i _ ?_).trans ?_
    · rfl
    · rw [h4]
  have hcopy : ∀ u : state L,
      (rollout_item_copy cfg t t2 i u).hcache.map (fun hi => hi.original_label)
        = u.hcache.map (fun hi => hi.original_label) := by
    intro u
    unfold rollout_item_copy
    lift_lets
    extract_lets hi s1 ln src1 s2 ln2 src2 s3 ln3 hi3
    have h2 : s2.hcache.map (fun hi => hi.original_label)
        = u.hcache.map (fun hi => hi.original_label) := by
      refine (map_label_set u.hcache i _ ?_).trans rfl
      rfl
    have h3 : s3.hcache.map (fun hi => hi.original_label)
        = s2.hcache.map (fun hi => hi.original_label) := by
      refine (map_label_set s2.hcache i _ ?_).trans rfl
      rfl
    refine (map_label_set s3.hcache i _ ?_).trans ?_
    · rfl
    · rw [h3, h2]
  unfold rollout_item
  lift_lets
  extract_lets s1 s2 src s3
  have h2 : s2.hcache.map (fun hi => hi.original_label)
      = s.hcache.map (fun hi => hi.original_label) := by
    simp only [s2]
    split_ifs
    · exact hnew s1
    · exact hcopy s1
    · exact hnew s1
  have h3 : s3.hcache.map (fun hi => hi.original_label)
      = s2.hcache.map (fun hi => hi.original_label) := by
    refine (map_label_set s2.hcache i _ ?_).trans rfl
    rfl
  split_ifs
  · show s3.hcache.map _ = _
    rw [h3, h2]
  · rw [h3, h2]

theorem rollout_loop_labels {L : Type} (cfg : config) (env : collaborators L) (t : Nat)
    (hq : ∀ cmp l, (env.qsort cmp l).Perm l) :
    ∀ (fuel t2 : Nat) (s : state L),
      ((rollout_loop cfg env t fuel t2 s).hcache.map (fun hi => hi.original_label)).Perm
        (s.hcache.map (fun hi => hi.original_label)) := by
  intro fuel
  induction fuel with
  | zero =>
    intro t2 s
    exact List.Perm.refl _
  | succ fuel ih =>
    intro t2 s
    unfold rollout_loop
    lift_lets
    extract_lets s1 s2 s3 s4
    have h2 : (s2.hcache.map (fun hi => hi.original_label)).Perm
        (s.hcache.map (fun hi => hi.original_label)) := by
      simp only [s2]
      split_ifs
      · exact sort_hcache_labels cfg env s1 hq
      · exact List.Perm.refl _
    split_ifs
    · exact h2
    · have h4 : s4.hcache.map (fun hi => hi.original_label)
          = s3.hcache.map (fun hi => hi.original_label) := by
        apply for_loop_preserves
          (fun u : state L => u.hcache.map (fun hi => hi.original_label)
            = s3.hcache.map (fun hi => hi.original_label))
        · rfl
        · intro i u _ _ h
          rw [rollout_item_labels, h]
      refine (ih (t2 + 1) s4).trans ?_
      rw [h4]
      exact h2

/-- When the rollout of position `t` is over, the cache still holds exactly one
entry for each label index `0..k-1`. -/
theorem rollout_position_labels {L : Type} (cfg : config) (env : collaborators L) (n t : Nat)
    (s : state L) (hq : ∀ cmp l, (env.qsort cmp l).Perm l)
    (hlen : s.hcache.length = cfg.sequence_k) :
    ((rollout_position cfg env n t s).hcache.map (fun hi => hi.original_label)).Perm
      (List.range cfg.sequence_k) := by
  unfold rollout_position
  lift_lets
  extract_lets s1 end_pos s2 s3
  have h1 : s1.hcache.map (fun hi => hi.original_label) = List.range cfg.sequence_k :=
    seed_labels cfg t s hlen
  have h3 : (s3.hcache.map (fun hi => hi.original_label)).Perm
      (s2.hcache.map (fun hi => hi.original_label)) := rollout_loop_labels cfg env t hq _ _ _
  have h : (s3.hcache.map (fun hi => hi.original_label)).Perm (List.range cfg.sequence_k) := by
    rw [← h1]
    exact h3
  split_ifs
  · exact h
  · exact h

/-- The value computed at lines 884-887 is a lower bound of the losses in the
cache and is the loss of one of its entries. -/
theorem min_loss_spec (k : Nat) (hc : List history_item) (hk : 1 ≤ k) :
    (∀ j, j < k → min_loss k hc ≤ (hc.getD j default).loss) ∧
    (∃ j, j < k ∧ min_loss k hc = (hc.getD j default).loss) := by
  unfold min_loss
  exact for_loop_inv
    (fun i (m : ℚ) => (∀ j, j < i → m ≤ (hc.getD j default).loss) ∧
      (∃ j, j < i ∧ m = (hc.getD j default).loss))
    _ 1 k _ hk
    ⟨fun j hj => by
        have : j = 0 := by omega
        subst this
        exact le_refl _,
      ⟨0, by omega, rfl⟩⟩
    (by
      rintro i m _ _ ⟨hle, j0, hj0, hm⟩
      show (∀ j, j < i + 1 →
          (if (hc.getD i default).loss < m then (hc.getD i default).loss else m)
            ≤ (hc.getD j default).loss) ∧
        (∃ j, j < i + 1 ∧
          (if (hc.getD i default).loss < m then (hc.getD i default).loss else m)
            = (hc.getD j default).loss)
      split_ifs with hlt
      · refine ⟨?_, ⟨i, by omega, rfl⟩⟩
        intro j hj
        rcases Nat.lt_succ_iff_lt_or_eq.mp hj with h | h
        · exact le_trans (le_of_lt hlt) (hle j h)
        · subst h
          exact le_refl _
      · refine ⟨?_, ⟨j0, by omega, hm⟩⟩
        intro j hj
        rcases Nat.lt_succ_iff_lt_or_eq.mp hj with h | h
        · exact hle j h
        · subst h
          exact not_lt.mp hlt)

/-- The loop of lines 889-890 writes, for every cache entry, its loss minus `m`
at the index of the label it represents. -/
theorem loss_vector_loop_spec (k : Nat) (hc : List history_item) (lv : List ℚ) (m : ℚ)
    (hperm : (hc.map (fun hi => hi.original_label)).Perm (List.range k))
    (hlv : lv.length = k) :
    (for_loop 0 k (fun i lv =>
        lv.set (hc.getD i default).original_label ((hc.getD i default).loss - m)) lv).length = k ∧
    ∀ j, j < k →
      (for_loop 0 k (fun i lv =>
        lv.set (hc.getD i default).original_label ((hc.getD i default).loss - m)) lv).getD
          (hc.getD j default).original_label 0 = (hc.getD j default).loss - m := by
  have hlen : hc.length = k := by
    have := hperm.length_eq
    simpa using this
  have hnodup : (hc.map (fun hi => hi.original_label)).Nodup :=
    hperm.nodup_iff.mpr (List.nodup_range k)
  have hlt : ∀ j, j < k → (hc.getD j default).original_label < k := by
    intro j hj
    have hmem : (hc.getD j default).original_label ∈ hc.map (fun hi => hi.original_label) := by
      rw [List.getD_eq_getElem _ _ (by omega)]
      exact List.mem_map_of_mem _ (List.getElem_mem _)
    simpa using hperm.mem_iff.mp hmem
  have hinj : ∀ i j, i < k → j < k →
      (hc.getD i default).original_label = (hc.getD j default).original_label → i = j := by
    intro i j hi hj h
    have hi2 : i < hc.length := by omega
    have hj2 : j < hc.length := by omega
    rw [List.getD_eq_getElem _ _ hi2, List.getD_eq_getElem _ _ hj2] at h
    have h1 : i < (hc.map (fun hi => hi.original_label)).length := by simp; omega
    have h2 : j < (hc.map (fun hi => hi.original_label)).length := by simp; omega
    exact (@List.Nodup.getElem_inj_iff _ _ hnodup i h1 j h2).mp
      (by rw [List.getElem_map, List.getElem_map]; exact h)
  exact for_loop_inv
    (fun i (x : List ℚ) => x.length = k ∧
      ∀ j, j < i → x.getD (hc.getD j default).original_label 0 = (hc.getD j default).loss - m)
    _ 0 k lv (Nat.zero_le _) ⟨hlv, fun j hj => absurd hj (Nat.not_lt_zero _)⟩
    (by
      rintro i x _ hi ⟨hxl, hx⟩
      refine ⟨by simp [hxl], ?_⟩
      intro j hj
      rw [List.getD_eq_getElem?_getD, List.getElem?_set]
      by_cases hij : (hc.getD i default).original_label = (hc.getD j default).original_label
      · have : i = j := hinj i j hi (by omega) hij
        subst this
        rw [if_pos rfl, if_pos (by rw [hxl]; exact hlt i hi)]
        rfl
      · rw [if_neg hij, ← List.getD_eq_getElem?_getD]
        exact hx j (by
          rcases Nat.lt_succ_iff_lt_or_eq.mp hj with h | h
          · exact h
          · subst h
            exact absurd rfl hij))

/-- With one entry per label index, `candidate_loss` reads the loss of the entry
that carries the label index. -/
theorem candidate_loss_of_mem (hc : List history_item)
    (hnodup : (hc.map (fun hi => hi.original_label)).Nodup) (e : history_item) (he : e ∈ hc) :
    candidate_loss hc e.original_label = e.loss := by
  unfold candidate_loss
  have : hc.find? (fun hi => decide (hi.original_label = e.original_label)) = some e := by
    induction hc with
    | nil => simp at he
    | cons a l ih =>
      rw [List.map_cons, List.nodup_cons] at hnodup
      rcases List.mem_cons.mp he with h | h
      · subst h
        simp
      · have hne : a.original_label ≠ e.original_label := by
          intro heq
          apply hnodup.1
          rw [heq]
          exact List.mem_map_of_mem _ h
        rw [List.find?_cons_of_neg _ (by simpa using hne)]
        exact ih hnodup.2 h
  rw [this]
  rfl

/-- The cost vector of lines 883-890 in terms of the loss `L[i]` of the
candidate for label index `i`: entry `i` is `L[i]` minus the least `L[j]`. -/
theorem compute_loss_vector_spec {L : Type} (cfg : config) (s : state L)
    (hk : 1 ≤ cfg.sequence_k)
    (hperm : (s.hcache.map (fun hi => hi.original_label)).Perm (List.range cfg.sequence_k))
    (hlv : s.loss_vector.length = cfg.sequence_k) :
    (compute_loss_vector cfg s).loss_vector.length = cfg.sequence_k ∧
    (∀ j, j < cfg.sequence_k → min_loss cfg.sequence_k s.hcache ≤ candidate_loss s.hcache j) ∧
    (∃ j, j < cfg.sequence_k ∧ candidate_loss s.hcache j = min_loss cfg.sequence_k s.hcache) ∧
    (∀ i, i < cfg.sequence_k →
      (compute_loss_vector cfg s).loss_vector.getD i 0
        = candidate_loss s.hcache i - min_loss cfg.sequence_k s.hcache) := by
  have hlen : s.hcache.length = cfg.sequence_k := by
    have := hperm.length_eq
    simpa using this
  have hnodup : (s.hcache.map (fun hi => hi.original_label)).Nodup :=
    hperm.nodup_iff.mpr (List.nodup_range _)
  obtain ⟨hmin1, j0, hj0, hmin2⟩ := min_loss_spec cfg.sequence_k s.hcache hk
  obtain ⟨hl, hv⟩ := loss_vector_loop_spec cfg.sequence_k s.hcache s.loss_vector
    (min_loss cfg.sequence_k s.hcache) hperm hlv
  -- every label index is carried by some entry
  have hrep : ∀ i, i < cfg.sequence_k →
      ∃ j, j < cfg.sequence_k ∧ (s.hcache.getD j default).original_label = i := by
    intro i hi
    have : i ∈ s.hcache.map (fun hi => hi.original_label) :=
      hperm.mem_iff.mpr (List.mem_range.mpr hi)
    obtain ⟨e, he, hei⟩ := List.mem_map.mp this
    obtain ⟨j, hj, hje⟩ := List.getElem_of_mem he
    exact ⟨j, by omega, by rw [List.getD_eq_getElem _ _ hj, hje]; exact hei⟩
  have hcl : ∀ j, j < cfg.sequence_k →
      candidate_loss s.hcache (s.hcache.getD j default).original_label
        = (s.hcache.getD j default).loss := by
    intro j hj
    apply candidate_loss_of_mem s.hcache hnodup
    rw [List.getD_eq_getElem _ _ (by omega)]
    exact List.getElem_mem _
  refine ⟨hl, ?_, ?_, ?_⟩
  · intro i hi
    obtain ⟨j, hj, hji⟩ := hrep i hi
    rw [← hji, hcl j hj]
    exact hmin1 j hj
  · refine ⟨(s.hcache.getD j0 default).original_label, ?_, ?_⟩
    · have hmem : (s.hcache.getD j0 default).original_label
          ∈ s.hcache.map (fun hi => hi.original_label) := by
        rw [List.getD_eq_getElem _ _ (by omega)]
        exact List.mem_map_of_mem _ (List.getElem_mem _)
      simpa using hperm.mem_iff.mp hmem
    · rw [hcl j0 hj0, hmin2]
  · intro i hi
    obtain ⟨j, hj, hji⟩ := hrep i hi
    rw [← hji, hcl j hj]
    exact hv j hj

/-! ## The training call of a position -/

/-- What `generate_training_example` does to the state and to the address of
the example: only the learner and the log change, the log grows by one call,
whose label is the cost vector, and the example stays at its address. -/
theorem generate_training_example_spec {L : Type} (cfg : config) (env : collaborators L)
    (s : state L) (ec : vw_example) (h : List Nat) (costs : List ℚ) :
    ∃ (l : L) (enc : vw_example),
      (generate_training_example cfg env s ec h costs).2 =
        { s with learner := l, learn_calls := s.learn_calls ++ [enc] } ∧
      enc.ld = label_ptr.costs costs ∧ enc.addr = ec.addr ∧
      (generate_training_example cfg env s ec h costs).1.addr = ec.addr := by
  unfold generate_training_example
  refine ⟨_, _, cs_learn_call_state env s _, rfl, ?_, ?_⟩
  · simp only [add_policy_offset, update_indicies_addr, add_history_addr]
  · simp only [remove_policy_offset, update_indicies_addr, remove_history_addr,
      cs_learn_call_addr, add_policy_offset, add_history_addr]

/-- The second half of a position: the cost vector is computed and handed to
the learner once, on the example of the position; the rest is quiet. -/
theorem train_position_spec {L : Type} (cfg : config) (env : collaborators L) (n t : Nat)
    (s : state L) :
    ∃ enc : vw_example,
      enc.ld = label_ptr.costs (compute_loss_vector cfg s).loss_vector ∧
      enc.addr = (ec_at s t).addr ∧
      quiet_step
        { s with
          loss_vector := (compute_loss_vector cfg s).loss_vector
          learn_calls := s.learn_calls ++ [enc] }
        (train_position cfg env n t s) := by
  unfold train_position
  lift_lets
  extract_lets sA g src1 sB sC p src2
  obtain ⟨l, enc, hg, hld, haddr, hgaddr⟩ := generate_training_example_spec cfg env sA
    (ec_at sA t) sA.current_history sA.loss_vector
  have hB : quiet_step
      { s with
        loss_vector := (compute_loss_vector cfg s).loss_vector
        learn_calls := s.learn_calls ++ [enc] } sB := by
    have e1 : sB.learn_calls = s.learn_calls ++ [enc] := by
      show g.2.learn_calls = _
      simp only [g]
      rw [hg]
      rfl
    have e2 : sB.loss_vector = (compute_loss_vector cfg s).loss_vector := by
      show g.2.loss_vector = _
      simp only [g]
      rw [hg]
    have e3 : sB.true_labels = s.true_labels := by
      show g.2.true_labels = _
      simp only [g]
      rw [hg]
      rfl
    have e4 : sB.freed = s.freed := by
      show g.2.freed = _
      simp only [g]
      rw [hg]
      rfl
    have e5 : sB.parser = s.parser := by
      show g.2.parser = _
      simp only [g]
      rw [hg]
      rfl
    have e6 : sB.current_policy = s.current_policy := by
      show g.2.current_policy = _
      simp only [g]
      rw [hg]
      rfl
    have e7 : sB.ec_seq = s.ec_seq.set t (some g.1) := by
      show g.2.ec_seq.set t (some g.1) = _
      simp only [g]
      rw [hg]
      rfl
    refine ⟨⟨[], by rw [e1]; simp, by simp⟩, e2, e3, e4, e5, e6, by rw [e7, List.length_set], ?_⟩
    rw [e7]
    exact set_slot_addr s.ec_seq t _ hgaddr
  have hC : quiet_step sB sC := quiet_step_of_eq rfl rfl rfl rfl rfl rfl rfl
  refine ⟨enc, hld, haddr, ?_⟩
  split_ifs
  · exact quiet_step_trans (quiet_step_trans hB hC)
      (predict_writeback_quiet cfg env sC _ (t + 1) _ _ _ rfl rfl rfl rfl rfl rfl rfl)
  · exact quiet_step_trans hB hC

/-! ## Reading a sequence -/

/-- The bookkeeping of a new pass touches neither the held examples nor the
logs, the parser or the read counter. -/
theorem note_new_pass_frame {L : Type} (cfg : config) (a : Int) (pass : Nat) (s : state L) :
    (note_new_pass cfg a pass s).ec_seq = s.ec_seq ∧
    (note_new_pass cfg a pass s).learn_calls = s.learn_calls ∧
    (note_new_pass cfg a pass s).loss_vector = s.loss_vector ∧
    (note_new_pass cfg a pass s).freed = s.freed ∧
    (note_new_pass cfg a pass s).parser = s.parser ∧
    (note_new_pass cfg a pass s).read_example_this_loop = s.read_example_this_loop := by
  unfold note_new_pass
  lift_lets
  extract_lets s1 s2 s3 s4
  have h2 : s2.ec_seq = s.ec_seq ∧ s2.learn_calls = s.learn_calls ∧
      s2.loss_vector = s.loss_vector ∧ s2.freed = s.freed ∧ s2.parser = s.parser ∧
      s2.read_example_this_loop = s.read_example_this_loop := by
    simp only [s2]
    split_ifs <;> exact ⟨rfl, rfl, rfl, rfl, rfl, rfl⟩
  split_ifs <;> exact h2

theorem clamp_label_newline (cfg : config) (e : vw_example) :
    example_is_newline cfg (clamp_label cfg e) = example_is_newline cfg e := by
  unfold clamp_label
  split_ifs <;> rfl

theorem clamp_label_addr (cfg : config) (e : vw_example) :
    (clamp_label cfg e).addr = e.addr := by
  unfold clamp_label
  split_ifs <;> rfl

theorem accept_example_spec {L : Type} (cfg : config) (a : Int) (e : vw_example) (s : state L) :
    (accept_example cfg a e s).1 = some (clamp_label cfg e) ∧
    (accept_example cfg a e s).2.ec_seq = s.ec_seq ∧
    (accept_example cfg a e s).2.learn_calls = s.learn_calls ∧
    (accept_example cfg a e s).2.loss_vector = s.loss_vector ∧
    (accept_example cfg a e s).2.freed = s.freed ∧
    (accept_example cfg a e s).2.parser = s.parser ∧
    (accept_example cfg a e s).2.read_example_this_loop = s.read_example_this_loop + 1 := by
  unfold accept_example
  lift_lets
  extract_lets s1 s2 y s3
  have h2 : s2.ec_seq = s.ec_seq ∧ s2.learn_calls = s.learn_calls ∧
      s2.loss_vector = s.loss_vector ∧ s2.freed = s.freed ∧ s2.parser = s.parser ∧
      s2.read_example_this_loop = s.read_example_this_loop + 1 := by
    simp only [s2]
    split_ifs
    · exact note_new_pass_frame cfg a e.pass s1
    · exact ⟨rfl, rfl, rfl, rfl, rfl, rfl⟩
  have h3 : s3.ec_seq = s.ec_seq ∧ s3.learn_calls = s.learn_calls ∧
      s3.loss_vector = s.loss_vector ∧ s3.freed = s.freed ∧ s3.parser = s.parser ∧
      s3.read_example_this_loop = s.read_example_this_loop + 1 := by
    simp only [s3]
    split_ifs
    · exact h2
    · exact h2
  unfold clamp_label
  split_ifs
  · exact ⟨rfl, h3⟩
  · exact ⟨rfl, h2⟩

/-- The reader `safe_get_example` never touches the held examples or the logs. -/
theorem safe_get_example_frame {L : Type} (cfg : config) (a : Int) (s : state L) :
    (safe_get_example cfg a s).2.ec_seq = s.ec_seq ∧
    (safe_get_example cfg a s).2.learn_calls = s.learn_calls ∧
    (safe_get_example cfg a s).2.loss_vector = s.loss_vector ∧
    (safe_get_example cfg a s).2.freed = s.freed := by
  unfold safe_get_example
  lift_lets
  extract_lets s0
  split_ifs with h1
  · exact ⟨rfl, rfl, rfl, rfl⟩
  · have hs0 : s0.parser = s.parser := rfl
    rcases hpar : s.parser with _ | ⟨e, rest⟩
    · exact ⟨rfl, rfl, rfl, rfl⟩
    · obtain ⟨_, a1, a2, a3, a4, _, _⟩ := accept_example_spec cfg a e { s0 with parser := rest }
      exact ⟨a1, a2, a3, a4⟩

/-- With an example waiting in the parser and room in the ring,
`safe_get_example` hands out that example with its label clamped, and counts
it. -/
theorem safe_get_example_cons {L : Type} (cfg : config) (a : Int) (s : state L)
    (e : vw_example) (rest : List vw_example) (hp : s.parser = e :: rest)
    (hr : s.read_example_this_loop ≠ cfg.ring_size) :
    (safe_get_example cfg a s).1 = some (clamp_label cfg e) ∧
    (safe_get_example cfg a s).2.parser = rest ∧
    (safe_get_example cfg a s).2.read_example_this_loop = s.read_example_this_loop + 1 := by
  unfold safe_get_example
  lift_lets
  extract_lets s0
  rw [if_neg hr]
  have hs0 : s0.parser = s.parser := rfl
  rw [hs0, hp]
  obtain ⟨a0, _, _, _, _, a5, a6⟩ := accept_example_spec cfg a e { s0 with parser := rest }
  exact ⟨a0, a5, a6⟩

/-- At the end of the parser, or when the ring is full, `safe_get_example`
returns null. -/
theorem safe_get_example_none {L : Type} (cfg : config) (a : Int) (s : state L)
    (h : s.parser = [] ∨ s.read_example_this_loop = cfg.ring_size) :
    (safe_get_example cfg a s).1 = none := by
  unfold safe_get_example
  lift_lets
  extract_lets s0
  split_ifs with h1
  · rfl
  · rcases h with h | h
    · have hs0 : s0.parser = s.parser := rfl
      rw [hs0, h]
    · exact absurd h h1

/-- The reading loop stops at once on a null pointer or on a boundary example. -/
theorem read_sequence_loop_stop {L : Type} (cfg : config) (fuel n : Nat) (skip : Bool)
    (cur : Option vw_example) (s : state L)
    (h : ∀ b, cur = some b → example_is_newline cfg b = true) :
    read_sequence_loop cfg fuel n skip cur s = (n, skip, cur, s) := by
  cases fuel with
  | zero => rfl
  | succ f =>
    cases cur with
    | none => rfl
    | some b =>
      simp only [read_sequence_loop]
      rw [if_pos (h b rfl)]

/-- The reading loop on a run `seq` of labelled examples that is followed by a
boundary example, by the end of the parser, or that fills the ring: it holds
the current example and then every example of `seq`, in order, clamped as
`safe_get_example` hands them out, and touches neither the logs nor the loss
vector. -/
theorem read_sequence_loop_spec {L : Type} (cfg : config) :
    ∀ (seq : List vw_example) (fuel n0 : Nat) (cur : vw_example) (rest : List vw_example)
      (s : state L),
      s.parser = seq ++ rest →
      seq.length < fuel →
      example_is_newline cfg cur = false →
      example_is_test cur = false →
      (∀ e ∈ seq, example_is_newline cfg e = false ∧
        example_is_test (clamp_label cfg e) = false) →
      n0 + 1 + seq.length ≤ s.ec_seq.length →
      s.read_example_this_loop + seq.length ≤ cfg.ring_size →
      (s.read_example_this_loop + seq.length = cfg.ring_size ∨ rest = [] ∨
        ∃ b r, rest = b :: r ∧ example_is_newline cfg b = true) →
      (read_sequence_loop cfg fuel n0 false (some cur) s).1 = n0 + 1 + seq.length ∧
      (read_sequence_loop cfg fuel n0 false (some cur) s).2.1 = false ∧
      (read_sequence_loop cfg fuel n0 false (some cur) s).2.2.2.learn_calls = s.learn_calls ∧
      (read_sequence_loop cfg fuel n0 false (some cur) s).2.2.2.loss_vector = s.loss_vector ∧
      (read_sequence_loop cfg fuel n0 false (some cur) s).2.2.2.freed = s.freed ∧
      (read_sequence_loop cfg fuel n0 false (some cur) s).2.2.2.ec_seq.length
        = s.ec_seq.length ∧
      (∀ i, i < n0 →
        (read_sequence_loop cfg fuel n0 false (some cur) s).2.2.2.ec_seq.getD i none
          = s.ec_seq.getD i none) ∧
      (∀ j, j < (cur :: seq.map (clamp_label cfg)).length →
        (read_sequence_loop cfg fuel n0 false (some cur) s).2.2.2.ec_seq.getD (n0 + j) none
          = (cur :: seq.map (clamp_label cfg))[j]?) ∧
      ((read_sequence_loop cfg fuel n0 false (some cur) s).2.2.1 = none ∨
        ∃ b r, rest = b :: r ∧
          (read_sequence_loop cfg fuel n0 false (some cur) s).2.2.1
            = some (clamp_label cfg b)) := by
  intro seq
  induction seq with
  | nil =>
    intro fuel n0 cur rest s hp hfuel hnl htest _ hlen hring hend
    obtain ⟨f, rfl⟩ : ∃ f, fuel = f + 1 := ⟨fuel - 1, by simp at hfuel; omega⟩
    simp only [read_sequence_loop]
    rw [if_neg (by rw [hnl]; simp)]
    simp only [htest, Bool.false_eq_true, false_and, if_false]
    have hstop : ∀ b,
        (safe_get_example cfg 0 { s with ec_seq := s.ec_seq.set n0 (some cur) }).1 = some b →
        example_is_newline cfg b = true := by
      intro b hb
      rcases hend with h | h | ⟨b0, r, hr, hb0⟩
      · rw [safe_get_example_none cfg 0 { s with ec_seq := s.ec_seq.set n0 (some cur) }
          (Or.inr (by simpa using h))] at hb
        exact absurd hb (by simp)
      · rw [safe_get_example_none cfg 0 { s with ec_seq := s.ec_seq.set n0 (some cur) }
          (Or.inl (by
            show s.parser = []
            rw [hp, h]
            rfl))] at hb
        exact absurd hb (by simp)
      · by_cases hfull : s.read_example_this_loop = cfg.ring_size
        · rw [safe_get_example_none cfg 0 { s with ec_seq := s.ec_seq.set n0 (some cur) }
            (Or.inr hfull)] at hb
          exact absurd hb (by simp)
        · have := (safe_get_example_cons cfg 0
            { s with ec_seq := s.ec_seq.set n0 (some cur) } b0 r
            (by show s.parser = _; rw [hp, hr]; rfl) hfull).1
          rw [this] at hb
          obtain rfl := Option.some.inj hb
          rw [clamp_label_newline]
          exact hb0
    rw [read_sequence_loop_stop cfg f (n0 + 1) false _ _ hstop]
    obtain ⟨a1, a2, a3, a4⟩ := safe_get_example_frame cfg 0
      { s with ec_seq := s.ec_seq.set n0 (some cur) }
    refine ⟨by simp, rfl, a2, a3, a4, by rw [a1]; simp, ?_, ?_, ?_⟩
    · intro i hi
      rw [a1]
      show (s.ec_seq.set n0 (some cur)).getD i none = _
      rw [List.getD_eq_getElem?_getD, List.getElem?_set, if_neg (by omega),
        ← List.getD_eq_getElem?_getD]
    · intro j hj
      simp only [List.map_nil, List.length_singleton, Nat.lt_one_iff] at hj
      subst hj
      rw [a1]
      show (s.ec_seq.set n0 (some cur)).getD (n0 + 0) none = _
      rw [List.getD_eq_getElem?_getD, List.getElem?_set, if_pos (by omega),
        if_pos (by simp at hlen; omega)]
      rfl
    · show (safe_get_example cfg 0 { s with ec_seq := s.ec_seq.set n0 (some cur) }).1 = none ∨ _
      by_cases hfull : s.read_example_this_loop = cfg.ring_size
      · exact Or.inl (safe_get_example_none cfg 0
          { s with ec_seq := s.ec_seq.set n0 (some cur) } (Or.inr hfull))
      · cases hrest : rest with
        | nil =>
          exact Or.inl (safe_get_example_none cfg 0
            { s with ec_seq := s.ec_seq.set n0 (some cur) } (Or.inl (by
              show s.parser = []
              rw [hp, hrest]
              rfl)))
        | cons b0 r =>
          refine Or.inr ⟨b0, r, rfl, ?_⟩
          exact (safe_get_example_cons cfg 0
            { s with ec_seq := s.ec_seq.set n0 (some cur) } b0 r
            (by show s.parser = _; rw [hp, hrest]; rfl) hfull).1
  | cons e seq ih =>
    intro fuel n0 cur rest s hp hfuel hnl htest hall hlen hring hend
    obtain ⟨f, rfl⟩ : ∃ f, fuel = f + 1 := ⟨fuel - 1, by simp at hfuel; omega⟩
    simp only [read_sequence_loop]
    rw [if_neg (by rw [hnl]; simp)]
    simp only [htest, Bool.false_eq_true, false_and, if_false]
    simp only [List.length_cons] at hfuel hlen hring hend
    have hfull : s.read_example_this_loop ≠ cfg.ring_size := by omega
    obtain ⟨b1, b2, b3⟩ := safe_get_example_cons cfg 0
      { s with ec_seq := s.ec_seq.set n0 (some cur) } e (seq ++ rest)
      (by show s.parser = _; rw [hp]; rfl) hfull
    obtain ⟨a1, a2, a3, a4⟩ := safe_get_example_frame cfg 0
      { s with ec_seq := s.ec_seq.set n0 (some cur) }
    rw [b1]
    have he := hall e (List.mem_cons_self _ _)
    obtain ⟨c1, c2, c3, c4, c5, c6, c7, c8, c9⟩ := ih f (n0 + 1) (clamp_label cfg e) rest
      (safe_get_example cfg 0 { s with ec_seq := s.ec_seq.set n0 (some cur) }).2
      b2 (by omega) (by rw [clamp_label_newline]; exact he.1) he.2
      (fun x hx => hall x (List.mem_cons_of_mem _ hx))
      (by rw [a1]; simp; omega)
      (by rw [b3]; show s.read_example_this_loop + 1 + seq.length ≤ _; omega)
      (by
        rw [b3]
        rcases hend with h | h | h
        · left
          show s.read_example_this_loop + 1 + seq.length = _
          omega
        · exact Or.inr (Or.inl h)
        · exact Or.inr (Or.inr h))
    refine ⟨by rw [c1, List.length_cons]; omega, c2, by rw [c3, a2], by rw [c4, a3],
      by rw [c5, a4],
      by rw [c6, a1]; simp, ?_, ?_, c9⟩
    · intro i hi
      rw [c7 i (by omega), a1]
      show (s.ec_seq.set n0 (some cur)).getD i none = _
      rw [List.getD_eq_getElem?_getD, List.getElem?_set, if_neg (by omega),
        ← List.getD_eq_getElem?_getD]
    · intro j hj
      cases j with
      | zero =>
        rw [c7 (n0 + 0) (by omega), a1]
        show (s.ec_seq.set n0 (some cur)).getD (n0 + 0) none = _
        rw [List.getD_eq_getElem?_getD, List.getElem?_set, if_pos (by omega),
          if_pos (by omega)]
        rfl
      | succ j =>
        have := c8 j (by simp at hj ⊢; omega)
        have hidx : n0 + (j + 1) = n0 + 1 + j := by omega
        rw [hidx, this]
        simp

/-! ## Training calls in the learner log -/

theorem training_calls_append (a b : List vw_example) :
    training_calls (a ++ b) = training_calls a ++ training_calls b := by
  simp [training_calls, List.filterMap_append]

theorem training_calls_of_predictions (new : List vw_example)
    (h : ∀ e ∈ new, e.ld = label_ptr.empty_costs) : training_calls new = [] := by
  unfold training_calls
  rw [List.filterMap_eq_nil_iff]
  intro e he
  rw [h e he]

/-- A quiet step adds no training call. -/
theorem quiet_step_training_calls {L : Type} {s t : state L} (h : quiet_step s t) :
    training_calls t.learn_calls = training_calls s.learn_calls := by
  obtain ⟨⟨new, e1, l1⟩, _⟩ := h
  rw [e1, training_calls_append, training_calls_of_predictions new l1, List.append_nil]

theorem training_calls_singleton (enc : vw_example) (c : List ℚ)
    (h : enc.ld = label_ptr.costs c) : training_calls [enc] = [(enc.addr, c)] := by
  simp [training_calls, h]

/-- The training calls of one position: exactly one, on the example of the
position, with the cost vector of the position. -/
theorem learn_position_training_calls {L : Type} (cfg : config) (env : collaborators L)
    (n t : Nat) (s : state L) :
    ∃ a, addr_of (some (ec_at (rollout_position cfg env n t s) t)) = some a ∧
      training_calls (learn_position cfg env n t s).learn_calls
        = training_calls s.learn_calls ++ [(a, position_costs cfg env n t s)] := by
  unfold learn_position
  obtain ⟨enc, hld, haddr, hq⟩ := train_position_spec cfg env n t (rollout_position cfg env n t s)
  refine ⟨enc.addr, by rw [haddr]; rfl, ?_⟩
  rw [quiet_step_training_calls hq]
  show training_calls ((rollout_position cfg env n t s).learn_calls ++ [enc]) = _
  rw [training_calls_append, quiet_step_training_calls (rollout_position_quiet cfg env n t s),
    training_calls_singleton enc _ hld]
  rfl

/-! ## A whole training sequence -/

theorem quiet_step_set_true_labels {L : Type} {a b : state L} (h : quiet_step a b)
    (tl : List label_ptr) :
    quiet_step { a with true_labels := tl } { b with true_labels := tl } := by
  obtain ⟨h1, h2, _, h3, h4, h5, h6, h7⟩ := h
  exact ⟨h1, h2, rfl, h3, h4, h5, h6, h7⟩

theorem ec_at_of_slot {L : Type} (s : state L) (j : Nat) (e : vw_example)
    (h : s.ec_seq.getD j none = some e) : ec_at s j = e := by
  unfold ec_at
  rw [h]
  rfl

theorem getD_set_ne {α : Type} (l : List α) (i j : Nat) (x d : α) (h : i ≠ j) :
    (l.set i x).getD j d = l.getD j d := by
  rw [List.getD_eq_getElem?_getD, List.getElem?_set, if_neg h, ← List.getD_eq_getElem?_getD]

theorem take_succ_map_of_getElem_some {α β : Type} (l : List α) (f : α → β) (t : Nat) (x : α)
    (h : l[t]? = some x) : (l.take (t + 1)).map f = (l.take t).map f ++ [f x] := by
  rw [List.take_succ, h]
  simp

/-- The first loop over the positions (lines 768-787) records the label
pointers of the held examples in order and trains nothing. -/
theorem behavior_loop_spec {L : Type} (cfg : config) (env : collaborators L) (n : Nat)
    (s : state L) (held : List vw_example) (hn : held.length = n)
    (htl : s.true_labels = [])
    (hheld : ∀ j h, held[j]? = some h → s.ec_seq.getD j none = some h) :
    quiet_step
      { s with true_labels := held.map (fun e => e.ld) }
      (for_loop 0 n (behavior_step cfg env) s) := by
  subst hn
  have key := for_loop_inv
    (fun t (u : state L) =>
      quiet_step { s with true_labels := u.true_labels } u ∧
      u.true_labels = (held.take t).map (fun e => e.ld) ∧
      ∀ j, t ≤ j → u.ec_seq.getD j none = s.ec_seq.getD j none)
    (behavior_step cfg env) 0 held.length s (Nat.zero_le _)
    ⟨by
        have : ({ s with true_labels := s.true_labels } : state L) = s := rfl
        rw [this]
        exact quiet_step_refl s,
      by rw [htl]; rfl, fun _ _ => rfl⟩
    (by
      rintro t u _ ht ⟨hq, htlu, hrest⟩
      obtain ⟨h, hh⟩ : ∃ h, held[t]? = some h :=
        ⟨held[t], List.getElem?_eq_getElem ht⟩
      have hat : ec_at u t = h := by
        apply ec_at_of_slot
        rw [hrest t (le_refl _)]
        exact hheld t h hh
      have hstep := behavior_step_quiet cfg env t u
      rw [hat] at hstep
      have htl2 : (behavior_step cfg env t u).true_labels = u.true_labels ++ [h.ld] :=
        hstep.2.2.1
      refine ⟨?_, ?_, ?_⟩
      · rw [htl2]
        exact quiet_step_trans (quiet_step_set_true_labels hq (u.true_labels ++ [h.ld])) hstep
      · rw [htl2, htlu, take_succ_map_of_getElem_some held _ t h hh]
      · intro j hj
        obtain ⟨e, he⟩ := behavior_step_ec_seq cfg env t u
        rw [he, getD_set_ne _ _ _ _ _ (by omega)]
        exact hrest j (by omega))
  obtain ⟨hq, htl2, _⟩ := key
  rw [htl2, List.take_length] at hq
  exact hq

theorem compute_loss_vector_length {L : Type} (cfg : config) (s : state L) :
    (compute_loss_vector cfg s).loss_vector.length = s.loss_vector.length := by
  unfold compute_loss_vector
  lift_lets
  extract_lets m
  show (for_loop 0 cfg.sequence_k _ s.loss_vector).length = _
  apply for_loop_preserves (fun (lv : List ℚ) => lv.length = s.loss_vector.length)
  · rfl
  · intro i lv _ _ h
    simp only [List.length_set]
    exact h

theorem print_update_quiet {L : Type} (cfg : config) (s : state L) :
    quiet_step s (print_update cfg s) := by
  unfold print_update
  split_ifs
  · exact quiet_step_refl s
  · exact quiet_step_of_eq rfl rfl rfl rfl rfl rfl rfl

/-- The frame of one position of the main loop: one training call, on the
example held at the position, with a cost vector as long as the loss vector;
the recorded labels, the release log and the addresses held stay. -/
theorem learn_position_frame {L : Type} (cfg : config) (env : collaborators L) (n t : Nat)
    (s : state L) (h : vw_example) (hslot : addr_of (s.ec_seq.getD t none) = some h.addr) :
    (∃ c, c.length = s.loss_vector.length ∧
      training_calls (learn_position cfg env n t s).learn_calls
        = training_calls s.learn_calls ++ [(h.addr, c)]) ∧
    (learn_position cfg env n t s).true_labels = s.true_labels ∧
    (learn_position cfg env n t s).freed = s.freed ∧
    (learn_position cfg env n t s).ec_seq.length = s.ec_seq.length ∧
    (learn_position cfg env n t s).loss_vector.length = s.loss_vector.length ∧
    (∀ i a, addr_of (s.ec_seq.getD i none) = some a →
      addr_of ((learn_position cfg env n t s).ec_seq.getD i none) = some a) := by
  have hr := rollout_position_quiet cfg env n t s
  obtain ⟨a, ha, hcalls⟩ := learn_position_training_calls cfg env n t s
  obtain ⟨enc, _, _, hq⟩ := train_position_spec cfg env n t (rollout_position cfg env n t s)
  obtain ⟨_, r2, r3, r4, _, _, r7, r8⟩ := hr
  obtain ⟨_, q2, q3, q4, _, _, q7, q8⟩ := hq
  have haddr : a = h.addr := by
    have h1 := r8 t h.addr hslot
    cases hget : (rollout_position cfg env n t s).ec_seq.getD t none with
    | none => rw [hget] at h1; simp [addr_of] at h1
    | some e =>
      rw [hget] at h1
      rw [ec_at_of_slot _ t e hget] at ha
      rw [h1] at ha
      exact (Option.some.inj ha).symm
  have hlen : (position_costs cfg env n t s).length = s.loss_vector.length := by
    unfold position_costs
    rw [compute_loss_vector_length, r2]
  refine ⟨⟨_, hlen, by rw [hcalls, haddr]⟩, ?_, ?_, ?_, ?_, ?_⟩
  · show (train_position cfg env n t (rollout_position cfg env n t s)).true_labels = _
    rw [q3]
    exact r3
  · show (train_position cfg env n t (rollout_position cfg env n t s)).freed = _
    rw [q4]
    exact r4
  · show (train_position cfg env n t (rollout_position cfg env n t s)).ec_seq.length = _
    rw [q7]
    exact r7
  · show (train_position cfg env n t (rollout_position cfg env n t s)).loss_vector.length = _
    rw [q2]
    show (compute_loss_vector cfg (rollout_position cfg env n t s)).loss_vector.length = _
    rw [compute_loss_vector_length, r2]
  · intro i x hx
    exact q8 i x (r8 i x hx)

/-- The main loop over the positions (lines 806-899): one training call per
position, in order, on the example held at the position. -/
theorem learn_loop_spec {L : Type} (cfg : config) (env : collaborators L) (n : Nat)
    (s : state L) (held : List vw_example) (hn : held.length = n)
    (hheld : ∀ j h, held[j]? = some h → addr_of (s.ec_seq.getD j none) = some h.addr) :
    (∃ calls, training_calls (for_loop 0 n (learn_position cfg env n) s).learn_calls
        = training_calls s.learn_calls ++ calls ∧
      calls.map Prod.fst = held.map (fun e => e.addr) ∧
      ∀ c ∈ calls, c.2.length = s.loss_vector.length) ∧
    (for_loop 0 n (learn_position cfg env n) s).true_labels = s.true_labels ∧
    (for_loop 0 n (learn_position cfg env n) s).freed = s.freed ∧
    (for_loop 0 n (learn_position cfg env n) s).ec_seq.length = s.ec_seq.length ∧
    (∀ i a, addr_of (s.ec_seq.getD i none) = some a →
      addr_of ((for_loop 0 n (learn_position cfg env n) s).ec_seq.getD i none) = some a) := by
  subst hn
  have key := for_loop_inv
    (fun t (u : state L) =>
      (∃ calls, training_calls u.learn_calls = training_calls s.learn_calls ++ calls ∧
        calls.map Prod.fst = (held.take t).map (fun e => e.addr) ∧
        ∀ c ∈ calls, c.2.length = s.loss_vector.length) ∧
      u.true_labels = s.true_labels ∧ u.freed = s.freed ∧
      u.ec_seq.length = s.ec_seq.length ∧ u.loss_vector.length = s.loss_vector.length ∧
      (∀ i a, addr_of (s.ec_seq.getD i none) = some a →
        addr_of (u.ec_seq.getD i none) = some a))
    (learn_position cfg env held.length) 0 held.length s (Nat.zero_le _)
    ⟨⟨[], by simp, by simp, by simp⟩, rfl, rfl, rfl, rfl, fun _ _ h => h⟩
    (by
      rintro t u _ ht ⟨⟨calls, hc1, hc2, hc3⟩, h2, h3, h4, h5, h6⟩
      have hh : held[t]? = some held[t] := List.getElem?_eq_getElem ht
      obtain ⟨⟨c, hclen, hcall⟩, f2, f3, f4, f5, f6⟩ :=
        learn_position_frame cfg env held.length t u held[t]
          (h6 t _ (hheld t _ hh))
      refine ⟨⟨calls ++ [(held[t].addr, c)], ?_, ?_, ?_⟩, by rw [f2, h2], by rw [f3, h3],
        by rw [f4, h4], by rw [f5, h5], fun i a ha => f6 i a (h6 i a ha)⟩
      · rw [hcall, hc1, List.append_assoc]
      · rw [List.map_append, hc2, take_succ_map_of_getElem_some held _ t _ hh]
        rfl
      · intro x hx
        rcases List.mem_append.mp hx with hx | hx
        · exact hc3 x hx
        · simp only [List.mem_singleton] at hx
          rw [hx]
          show c.length = _
          rw [hclen, h5])
  obtain ⟨⟨calls, hc1, hc2, hc3⟩, h2, h3, h4, _, h6⟩ := key
  rw [List.take_length] at hc2
  exact ⟨⟨calls, hc1, hc2, hc3⟩, h2, h3, h4, h6⟩

/-- The loop that restores the labels (lines 901-902): every held example gets
the recorded label pointer back and stays at its address. -/
theorem restore_loop_spec {L : Type} (n : Nat) (s : state L) (held : List vw_example)
    (hn : held.length = n)
    (hheld : ∀ j h, held[j]? = some h → addr_of (s.ec_seq.getD j none) = some h.addr) :
    (for_loop 0 n restore_label s).learn_calls = s.learn_calls ∧
    (for_loop 0 n restore_label s).freed = s.freed ∧
    (∀ j h, held[j]? = some h →
      ∃ e, (for_loop 0 n restore_label s).ec_seq.getD j none = some e ∧
        e.addr = h.addr ∧ e.ld = s.true_labels.getD j default) := by
  subst hn
  have key := for_loop_inv
    (fun i (u : state L) =>
      u.learn_calls = s.learn_calls ∧ u.freed = s.freed ∧ u.true_labels = s.true_labels ∧
      (∀ j h, held[j]? = some h →
        ∃ e, u.ec_seq.getD j none = some e ∧ e.addr = h.addr ∧
          (j < i → e.ld = s.true_labels.getD j default)))
    restore_label 0 held.length s (Nat.zero_le _)
    ⟨rfl, rfl, rfl, by
      intro j h hj
      have := hheld j h hj
      cases hget : s.ec_seq.getD j none with
      | none => rw [hget] at this; simp [addr_of] at this
      | some e =>
        rw [hget] at this
        exact ⟨e, rfl, by simpa [addr_of] using this, fun h0 => absurd h0 (Nat.not_lt_zero _)⟩⟩
    (by
      rintro i u _ hi ⟨h1, h2, h3, h4⟩
      refine ⟨h1, h2, h3, ?_⟩
      intro j h hj
      obtain ⟨e, he1, he2, he3⟩ := h4 j h hj
      by_cases hij : i = j
      · subst hij
        have hlt : i < u.ec_seq.length := by
          by_contra hcon
          rw [List.getD_eq_default _ _ (by omega)] at he1
          exact absurd he1 (by simp)
        refine ⟨{ (ec_at u i) with ld := u.true_labels.getD i default }, ?_, ?_, ?_⟩
        · show (u.ec_seq.set i _).getD i none = _
          rw [List.getD_eq_getElem?_getD, List.getElem?_set, if_pos rfl, if_pos hlt]
          rfl
        · show (ec_at u i).addr = _
          rw [ec_at_of_slot u i e he1]
          exact he2
        · intro _
          show u.true_labels.getD i default = _
          rw [h3]
      · refine ⟨e, ?_, he2, fun hlt => he3 (by omega)⟩
        show (u.ec_seq.set i _).getD j none = _
        rw [getD_set_ne _ _ _ _ _ hij]
        exact he1)
  obtain ⟨h1, h2, _, h4⟩ := key
  refine ⟨h1, h2, ?_⟩
  intro j h hj
  obtain ⟨e, he1, he2, he3⟩ := h4 j h hj
  have hjlt : j < held.length := by
    by_contra hcon
    rw [List.getElem?_eq_none (by omega)] at hj
    exact absurd hj (by simp)
  exact ⟨e, he1, he2, he3 hjlt⟩

/-- The training part of `process_next_example_sequence` on the examples
`held` in `ec_seq[0..n-1]`: exactly one training call per held example, in
order, each with a cost vector as long as the loss vector; nothing is
released; and every held example ends at its address with the label pointer it
had on entry. -/
theorem train_sequence_spec {L : Type} (cfg : config) (env : collaborators L) (n : Nat)
    (s : state L) (held : List vw_example) (hn : held.length = n)
    (hheld : ∀ j h, held[j]? = some h → s.ec_seq.getD j none = some h) :
    (∃ calls, training_calls (train_sequence cfg env n s).learn_calls
        = training_calls s.learn_calls ++ calls ∧
      calls.map Prod.fst = held.map (fun e => e.addr) ∧
      ∀ c ∈ calls, c.2.length = s.loss_vector.length) ∧
    (train_sequence cfg env n s).freed = s.freed ∧
    (∀ j h, held[j]? = some h →
      ∃ e, (train_sequence cfg env n s).ec_seq.getD j none = some e ∧
        e.addr = h.addr ∧ e.ld = h.ld) := by
  unfold train_sequence
  lift_lets
  extract_lets s0 sA src1 s1 s2 s3 s4 s5 p src2 s6 s7 s8
  have hA : quiet_step { s0 with true_labels := held.map (fun e => e.ld) } sA :=
    behavior_loop_spec cfg env n s0 held hn rfl hheld
  have h12 : quiet_step sA s2 :=
    quiet_step_trans (quiet_step_of_eq rfl rfl rfl rfl rfl rfl rfl) (print_update_quiet cfg s1)
  have h34 : quiet_step s2 s4 := by
    refine quiet_step_trans (b := s3) (quiet_step_of_eq rfl rfl rfl rfl rfl rfl rfl) ?_
    apply for_loop_quiet
    intro i u
    simp only
    split_ifs
    · exact quiet_step_of_eq rfl rfl rfl rfl rfl rfl rfl
    · exact quiet_step_of_eq rfl rfl rfl rfl rfl rfl rfl
  have h56 : quiet_step s4 s6 :=
    quiet_step_trans (b := s5) (quiet_step_of_eq rfl rfl rfl rfl rfl rfl rfl)
      (predict_writeback_quiet cfg env s5 s6 0 _ _ _ rfl rfl rfl rfl rfl rfl rfl)
  have h7 : quiet_step s6 s7 := quiet_step_of_eq rfl rfl rfl rfl rfl rfl rfl
  have hQ : quiet_step { s0 with true_labels := held.map (fun e => e.ld) } s7 :=
    quiet_step_trans (quiet_step_trans (quiet_step_trans (quiet_step_trans hA h12) h34) h56) h7
  have hcalls7 : training_calls s7.learn_calls = training_calls s.learn_calls := by
    have := quiet_step_training_calls hQ
    exact this
  obtain ⟨_, q2, q3, q4, _, _, _, q8⟩ := hQ
  have hq2 : s7.loss_vector = s.loss_vector := q2
  have hq3 : s7.true_labels = held.map (fun e => e.ld) := q3
  have hq4 : s7.freed = s.freed := q4
  have haddr7 : ∀ j h, held[j]? = some h → addr_of (s7.ec_seq.getD j none) = some h.addr := by
    intro j h hj
    apply q8
    show addr_of (s.ec_seq.getD j none) = _
    rw [hheld j h hj]
    rfl
  obtain ⟨⟨calls, hc1, hc2, hc3⟩, l2, l3, _, l5⟩ := learn_loop_spec cfg env n s7 held hn haddr7
  have haddr8 : ∀ j h, held[j]? = some h → addr_of (s8.ec_seq.getD j none) = some h.addr :=
    fun j h hj => l5 j _ (haddr7 j h hj)
  obtain ⟨r1, r2, r3⟩ := restore_loop_spec n s8 held hn haddr8
  refine ⟨⟨calls, ?_, hc2, ?_⟩, ?_, ?_⟩
  · rw [r1]
    show training_calls (for_loop 0 n (learn_position cfg env n) s7).learn_calls = _
    rw [hc1, hcalls7]
  · intro c hc
    rw [hc3 c hc, hq2]
  · rw [r2]
    show (for_loop 0 n (learn_position cfg env n) s7).freed = _
    rw [l3, hq4]
  · intro j h hj
    obtain ⟨e, he1, he2, he3⟩ := r3 j h hj
    refine ⟨e, he1, he2, ?_⟩
    rw [he3]
    show (for_loop 0 n (learn_position cfg env n) s7).true_labels.getD j default = _
    rw [l2, hq3, List.getD_eq_getElem?_getD, List.getElem?_map, hj]
    rfl

/-! ## `process_next_example_sequence` on a training sequence -/

theorem skip_initial_newlines_stop {L : Type} (cfg : config) (fuel : Nat) (cur : vw_example)
    (s : state L) (h : example_is_newline cfg cur = false) :
    skip_initial_newlines cfg fuel cur s = (some cur, s) := by
  cases fuel with
  | zero => rfl
  | succ f =>
    simp only [skip_initial_newlines]
    rw [if_neg (by rw [h]; simp)]

theorem free_example_frame {L : Type} (s : state L) (e : Option vw_example) :
    (free_example s e).learn_calls = s.learn_calls ∧
    (free_example s e).ec_seq = s.ec_seq ∧
    (free_example s e).freed = s.freed ++ [addr_of e] :=
  ⟨rfl, rfl, rfl⟩

/-- The two release loops leave the learner log and the held examples alone and
release the held slots `0..n-1` in order, then the boundary example. -/
theorem release_sequence_spec {L : Type} (n : Nat) (cur : Option vw_example) (s : state L) :
    (release_sequence n cur s).learn_calls = s.learn_calls ∧
    (release_sequence n cur s).ec_seq = s.ec_seq ∧
    (release_sequence n cur s).freed =
      s.freed ++ (List.range n).map (fun i => addr_of (s.ec_seq.getD i none))
        ++ (match cur with
            | some e => [some e.addr]
            | none => []) := by
  unfold release_sequence
  lift_lets
  extract_lets s1
  have key := for_loop_inv
    (fun i (u : state L) => u.learn_calls = s.learn_calls ∧ u.ec_seq = s.ec_seq ∧
      u.freed = s.freed ++ (List.range i).map (fun i => addr_of (s.ec_seq.getD i none)))
    (fun i (s : state L) => free_example s (s.ec_seq.getD i none)) 0 n s (Nat.zero_le _)
    ⟨rfl, rfl, by simp⟩
    (by
      rintro i u _ _ ⟨h1, h2, h3⟩
      refine ⟨h1, h2, ?_⟩
      show u.freed ++ [addr_of (u.ec_seq.getD i none)] = _
      rw [h3, h2, List.range_succ, List.map_append, List.append_assoc]
      rfl)
  obtain ⟨h1, h2, h3⟩ := key
  cases cur with
  | none =>
    refine ⟨h1, h2, ?_⟩
    show s1.freed = _
    rw [h3]
    simp
  | some e =>
    refine ⟨h1, h2, ?_⟩
    show s1.freed ++ [addr_of (some e)] = _
    rw [h3]
    rfl

/-- What `process_next_example_sequence` does when the parser starts with a
training sequence `seq`: the held examples are the examples of `seq` as
`safe_get_example` hands them out; the learner is given exactly one training
call per example, in order, with a cost vector as long as the loss vector; and
on return every held example sits in its slot of `ec_seq`, at its address, with
the label pointer it had when it was read. -/
theorem process_training_run {L : Type} (cfg : config) (env : collaborators L) (s : state L)
    (seq rest : List vw_example) (h : starts_training_sequence cfg s seq rest) :
    (∃ calls, training_calls (process_next_example_sequence cfg env s).learn_calls
        = training_calls s.learn_calls ++ calls ∧
      calls.map Prod.fst = seq.map (fun e => e.addr) ∧
      ∀ c ∈ calls, c.2.length = s.loss_vector.length) ∧
    (∀ j h, seq[j]? = some h →
      ∃ e, (process_next_example_sequence cfg env s).ec_seq.getD j none = some e ∧
        e.addr = h.addr ∧ e.ld = (clamp_label cfg h).ld) ∧
    (∃ last, (process_next_example_sequence cfg env s).freed
        = s.freed ++ seq.map (fun e => some e.addr) ++ last ∧
      (last = [] ∨ ∃ b r, rest = b :: r ∧ last = [some b.addr])) := by
  obtain ⟨hp, hne, hall, hlen, hec, hend⟩ := h
  obtain ⟨e0, seq1, rfl⟩ : ∃ e0 seq1, seq = e0 :: seq1 := by
    cases seq with
    | nil => exact absurd rfl hne
    | cons a l => exact ⟨a, l, rfl⟩
  simp only [List.length_cons] at hlen hend
  have he0 := hall e0 (List.mem_cons_self _ _)
  unfold process_next_example_sequence
  lift_lets
  extract_lets s0 r
  obtain ⟨b1, b2, b3⟩ := safe_get_example_cons cfg 1 s0 e0 (seq1 ++ rest)
    (by show s.parser = _; rw [hp]; rfl) (by show 0 ≠ cfg.ring_size; omega)
  obtain ⟨a1, a2, a3, a4⟩ := safe_get_example_frame cfg 1 s0
  have hr1 : r.1 = some (clamp_label cfg e0) := b1
  rw [hr1]
  simp only
  rw [skip_initial_newlines_stop cfg _ _ _ (by rw [clamp_label_newline]; exact he0.1)]
  simp only
  rw [if_neg (by rw [he0.2]; simp)]
  unfold process_training_sequence
  lift_lets
  extract_lets rd n skip cur s2
  obtain ⟨c1, c2, c3, c4, c5, c6, _, c8, c9⟩ := read_sequence_loop_spec cfg seq1
    (r.2.parser.length + 1) 0 (clamp_label cfg e0) rest r.2 b2
    (by rw [b2]; simp; omega) (by rw [clamp_label_newline]; exact he0.1) he0.2
    (fun x hx => hall x (List.mem_cons_of_mem _ hx))
    (by rw [a1]; show 0 + 1 + seq1.length ≤ s.ec_seq.length; omega)
    (by rw [b3]; show 0 + 1 + seq1.length ≤ _; omega)
    (by
      rw [b3]
      rcases hend with h | h | h
      · left
        show 0 + 1 + seq1.length = _
        omega
      · exact Or.inr (Or.inl h)
      · exact Or.inr (Or.inr h))
  have hskip : skip = false := c2
  have hn : n = (e0 :: seq1).length := by
    show rd.1 = _
    rw [c1, List.length_cons]
    omega
  rw [hskip]
  simp only [Bool.false_eq_true, if_false]
  obtain ⟨d1, d2, d3⟩ := release_sequence_spec n cur (train_sequence cfg env n s2)
  rw [d1, d2, d3]
  have hheld : ∀ j h, ((e0 :: seq1).map (clamp_label cfg))[j]? = some h →
      s2.ec_seq.getD j none = some h := by
    intro j h hj
    have hjlt : j < (clamp_label cfg e0 :: seq1.map (clamp_label cfg)).length := by
      by_contra hcon
      rw [List.getElem?_eq_none (by simp at hcon ⊢; omega)] at hj
      exact absurd hj (by simp)
    have := c8 j hjlt
    rw [Nat.zero_add] at this
    rw [← hj]
    exact this
  obtain ⟨⟨calls, t1, t2, t3⟩, t4, t5⟩ := train_sequence_spec cfg env n s2
    ((e0 :: seq1).map (clamp_label cfg)) (by rw [hn]; simp) hheld
  refine ⟨⟨calls, ?_, ?_, ?_⟩, ?_, ?_⟩
  · rw [t1]
    show training_calls rd.2.2.2.learn_calls ++ calls = _
    rw [c3, a2]
  · rw [t2, List.map_map]
    apply List.map_congr_left
    intro x _
    exact clamp_label_addr cfg x
  · intro c hc
    rw [t3 c hc]
    show rd.2.2.2.loss_vector.length = _
    rw [c4, a3]
  · intro j h hj
    obtain ⟨e, g1, g2, g3⟩ := t5 j (clamp_label cfg h) (by rw [List.getElem?_map, hj]; rfl)
    exact ⟨e, g1, by rw [g2, clamp_label_addr], g3⟩

  · have hA : (train_sequence cfg env n s2).freed = s.freed := by
      rw [t4]
      show rd.2.2.2.freed = _
      rw [c5, a4]
    have hB : (List.range n).map
        (fun i => addr_of ((train_sequence cfg env n s2).ec_seq.getD i none))
        = (e0 :: seq1).map (fun e => some e.addr) := by
      apply List.ext_getElem
      · simp only [List.length_map, List.length_range]
        exact hn
      · intro j h1 h2
        simp only [List.getElem_map, List.getElem_range]
        have hj : j < (e0 :: seq1).length := by simpa using h2
        obtain ⟨e, g1, g2, _⟩ := t5 j (clamp_label cfg (e0 :: seq1)[j])
          (by rw [List.getElem?_map, List.getElem?_eq_getElem hj]; rfl)
        rw [g1]
        show some e.addr = _
        rw [g2, clamp_label_addr]
    rcases c9 with h | ⟨b, r0, hb, hc⟩
    · have hcur : cur = none := h
      refine ⟨[], ?_, Or.inl rfl⟩
      rw [hA, hB, hcur]
    · have hcur : cur = some (clamp_label cfg b) := hc
      refine ⟨[some b.addr], ?_, Or.inr ⟨b, r0, hb, rfl⟩⟩
      rw [hA, hB, hcur]
      show _ ++ [some (clamp_label cfg b).addr] = _
      rw [clamp_label_addr]
/-! ## The bookkeeping of `safe_get_example` -/

/-- What lines 650-666 do to the pass bookkeeping. -/
theorem note_new_pass_policy {L : Type} (cfg : config) (a : Int) (pass : Nat) (s : state L) :
    (note_new_pass cfg a pass s).read_example_last_pass = pass ∧
    (note_new_pass cfg a pass s).passes_since_new_policy =
      (if s.passes_since_new_policy + 1 ≥ cfg.sequence_passes_per_policy then 0
        else s.passes_since_new_policy + 1) ∧
    (note_new_pass cfg a pass s).current_policy =
      (if s.passes_since_new_policy + 1 ≥ cfg.sequence_passes_per_policy then
        (if s.current_policy + 1 > cfg.total_number_of_policies then cfg.total_number_of_policies
          else s.current_policy + 1)
        else s.current_policy) ∧
    (note_new_pass cfg a pass s).warned_about_class_overage = s.warned_about_class_overage ∧
    (note_new_pass cfg a pass s).got_null = s.got_null := by
  unfold note_new_pass
  lift_lets
  extract_lets s1 s2 s3 s4
  have h2 : s2.read_example_last_pass = pass ∧
      s2.passes_since_new_policy = s.passes_since_new_policy ∧
      s2.current_policy = s.current_policy ∧
      s2.warned_about_class_overage = s.warned_about_class_overage ∧
      s2.got_null = s.got_null := by
    simp only [s2]
    split_ifs <;> exact ⟨rfl, rfl, rfl, rfl, rfl⟩
  obtain ⟨b1, b2, b3, b4, b5⟩ := h2
  have c1 : s3.read_example_last_pass = pass := b1
  have c2 : s3.passes_since_new_policy = s.passes_since_new_policy + 1 := by
    show s2.passes_since_new_policy + 1 = _
    rw [b2]
  have c3 : s3.current_policy = s.current_policy := b3
  have c4 : s3.warned_about_class_overage = s.warned_about_class_overage := b4
  have c5 : s3.got_null = s.got_null := b5
  have d1 : s4.read_example_last_pass = pass := c1
  have d2 : s4.passes_since_new_policy = 0 := rfl
  have d3 : s4.current_policy = s.current_policy + 1 := by
    show s3.current_policy + 1 = _
    rw [c3]
  have d4 : s4.warned_about_class_overage = s.warned_about_class_overage := c4
  have d5 : s4.got_null = s.got_null := c5
  rw [← c2]
  by_cases hp : s3.passes_since_new_policy ≥ cfg.sequence_passes_per_policy
  · rw [if_pos hp, if_pos hp, if_pos hp, ← d3]
    by_cases hq : s4.current_policy > cfg.total_number_of_policies
    · rw [if_pos hq, if_pos hq]
      exact ⟨d1, d2, rfl, d4, d5⟩
    · rw [if_neg hq, if_neg hq]
      exact ⟨d1, d2, rfl, d4, d5⟩
  · rw [if_neg hp, if_neg hp, if_neg hp]
    exact ⟨c1, rfl, c3, c4, c5⟩

/-- What lines 646-678 do to the pass bookkeeping and to the warning flag. -/
theorem accept_example_policy {L : Type} (cfg : config) (a : Int) (e : vw_example)
    (s : state L) :
    (accept_example cfg a e s).2.read_example_last_pass = e.pass ∧
    (accept_example cfg a e s).2.passes_since_new_policy =
      (if e.pass ≠ s.read_example_last_pass then
        (if s.passes_since_new_policy + 1 ≥ cfg.sequence_passes_per_policy then 0
          else s.passes_since_new_policy + 1)
        else s.passes_since_new_policy) ∧
    (accept_example cfg a e s).2.current_policy =
      (if e.pass ≠ s.read_example_last_pass then
        (if s.passes_since_new_policy + 1 ≥ cfg.sequence_passes_per_policy then
          (if s.current_policy + 1 > cfg.total_number_of_policies then
            cfg.total_number_of_policies
            else s.current_policy + 1)
          else s.current_policy)
        else s.current_policy) ∧
    (accept_example cfg a e s).2.warned_about_class_overage =
      (s.warned_about_class_overage || decide (e.ld.deref.label > cfg.sequence_k)) ∧
    (accept_example cfg a e s).2.got_null = s.got_null := by
  unfold accept_example
  lift_lets
  extract_lets s1 s2 y s3
  have h1 : s1.read_example_last_pass = s.read_example_last_pass := rfl
  have h2 : s2.read_example_last_pass = e.pass ∧
      s2.passes_since_new_policy =
        (if e.pass ≠ s.read_example_last_pass then
          (if s.passes_since_new_policy + 1 ≥ cfg.sequence_passes_per_policy then 0
            else s.passes_since_new_policy + 1)
          else s.passes_since_new_policy) ∧
      s2.current_policy =
        (if e.pass ≠ s.read_example_last_pass then
          (if s.passes_since_new_policy + 1 ≥ cfg.sequence_passes_per_policy then
            (if s.current_policy + 1 > cfg.total_number_of_policies then
              cfg.total_number_of_policies
              else s.current_policy + 1)
            else s.current_policy)
          else s.current_policy) ∧
      s2.warned_about_class_overage = s.warned_about_class_overage ∧
      s2.got_null = s.got_null := by
    simp only [s2]
    by_cases hp : e.pass ≠ s1.read_example_last_pass
    · rw [if_pos hp]
      rw [h1] at hp
      rw [if_pos hp, if_pos hp]
      exact note_new_pass_policy cfg a e.pass s1
    · rw [if_neg hp]
      rw [h1] at hp
      rw [if_neg hp, if_neg hp]
      refine ⟨?_, rfl, rfl, rfl, rfl⟩
      rw [h1]
      exact (not_not.mp hp).symm
  obtain ⟨b1, b2, b3, b4, b5⟩ := h2
  by_cases hy : y > cfg.sequence_k
  · rw [if_pos hy]
    have hy2 : decide (e.ld.deref.label > cfg.sequence_k) = true := decide_eq_true hy
    rw [hy2, Bool.or_true]
    have e1 : s3.read_example_last_pass = s2.read_example_last_pass := by
      simp only [s3]
      split_ifs <;> rfl
    have e2 : s3.passes_since_new_policy = s2.passes_since_new_policy := by
      simp only [s3]
      split_ifs <;> rfl
    have e3 : s3.current_policy = s2.current_policy := by
      simp only [s3]
      split_ifs <;> rfl
    have e4 : s3.warned_about_class_overage = true := by
      simp only [s3]
      split_ifs with hw
      · exact hw
      · rfl
    have e5 : s3.got_null = s2.got_null := by
      simp only [s3]
      split_ifs <;> rfl
    exact ⟨e1.trans b1, e2.trans b2, e3.trans b3, e4, e5.trans b5⟩
  · rw [if_neg hy]
    have hy2 : decide (e.ld.deref.label > cfg.sequence_k) = false := decide_eq_false hy
    rw [hy2, Bool.or_false]
    exact ⟨b1, b2, b3, b4, b5⟩

/-- The two outcomes of `safe_get_example`: null, with parser, pass bookkeeping
and warning flag untouched and `got_null` set exactly when the parser was asked
and had nothing left; or the head of the parser with its label clamped, the
example counted and the bookkeeping of lines 646-678 done. -/
theorem safe_get_example_cases {L : Type} (cfg : config) (a : Int) (s : state L) :
    ((safe_get_example cfg a s).1 = none ∧
      (s.read_example_this_loop = cfg.ring_size ∨ s.parser = []) ∧
      (safe_get_example cfg a s).2.parser = s.parser ∧
      (safe_get_example cfg a s).2.read_example_last_pass = s.read_example_last_pass ∧
      (safe_get_example cfg a s).2.passes_since_new_policy = s.passes_since_new_policy ∧
      (safe_get_example cfg a s).2.current_policy = s.current_policy ∧
      (safe_get_example cfg a s).2.warned_about_class_overage
        = s.warned_about_class_overage ∧
      (safe_get_example cfg a s).2.read_example_this_loop = s.read_example_this_loop ∧
      (safe_get_example cfg a s).2.got_null
        = decide (s.read_example_this_loop ≠ cfg.ring_size)) ∨
    (∃ e rest, s.parser = e :: rest ∧ s.read_example_this_loop ≠ cfg.ring_size ∧
      (safe_get_example cfg a s).1 = some (clamp_label cfg e) ∧
      (safe_get_example cfg a s).2.parser = rest ∧
      (safe_get_example cfg a s).2.read_example_last_pass = e.pass ∧
      (safe_get_example cfg a s).2.passes_since_new_policy =
        (if e.pass ≠ s.read_example_last_pass then
          (if s.passes_since_new_policy + 1 ≥ cfg.sequence_passes_per_policy then 0
            else s.passes_since_new_policy + 1)
          else s.passes_since_new_policy) ∧
      (safe_get_example cfg a s).2.current_policy =
        (if e.pass ≠ s.read_example_last_pass then
          (if s.passes_since_new_policy + 1 ≥ cfg.sequence_passes_per_policy then
            (if s.current_policy + 1 > cfg.total_number_of_policies then
              cfg.total_number_of_policies
              else s.current_policy + 1)
            else s.current_policy)
          else s.current_policy) ∧
      (safe_get_example cfg a s).2.warned_about_class_overage =
        (s.warned_about_class_overage || decide (e.ld.deref.label > cfg.sequence_k)) ∧
      (safe_get_example cfg a s).2.read_example_this_loop = s.read_example_this_loop + 1 ∧
      (safe_get_example cfg a s).2.got_null = false) := by
  unfold safe_get_example
  lift_lets
  extract_lets s0
  by_cases h1 : s0.read_example_this_loop = cfg.ring_size
  · rw [if_pos h1]
    left
    have h1s : s.read_example_this_loop = cfg.ring_size := h1
    refine ⟨rfl, Or.inl h1, rfl, rfl, rfl, rfl, rfl, rfl, ?_⟩
    show false = _
    simp [h1s]
  · rw [if_neg h1]
    have h1s : s.read_example_this_loop ≠ cfg.ring_size := h1
    rcases hpar : s.parser with _ | ⟨e, rest⟩
    · left
      refine ⟨rfl, Or.inr rfl, rfl, rfl, rfl, rfl, rfl, rfl, ?_⟩
      show true = _
      simp [h1s]
    · right
      obtain ⟨b1, b2, b3, b4, b5⟩ := accept_example_policy cfg a e { s0 with parser := rest }
      obtain ⟨c0, _, _, _, _, c5, c6⟩ := accept_example_spec cfg a e { s0 with parser := rest }
      exact ⟨e, rest, rfl, h1, c0, c5, b1, b2, b3, b4, c6, b5⟩
/-! ## The rollout cache: sorting and marking -/

theorem getD_set_eq {α : Type} (l : List α) (i : Nat) (x d : α) (h : i < l.length) :
    (l.set i x).getD i d = x := by
  simp [List.getD_eq_getElem?_getD, List.getElem?_set, h]

/-- The comparator does not look at the duplicate marks. -/
theorem order_history_item_same (cfg : config) (ah : List (List Nat)) (a b : history_item)
    (x y : Bool) :
    order_history_item cfg ah { a with same := x } { b with same := y }
      = order_history_item cfg ah a b := rfl

/-- When the comparator `order_history_item(a, b)` returns 0: the hash of `a`
is not below the hash of `b`, and the two histories agree in their last slot. -/
theorem order_history_item_eq_zero_iff (cfg : config) (ah : List (List Nat))
    (a b : history_item) :
    order_history_item cfg ah a b = 0 ↔
      (¬ a.predictions_hash < b.predictions_hash ∧
        last_prediction cfg (ah.getD a.predictions [])
          = last_prediction cfg (ah.getD b.predictions [])) := by
  unfold order_history_item last_prediction
  lift_lets
  extract_lets i pa pb
  by_cases h1 : a.predictions_hash < b.predictions_hash
  · rw [if_pos h1]
    constructor
    · intro h
      exact absurd h (by decide)
    · intro h
      exact absurd h1 h.1
  · rw [if_neg h1, if_neg h1]
    by_cases h2 : pa < pb
    · rw [if_pos h2]
      constructor
      · intro h
        exact absurd h (by decide)
      · intro h
        have : pa = pb := h.2
        omega
    · rw [if_neg h2]
      by_cases h3 : pa > pb
      · rw [if_pos h3]
        constructor
        · intro h
          exact absurd h (by decide)
        · intro h
          have : pa = pb := h.2
          omega
      · rw [if_neg h3]
        constructor
        · intro _
          refine ⟨h1, ?_⟩
          show pa = pb
          omega
        · intro _
          rfl

/-- What `sort_hcache_and_mark_equality` leaves in the cache: the items in the
order `qsort` produced, item 0 not marked, and item `i >= 1` marked exactly
when the comparator returns 0 on it and its predecessor. -/
theorem sort_hcache_marks {L : Type} (cfg : config) (env : collaborators L) (s : state L)
    (hq : ∀ cmp l, (env.qsort cmp l).Perm l) (hlen : s.hcache.length = cfg.sequence_k) :
    (sort_hcache_and_mark_equality cfg env s).hcache.length = cfg.sequence_k ∧
    ∀ i, i < cfg.sequence_k →
      (sort_hcache_and_mark_equality cfg env s).hcache.getD i default =
        { ((env.qsort (order_history_item cfg s.all_histories) s.hcache).getD i default) with
          same := decide (1 ≤ i ∧ order_history_item cfg s.all_histories
            ((env.qsort (order_history_item cfg s.all_histories) s.hcache).getD i default)
            ((env.qsort (order_history_item cfg s.all_histories) s.hcache).getD (i - 1) default)
              = 0) } := by
  unfold sort_hcache_and_mark_equality
  lift_lets
  extract_lets hc0 src hc1 hc2
  have hl0 : hc0.length = cfg.sequence_k := (hq _ _).length_eq.trans hlen
  have hl1 : hc1.length = cfg.sequence_k := by
    show (hc0.set 0 _).length = _
    rw [List.length_set, hl0]
  show hc2.length = cfg.sequence_k ∧ ∀ i, i < cfg.sequence_k → hc2.getD i default = _
  rcases Nat.eq_zero_or_pos cfg.sequence_k with hk | hk
  · have h2 : hc2 = hc1 := for_loop_empty _ _ _ _ (by omega)
    rw [h2]
    refine ⟨hl1, ?_⟩
    intro i hi
    omega
  · have key := for_loop_inv
      (fun j (hc : List history_item) => hc.length = cfg.sequence_k ∧
        ∀ i, i < cfg.sequence_k → hc.getD i default =
          if i < j then
            { (hc0.getD i default) with
              same := decide (1 ≤ i ∧ order_history_item cfg s.all_histories
                (hc0.getD i default) (hc0.getD (i - 1) default) = 0) }
          else hc0.getD i default)
      (fun i hc =>
        let order := order_history_item cfg s.all_histories (hc.getD i default)
          (hc.getD (i - 1) default)
        hc.set i { (hc.getD i default) with same := decide (order = 0) })
      1 cfg.sequence_k hc1 hk
      (by
        refine ⟨hl1, ?_⟩
        intro i hi
        by_cases h0 : i < 1
        · have hi0 : i = 0 := by omega
          subst hi0
          rw [if_pos h0]
          show (hc0.set 0 _).getD 0 default = _
          rw [getD_set_eq _ _ _ _ (by omega)]
          show ({ src with same := false } : history_item) = _
          congr 1
        · rw [if_neg h0]
          show (hc0.set 0 _).getD i default = _
          rw [getD_set_ne _ _ _ _ _ (by omega)])
      (by
        rintro j hc hj1 hjk ⟨hlenc, hget⟩
        refine ⟨by simp only [List.length_set]; exact hlenc, ?_⟩
        intro i hi
        have hcj : hc.getD j default = hc0.getD j default := by
          rw [hget j hjk, if_neg (lt_irrefl j)]
        have hcj1 : hc.getD (j - 1) default =
            { (hc0.getD (j - 1) default) with
              same := decide (1 ≤ j - 1 ∧ order_history_item cfg s.all_histories
                (hc0.getD (j - 1) default) (hc0.getD (j - 1 - 1) default) = 0) } := by
          rw [hget (j - 1) (by omega), if_pos (by omega)]
        simp only
        rcases Nat.lt_trichotomy i j with hlt | heq | hgt
        · rw [getD_set_ne _ _ _ _ _ (by omega), hget i hi, if_pos hlt, if_pos (by omega)]
        · subst heq
          rw [getD_set_eq _ _ _ _ (by omega), if_pos (by omega), hcj, hcj1]
          have hord : order_history_item cfg s.all_histories (hc0.getD i default)
              { (hc0.getD (i - 1) default) with
                same := decide (1 ≤ i - 1 ∧ order_history_item cfg s.all_histories
                  (hc0.getD (i - 1) default) (hc0.getD (i - 1 - 1) default) = 0) }
              = order_history_item cfg s.all_histories (hc0.getD i default)
                (hc0.getD (i - 1) default) := rfl
          rw [hord]
          congr 1
          simp [hj1]
        · rw [getD_set_ne _ _ _ _ _ (by omega), hget i hi, if_neg (by omega),
            if_neg (by omega)])
    obtain ⟨k1, k2⟩ := key
    refine ⟨k1, ?_⟩
    intro i hi
    rw [k2 i hi, if_pos hi]

/-- The test `hcache_all_equal()` holds exactly when every item from index 1 on
is marked. -/
theorem hcache_all_equal_iff {L : Type} (cfg : config) (s : state L) :
    hcache_all_equal cfg s = true ↔
      ∀ i, 1 ≤ i → i < cfg.sequence_k → (s.hcache.getD i default).same = true := by
  unfold hcache_all_equal
  rw [List.all_eq_true]
  constructor
  · intro h i h1 h2
    exact h i (by rw [List.mem_range']; exact ⟨i - 1, by omega, by omega⟩)
  · intro h i hi
    rw [List.mem_range'] at hi
    obtain ⟨j, hj1, hj2⟩ := hi
    exact h i (by omega) (by omega)
/-! ## The early exit of train mode -/

theorem nothing_learned_refl {L : Type} (s : state L) : nothing_learned s s :=
  ⟨rfl, rfl, rfl, rfl, rfl⟩

theorem nothing_learned_trans {L : Type} {a b c : state L} (h1 : nothing_learned a b)
    (h2 : nothing_learned b c) : nothing_learned a c :=
  ⟨h2.1.trans h1.1, h2.2.1.trans h1.2.1, h2.2.2.1.trans h1.2.2.1,
    h2.2.2.2.1.trans h1.2.2.2.1, h2.2.2.2.2.trans h1.2.2.2.2⟩

theorem note_new_pass_nothing_learned {L : Type} (cfg : config) (a : Int) (pass : Nat)
    (s : state L) : nothing_learned s (note_new_pass cfg a pass s) := by
  unfold note_new_pass
  lift_lets
  extract_lets s1 s2 s3 s4
  have h2 : nothing_learned s s2 := by
    simp only [s2]
    split_ifs <;> exact ⟨rfl, rfl, rfl, rfl, rfl⟩
  have h3 : nothing_learned s s3 := h2
  split_ifs
  · exact h3
  · exact h3
  · exact h3

theorem accept_example_nothing_learned {L : Type} (cfg : config) (a : Int) (e : vw_example)
    (s : state L) : nothing_learned s (accept_example cfg a e s).2 := by
  unfold accept_example
  lift_lets
  extract_lets s1 s2 y s3
  have h2 : nothing_learned s s2 := by
    simp only [s2]
    split_ifs
    · exact note_new_pass_nothing_learned cfg a e.pass s1
    · exact ⟨rfl, rfl, rfl, rfl, rfl⟩
  have h3 : nothing_learned s s3 := by
    simp only [s3]
    split_ifs
    · exact h2
    · exact h2
  split_ifs
  · exact h3
  · exact h2

theorem safe_get_example_nothing_learned {L : Type} (cfg : config) (a : Int) (s : state L) :
    nothing_learned s (safe_get_example cfg a s).2 := by
  unfold safe_get_example
  lift_lets
  extract_lets s0
  split_ifs with h1
  · exact ⟨rfl, rfl, rfl, rfl, rfl⟩
  · rcases hpar : s.parser with _ | ⟨e, rest⟩
    · exact ⟨rfl, rfl, rfl, rfl, rfl⟩
    · exact accept_example_nothing_learned cfg a e { s0 with parser := rest }

theorem read_sequence_loop_nothing_learned {L : Type} (cfg : config) :
    ∀ (fuel n : Nat) (skip : Bool) (cur : Option vw_example) (s : state L),
    nothing_learned s (read_sequence_loop cfg fuel n skip cur s).2.2.2 := by
  intro fuel
  induction fuel with
  | zero =>
    intro n skip cur s
    exact nothing_learned_refl s
  | succ f ih =>
    intro n skip cur s
    cases cur with
    | none => exact nothing_learned_refl s
    | some cur_ec =>
      by_cases hnl : example_is_newline cfg cur_ec = true
      · simp only [read_sequence_loop]
        rw [if_pos hnl]
        exact nothing_learned_refl s
      · simp only [read_sequence_loop]
        rw [if_neg hnl]
        have h1 : nothing_learned s
            ({ s with ec_seq := s.ec_seq.set n (some cur_ec) } : state L) :=
          ⟨rfl, rfl, rfl, rfl, rfl⟩
        exact nothing_learned_trans
          (nothing_learned_trans h1 (safe_get_example_nothing_learned cfg 0 _)) (ih _ _ _ _)

theorem skip_sequence_nothing_learned {L : Type} (n : Nat) (cur : Option vw_example)
    (s : state L) : nothing_learned s (skip_sequence n cur s) := by
  unfold skip_sequence
  lift_lets
  extract_lets s1
  have h1 : nothing_learned s s1 := by
    simp only [s1]
    apply for_loop_preserves (fun (u : state L) => nothing_learned s u)
    · exact nothing_learned_refl s
    · intro i u _ _ h
      exact nothing_learned_trans h ⟨rfl, rfl, rfl, rfl, rfl⟩
  cases cur with
  | none => exact h1
  | some e => exact nothing_learned_trans h1 ⟨rfl, rfl, rfl, rfl, rfl⟩

/-- When the reading loop finds a test example (`skip_this_one` is set), train
mode drops the sequence: no learner call is made and the running history,
`pred_seq`, `policy_seq` and the counters of `global.sd` stay as they are. -/
theorem skip_path_nothing_learned {L : Type} (cfg : config) (env : collaborators L)
    (cur_ec : vw_example) (s : state L)
    (hskip : (read_sequence_loop cfg (s.parser.length + 1) 0 false (some cur_ec) s).2.1 = true) :
    nothing_learned s (process_training_sequence cfg env cur_ec s) := by
  unfold process_training_sequence
  lift_lets
  extract_lets rd n skip cur s2
  have hs : skip = true := hskip
  rw [if_pos hs]
  exact nothing_learned_trans
    (read_sequence_loop_nothing_learned cfg (s.parser.length + 1) 0 false (some cur_ec) s)
    (skip_sequence_nothing_learned n cur s2)
/-! ## C1: the cost vector -/

/-- C1: at every training position `t` and for every `k >= 1`, the rollout
cache holds exactly one entry per label index `0..k-1` in whatever order the
sort left them, and, writing `L[i]` for the loss of the entry that represents
label index `i`, the cost vector handed to the learner has `k` entries with
`cost[i] = L[i] - min_j L[j]`, all non-negative and at least one equal to 0.  The
hypotheses on the state are what `allocate_required_memory` sets up (`k` cache
entries, `k` slots in the loss vector) and that `qsort` rearranges. -/
theorem cost_vector_is_loss_minus_min {L : Type} (cfg : config) (env : collaborators L)
    (n t : Nat) (s : state L)
    (hk : 1 ≤ cfg.sequence_k)
    (hq : ∀ cmp l, (env.qsort cmp l).Perm l)
    (hhc : s.hcache.length = cfg.sequence_k)
    (hlv : s.loss_vector.length = cfg.sequence_k) :
    (∃ a, training_calls (learn_position cfg env n t s).learn_calls
        = training_calls s.learn_calls ++ [(a, position_costs cfg env n t s)]) ∧
    ((position_cache cfg env n t s).map (fun hi => hi.original_label)).Perm
      (List.range cfg.sequence_k) ∧
    (position_costs cfg env n t s).length = cfg.sequence_k ∧
    (∃ m, (∃ j, j < cfg.sequence_k ∧ candidate_loss (position_cache cfg env n t s) j = m) ∧
      (∀ j, j < cfg.sequence_k → m ≤ candidate_loss (position_cache cfg env n t s) j) ∧
      (∀ i, i < cfg.sequence_k →
        (position_costs cfg env n t s)[i]? =
          some (candidate_loss (position_cache cfg env n t s) i - m))) ∧
    (∀ i, i < cfg.sequence_k → ∃ c, (position_costs cfg env n t s)[i]? = some c ∧ 0 ≤ c) ∧
    (∃ i, i < cfg.sequence_k ∧ (position_costs cfg env n t s)[i]? = some 0) := by
  have hperm := rollout_position_labels cfg env n t s hq hhc
  have hlv2 : (rollout_position cfg env n t s).loss_vector.length = cfg.sequence_k := by
    rw [(rollout_position_quiet cfg env n t s).2.1]
    exact hlv
  obtain ⟨hlen, hmin1, ⟨j0, hj0, hmin2⟩, hcost⟩ :=
    compute_loss_vector_spec cfg (rollout_position cfg env n t s) hk hperm hlv2
  have hget : ∀ i, i < cfg.sequence_k →
      (position_costs cfg env n t s)[i]? =
        some (candidate_loss (position_cache cfg env n t s) i
          - min_loss cfg.sequence_k (position_cache cfg env n t s)) := by
    intro i hi
    have := hcost i hi
    rw [List.getD_eq_getElem _ _ (by rw [hlen]; exact hi)] at this
    unfold position_costs position_cache
    rw [List.getElem?_eq_getElem (by rw [hlen]; exact hi), this]
  obtain ⟨a, _, ha⟩ := learn_position_training_calls cfg env n t s
  refine ⟨⟨a, ha⟩, hperm, hlen, ⟨_, ⟨j0, hj0, hmin2⟩, hmin1, hget⟩, ?_, ?_⟩
  · intro i hi
    refine ⟨_, hget i hi, ?_⟩
    have := hmin1 i hi
    unfold position_cache
    linarith
  · refine ⟨j0, hj0, ?_⟩
    rw [hget j0 hj0]
    unfold position_cache
    rw [hmin2]
    simp

/-- C1 at position 0 of the four-example sample sequence with `k = 3`, true
label 1 and the stub learner: the three candidates end with losses 1, 2, 2 and
the learner receives the cost vector `[0, 1, 1]`. -/
theorem cost_vector_is_loss_minus_min_witness :
    (1 ≤ sample_config.sequence_k ∧
      (∀ cmp l, (sample_env.qsort cmp l).Perm l) ∧
      sample_state_held.hcache.length = sample_config.sequence_k ∧
      sample_state_held.loss_vector.length = sample_config.sequence_k) ∧
    (position_cache sample_config sample_env 4 0 sample_state_held).map
        (fun hi => (hi.original_label, hi.loss)) = [(0, 1), (1, 2), (2, 2)] ∧
    position_costs sample_config sample_env 4 0 sample_state_held = [0, 1, 1] ∧
    ((∃ a, training_calls (learn_position sample_config sample_env 4 0 sample_state_held).learn_calls
        = training_calls sample_state_held.learn_calls
          ++ [(a, position_costs sample_config sample_env 4 0 sample_state_held)]) ∧
    ((position_cache sample_config sample_env 4 0 sample_state_held).map
        (fun hi => hi.original_label)).Perm (List.range sample_config.sequence_k) ∧
    (position_costs sample_config sample_env 4 0 sample_state_held).length
      = sample_config.sequence_k ∧
    (∃ m, (∃ j, j < sample_config.sequence_k ∧
        candidate_loss (position_cache sample_config sample_env 4 0 sample_state_held) j = m) ∧
      (∀ j, j < sample_config.sequence_k →
        m ≤ candidate_loss (position_cache sample_config sample_env 4 0 sample_state_held) j) ∧
      (∀ i, i < sample_config.sequence_k →
        (position_costs sample_config sample_env 4 0 sample_state_held)[i]? =
          some (candidate_loss (position_cache sample_config sample_env 4 0 sample_state_held) i
            - m))) ∧
    (∀ i, i < sample_config.sequence_k →
      ∃ c, (position_costs sample_config sample_env 4 0 sample_state_held)[i]? = some c ∧ 0 ≤ c) ∧
    (∃ i, i < sample_config.sequence_k ∧
      (position_costs sample_config sample_env 4 0 sample_state_held)[i]? = some 0)) :=
  ⟨⟨by decide, insertion_qsort_perm, by decide, by decide⟩, by decide!, by decide!,
    cost_vector_is_loss_minus_min sample_config sample_env 4 0 sample_state_held
      (by decide) insertion_qsort_perm (by decide) (by decide)⟩

/-! ## C2: one training example per position -/

/-- C2: when the parser starts with a training sequence of `n >= 1` labelled
positions (no test example in it), then for every learner
`process_next_example_sequence` hands the learner a cost-vector label exactly
`n` times, on the examples of the positions `0..n-1` in this order, and every
one of these cost vectors has `k` entries. -/
theorem one_training_call_per_position {L : Type} (cfg : config) (env : collaborators L)
    (s : state L) (seq rest : List vw_example)
    (h : starts_training_sequence cfg s seq rest)
    (hlv : s.loss_vector.length = cfg.sequence_k) :
    ∃ calls,
      training_calls (process_next_example_sequence cfg env s).learn_calls
        = training_calls s.learn_calls ++ calls ∧
      calls.length = seq.length ∧
      calls.map Prod.fst = seq.map (fun e => e.addr) ∧
      ∀ c ∈ calls, c.2.length = cfg.sequence_k := by
  obtain ⟨⟨calls, h1, h2, h3⟩, _⟩ := process_training_run cfg env s seq rest h
  refine ⟨calls, h1, ?_, h2, ?_⟩
  · have := congrArg List.length h2
    simpa using this
  · intro c hc
    rw [h3 c hc, hlv]

/-- C2 on the sample sequence: `n = 4`, `k = 3`, a stub learner that always
predicts label 1; the learner gets exactly 4 training calls, on the examples at
addresses 1, 2, 3, 4, each with a 3-entry cost vector. -/
theorem one_training_call_per_position_witness :
    (starts_training_sequence sample_config (sample_state sample_config sample_sequence (3 / 4))
        [sample_example 1 1, sample_example 2 2, sample_example 3 3, sample_example 4 1]
        [sample_newline 5] ∧
      (sample_state sample_config sample_sequence (3 / 4)).loss_vector.length
        = sample_config.sequence_k) ∧
    training_calls (process_next_example_sequence sample_config sample_env
        (sample_state sample_config sample_sequence (3 / 4))).learn_calls
      = [(1, [0, 1, 1]), (2, [1, 0, 1]), (3, [1, 1, 0]), (4, [0, 1, 1])] ∧
    (∃ calls,
      training_calls (process_next_example_sequence sample_config sample_env
          (sample_state sample_config sample_sequence (3 / 4))).learn_calls
        = training_calls (sample_state sample_config sample_sequence (3 / 4)).learn_calls
          ++ calls ∧
      calls.length
        = [sample_example 1 1, sample_example 2 2, sample_example 3 3,
            sample_example 4 1].length ∧
      calls.map Prod.fst
        = [sample_example 1 1, sample_example 2 2, sample_example 3 3,
            sample_example 4 1].map (fun e => e.addr) ∧
      ∀ c ∈ calls, c.2.length = sample_config.sequence_k) :=
  ⟨⟨sample_sequence_starts_training, by decide⟩, by decide!,
    one_training_call_per_position sample_config sample_env
      (sample_state sample_config sample_sequence (3 / 4))
      [sample_example 1 1, sample_example 2 2, sample_example 3 3, sample_example 4 1]
      [sample_newline 5] sample_sequence_starts_training (by decide)⟩

/-! ## C3: labels are restored -/

/-- C3: when the parser starts with a training sequence, which
`process_next_example_sequence` then processes to completion, on return every
held example `ec_seq[j]` is the example that was read into that slot (same
address) and its label pointer is the one the example had when
`safe_get_example` handed it out; for a label value within `0..k` that is the
label pointer the parser delivered, unchanged. -/
theorem held_labels_restored {L : Type} (cfg : config) (env : collaborators L)
    (s : state L) (seq rest : List vw_example)
    (h : starts_training_sequence cfg s seq rest) :
    ∀ j e0, seq[j]? = some e0 →
      ∃ e, (process_next_example_sequence cfg env s).ec_seq.getD j none = some e ∧
        e.addr = e0.addr ∧ e.ld = (clamp_label cfg e0).ld ∧
        (e0.ld.deref.label ≤ cfg.sequence_k → e.ld = e0.ld) := by
  intro j e0 hj
  obtain ⟨e, h1, h2, h3⟩ := (process_training_run cfg env s seq rest h).2.1 j e0 hj
  refine ⟨e, h1, h2, h3, ?_⟩
  intro hle
  rw [h3]
  unfold clamp_label
  rw [if_neg (by omega)]

/-- C3 on the sample sequence: the four held examples end with their own label
objects (addresses 101 to 104), although the learner saw the first of them with
the label `empty_costs` and later with the cost vector `[0, 1, 1]`. -/
theorem held_labels_restored_witness :
    starts_training_sequence sample_config (sample_state sample_config sample_sequence (3 / 4))
      [sample_example 1 1, sample_example 2 2, sample_example 3 3, sample_example 4 1]
      [sample_newline 5] ∧
    ((process_next_example_sequence sample_config sample_env
        (sample_state sample_config sample_sequence (3 / 4))).learn_calls.map
          (fun e => (e.addr, e.ld))).take 5
      = [(1, label_ptr.empty_costs), (2, label_ptr.empty_costs), (3, label_ptr.empty_costs),
          (4, label_ptr.empty_costs), (1, label_ptr.costs [0, 1, 1])] ∧
    ((process_next_example_sequence sample_config sample_env
        (sample_state sample_config sample_sequence (3 / 4))).ec_seq.take 4).map
          (fun e => e.map (fun e => e.ld))
      = [some (label_ptr.mc 101 ⟨1, 1⟩), some (label_ptr.mc 102 ⟨2, 1⟩),
          some (label_ptr.mc 103 ⟨3, 1⟩), some (label_ptr.mc 104 ⟨1, 1⟩)] ∧
    (∀ j e0,
      [sample_example 1 1, sample_example 2 2, sample_example 3 3, sample_example 4 1][j]?
        = some e0 →
      ∃ e, (process_next_example_sequence sample_config sample_env
          (sample_state sample_config sample_sequence (3 / 4))).ec_seq.getD j none = some e ∧
        e.addr = e0.addr ∧ e.ld = (clamp_label sample_config e0).ld ∧
        (e0.ld.deref.label ≤ sample_config.sequence_k → e.ld = e0.ld)) :=
  ⟨sample_sequence_starts_training, by decide!, by decide!,
    held_labels_restored sample_config sample_env
      (sample_state sample_config sample_sequence (3 / 4))
      [sample_example 1 1, sample_example 2 2, sample_example 3 3, sample_example 4 1]
      [sample_newline 5] sample_sequence_starts_training⟩

/-! ## C4: release of the examples -/

/-- The normal path of train mode releases every example it obtained exactly
once: when the parser starts with a training sequence, the release log grows
by the held examples in order and then by the boundary example, if one was
read. -/
theorem normal_path_releases_each_example {L : Type} (cfg : config) (env : collaborators L)
    (s : state L) (seq rest : List vw_example)
    (h : starts_training_sequence cfg s seq rest) :
    ∃ last, (process_next_example_sequence cfg env s).freed
        = s.freed ++ seq.map (fun e => some e.addr) ++ last ∧
      (last = [] ∨ ∃ b r, rest = b :: r ∧ last = [some b.addr]) :=
  (process_training_run cfg env s seq rest h).2.2

/-- C4 fails on the early exit: with `k = 2^32 - 1` (so that the test label
survives the clamping) and the sequence "training example at address 1, test
example at address 2, boundary example at address 3", the call enters train
mode, finds the test example and leaves through lines 756-762, which release
`ec_seq[n]` (here the null slot `ec_seq[2]`) twice and the boundary example
once; the two held examples, still in `ec_seq[0]` and `ec_seq[1]`, are never
released.  No learner call is made. -/
theorem early_exit_releases_wrong_slot :
    (process_next_example_sequence sample_config_many_classes sample_env
        (sample_state sample_config_many_classes sample_mixed_sequence (3 / 4))).freed
      = [none, none, some 3] ∧
    ((process_next_example_sequence sample_config_many_classes sample_env
        (sample_state sample_config_many_classes sample_mixed_sequence (3 / 4))).ec_seq.take 3).map
          addr_of
      = [some 1, some 2, none] ∧
    (process_next_example_sequence sample_config_many_classes sample_env
        (sample_state sample_config_many_classes sample_mixed_sequence (3 / 4))).learn_calls.length
      = 0 := by
  refine ⟨by decide!, by decide!, by decide!⟩

/-! ## C5: history append and evict -/

/-- C5: for a history `h` of `historyLength >= 1` slots and a label `p`,
`append_history` yields a history of the same length whose slot `i` is the old
slot `i+1` for every `i < historyLength-1` and whose last slot is `p`. -/
theorem append_history_shifts_and_evicts (history_length : Nat) (h : List Nat) (p : Nat)
    (hlen : h.length = history_length) (hpos : 1 ≤ history_length) :
    (append_history history_length h p).length = history_length ∧
    (∀ i, i < history_length - 1 →
      (append_history history_length h p)[i]? = h[i + 1]? ∧
      (append_history history_length h p)[i]? ≠ none) ∧
    (append_history history_length h p)[history_length - 1]? = some p := by
  have hl := append_history_length history_length h p hlen
  refine ⟨hl, ?_, ?_⟩
  · intro i hi
    rw [append_history_eq history_length h p hlen hpos]
    rw [List.getElem?_append_left (by simp; omega), List.getElem?_drop]
    constructor
    · congr 1
      omega
    · rw [Ne, List.getElem?_eq_none_iff]
      omega
  · rw [append_history_eq history_length h p hlen hpos]
    rw [List.getElem?_append_right (by simp; omega)]
    have : history_length - 1 - (List.drop 1 h).length = 0 := by simp; omega
    rw [this]
    rfl

/-- C5 at `historyLength = 3`: `[0,0,0]` becomes `[0,0,5]` after appending 5 and
`[0,5,7]` after appending 7. -/
theorem append_history_shifts_and_evicts_witness :
    append_history 3 [0, 0, 0] 5 = [0, 0, 5] ∧
    append_history 3 [0, 0, 5] 7 = [0, 5, 7] ∧
    ([0, 0, 5].length = 3 ∧ 1 ≤ 3) ∧
    ((append_history 3 [0, 0, 5] 7).length = 3 ∧
      (∀ i, i < 3 - 1 →
        (append_history 3 [0, 0, 5] 7)[i]? = [0, 0, 5][i + 1]? ∧
        (append_history 3 [0, 0, 5] 7)[i]? ≠ none) ∧
      (append_history 3 [0, 0, 5] 7)[3 - 1]? = some 7) :=
  ⟨by decide, by decide, ⟨by decide, by decide⟩,
    append_history_shifts_and_evicts 3 [0, 0, 5] 7 (by decide) (by decide)⟩

/-! ## C6: policy offset round trip -/

/-- C6: for every example (with 32-bit weight indices), policy id, table
length, `k`, policy budget and stride, `add_policy_offset` shifts every listed
feature by the policy amount modulo `2^32`, and `remove_policy_offset` with the
same arguments then gives back the example, every weight index included. -/
theorem policy_offset_round_trip (cfg : config) (ec : vw_example) (policy : Nat)
    (hw : ∀ ns, ∀ f ∈ ec.atomics ns, f.weight_index < 2 ^ 32) :
    (∀ ns, ns ∈ ec.indices →
      ((add_policy_offset cfg ec policy).atomics ns).map (fun f => f.weight_index) =
        (ec.atomics ns).map
          (fun f => (f.weight_index + policy_offset_amount cfg policy) % 2 ^ 32)) ∧
    remove_policy_offset cfg (add_policy_offset cfg ec policy) policy = ec := by
  constructor
  · intro ns hns
    simp [add_policy_offset, update_indicies, hns, u32]
  · exact update_indicies_round_trip ec _ (fun ns _ => hw ns)

/-- C6 on a sample example whose feature has weight index `2^32 - 1`, with
policy 1 (amount `2^18 / 3 / 2 = 43690`): the shifted index wraps to 43689 and
the removal restores the example. -/
theorem policy_offset_round_trip_witness :
    (∀ ns, ∀ f ∈ (sample_example 0 1).atomics ns, f.weight_index < 2 ^ 32) ∧
    ((add_policy_offset sample_config (sample_example 0 1) 1).atomics 1).map
        (fun f => f.weight_index) = [43689] ∧
    ((∀ ns, ns ∈ (sample_example 0 1).indices →
      ((add_policy_offset sample_config (sample_example 0 1) 1).atomics ns).map
          (fun f => f.weight_index) =
        ((sample_example 0 1).atomics ns).map
          (fun f => (f.weight_index + policy_offset_amount sample_config 1) % 2 ^ 32)) ∧
    remove_policy_offset sample_config (add_policy_offset sample_config (sample_example 0 1) 1) 1
      = sample_example 0 1) :=
  ⟨sample_example_weight_bound 0 1, by decide,
    policy_offset_round_trip sample_config (sample_example 0 1) 1
      (sample_example_weight_bound 0 1)⟩

/-! ## C7: feature injection round trip -/

/-- C7 as stated fails on `total_sum_feat_sq`, which is a `float`.  Take one
history slot and an example with one feature of value `2^-13`, so that
`total_sum_feat_sq = 2^-26`; its history namespace is empty.
`add_history_to_example` injects one feature and line 524 computes
`2^-26 + 1`, which rounds to 1; `remove_history_from_example` then computes
`1 - 1 = 0`, not `2^-26`.  In the same way `0.1f + 1 - 1` is
`838861 / 8388608 = 0.10000002384...`, not `0.1f = 13421773 / 134217728`. -/
theorem history_round_trip_counterexample :
    (sample_example_small_value.atomics sample_config.history_namespace = [] ∧
      sample_example_small_value.sum_feat_sq sample_config.history_namespace = 0 ∧
      sample_config.history_namespace ∉ sample_example_small_value.indices ∧
      sample_example_small_value.total_sum_feat_sq = 1 / 67108864 ∧
      is_f32 sample_example_small_value.total_sum_feat_sq = true) ∧
    ((add_history_to_example sample_config sample_example_small_value [3]).atomics
        sample_config.history_namespace).length = 1 ∧
    (add_history_to_example sample_config sample_example_small_value [3]).total_sum_feat_sq
      = 1 ∧
    (remove_history_from_example sample_config
      (add_history_to_example sample_config sample_example_small_value [3])).total_sum_feat_sq
      = 0 ∧
    ¬ ((remove_history_from_example sample_config
      (add_history_to_example sample_config sample_example_small_value [3])).total_sum_feat_sq
      = sample_example_small_value.total_sum_feat_sq) ∧
    (is_f32 (13421773 / 134217728) = true ∧
      f32_sub (f32_add (13421773 / 134217728) 1) 1 = 838861 / 8388608) := by
  refine ⟨⟨by decide!, by decide!, by decide!, by decide!, by decide!⟩, by decide!, by decide!,
    by decide!, by decide!, by decide!, by decide!⟩

/-- C7, amended: for an example whose history namespace is initially empty (no
features, zero sum of squares, not in the namespace list), every history and
every setting of `sequence_history`, `sequence_features` and the two bigram
toggles, `add_history_to_example` appends the history namespace to the
namespace list, leaves the listed namespaces as they are and counts the
features of the history namespace, and `remove_history_from_example` then
restores `num_features`, the sums of squares of the namespaces, the namespace
list and the features of every namespace, the empty history namespace included.
`total_sum_feat_sq`, a `float`, comes back as `fl(fl(T + m) - m)`, where `T` is
its old value and `m` is the sum of squares of the injected features, the
number of these features converted to `float`; it comes back as `T` whenever
`T` and the sum `T + m` are binary32 values, that is when line 524 does not
round. -/
theorem history_features_round_trip (cfg : config) (ec : vw_example) (h : List Nat)
    (hfree : ec.atomics cfg.history_namespace = [])
    (hsq : ec.sum_feat_sq cfg.history_namespace = 0)
    (hidx : cfg.history_namespace ∉ ec.indices)
    (hnf : ec.num_features < 2 ^ 64) :
    (add_history_to_example cfg ec h).indices = ec.indices ++ [cfg.history_namespace] ∧
    (∀ ns, ns ∈ ec.indices → (add_history_to_example cfg ec h).atomics ns = ec.atomics ns) ∧
    (add_history_to_example cfg ec h).num_features =
      (ec.num_features +
        ((add_history_to_example cfg ec h).atomics cfg.history_namespace).length) % 2 ^ 64 ∧
    (remove_history_from_example cfg (add_history_to_example cfg ec h)).num_features
      = ec.num_features ∧
    (remove_history_from_example cfg (add_history_to_example cfg ec h)).sum_feat_sq
      = ec.sum_feat_sq ∧
    (remove_history_from_example cfg (add_history_to_example cfg ec h)).indices = ec.indices ∧
    (remove_history_from_example cfg (add_history_to_example cfg ec h)).atomics = ec.atomics ∧
    (remove_history_from_example cfg (add_history_to_example cfg ec h)).atomics
      cfg.history_namespace = [] ∧
    (add_history_to_example cfg ec h).sum_feat_sq cfg.history_namespace
      = f32_add 0 (f32_round
          (((add_history_to_example cfg ec h).atomics cfg.history_namespace).length : ℚ)) ∧
    (((add_history_to_example cfg ec h).atomics cfg.history_namespace).length < 2 ^ 24 →
      (add_history_to_example cfg ec h).sum_feat_sq cfg.history_namespace
        = (((add_history_to_example cfg ec h).atomics cfg.history_namespace).length : ℚ)) ∧
    (remove_history_from_example cfg (add_history_to_example cfg ec h)).total_sum_feat_sq
      = f32_sub (f32_add ec.total_sum_feat_sq
          ((add_history_to_example cfg ec h).sum_feat_sq cfg.history_namespace))
        ((add_history_to_example cfg ec h).sum_feat_sq cfg.history_namespace) ∧
    (is_f32 ec.total_sum_feat_sq = true →
      is_f32 (ec.total_sum_feat_sq
        + (add_history_to_example cfg ec h).sum_feat_sq cfg.history_namespace) = true →
      (remove_history_from_example cfg (add_history_to_example cfg ec h)).total_sum_feat_sq
        = ec.total_sum_feat_sq) := by
  have hrem := remove_after_add_history cfg ec h
  obtain ⟨b, ab, hb⟩ := add_history_to_example_shape cfg ec h
  have hm : (add_history_to_example cfg ec h).sum_feat_sq cfg.history_namespace
      = f32_add 0 (f32_round
          (((add_history_to_example cfg ec h).atomics cfg.history_namespace).length : ℚ)) := by
    rw [hb]
    simp [push_block, hsq, hfree]
  have htot : (remove_history_from_example cfg
      (add_history_to_example cfg ec h)).total_sum_feat_sq
      = f32_sub (f32_add ec.total_sum_feat_sq
          ((add_history_to_example cfg ec h).sum_feat_sq cfg.history_namespace))
        ((add_history_to_example cfg ec h).sum_feat_sq cfg.history_namespace) := by
    rw [hrem]
  refine ⟨?_, ?_, ?_, ?_, ?_, ?_, ?_, ?_, hm, ?_, htot, ?_⟩
  · rw [hb]
  · intro ns hns
    have hne : ns ≠ cfg.history_namespace := fun h0 => hidx (h0 ▸ hns)
    rw [hb]
    simp [push_block, Function.update_noteq hne]
  · rw [hb]
    simp [push_block, u64]
  · rw [hrem]
    exact Nat.mod_eq_of_lt hnf
  · rw [hrem]
    simp only
    rw [← hsq]
    exact Function.update_eq_self _ _
  · rw [hrem]
  · rw [hrem]
    simp only
    rw [← hfree]
    exact Function.update_eq_self _ _
  · rw [hrem]
    simp
  · intro hlt
    rw [hm, f32_round_natCast _ hlt]
    unfold f32_add
    rw [zero_add, f32_round_natCast _ hlt]
  · intro hT hTm
    rw [htot]
    unfold is_f32 at hT hTm
    have hT1 := (of_decide_eq_true hT).1
    have hTm1 := (of_decide_eq_true hTm).1
    unfold f32_sub f32_add
    rw [hTm1, add_sub_cancel_right, hT1]

/-- C7, amended, on a sample example, with two history slots, both bigram
toggles, one cross feature and audit records: five features are injected and
removed, and `total_sum_feat_sq = 1` goes through `1 + 5 = 6` and `6 - 5 = 1`
without rounding. -/
theorem history_features_round_trip_witness :
    ((sample_example 1 2).atomics sample_config_rich.history_namespace = [] ∧
      (sample_example 1 2).sum_feat_sq sample_config_rich.history_namespace = 0 ∧
      sample_config_rich.history_namespace ∉ (sample_example 1 2).indices ∧
      (sample_example 1 2).num_features < 2 ^ 64) ∧
    (sample_injected.num_features = 6 ∧ sample_injected.total_sum_feat_sq = 6 ∧
      sample_restored.total_sum_feat_sq = 1) ∧
    (sample_injected.indices
        = (sample_example 1 2).indices ++ [sample_config_rich.history_namespace] ∧
      (∀ ns, ns ∈ (sample_example 1 2).indices →
        sample_injected.atomics ns = (sample_example 1 2).atomics ns) ∧
      sample_injected.num_features =
        ((sample_example 1 2).num_features +
          (sample_injected.atomics sample_config_rich.history_namespace).length) % 2 ^ 64 ∧
      sample_restored.num_features = (sample_example 1 2).num_features ∧
      sample_restored.sum_feat_sq = (sample_example 1 2).sum_feat_sq ∧
      sample_restored.indices = (sample_example 1 2).indices ∧
      sample_restored.atomics = (sample_example 1 2).atomics ∧
      sample_restored.atomics sample_config_rich.history_namespace = [] ∧
      sample_injected.sum_feat_sq sample_config_rich.history_namespace
        = f32_add 0 (f32_round
            ((sample_injected.atomics sample_config_rich.history_namespace).length : ℚ)) ∧
      ((sample_injected.atomics sample_config_rich.history_namespace).length < 2 ^ 24 →
        sample_injected.sum_feat_sq sample_config_rich.history_namespace
          = ((sample_injected.atomics sample_config_rich.history_namespace).length : ℚ)) ∧
      sample_restored.total_sum_feat_sq
        = f32_sub (f32_add (sample_example 1 2).total_sum_feat_sq
            (sample_injected.sum_feat_sq sample_config_rich.history_namespace))
          (sample_injected.sum_feat_sq sample_config_rich.history_namespace) ∧
      (is_f32 (sample_example 1 2).total_sum_feat_sq = true →
        is_f32 ((sample_example 1 2).total_sum_feat_sq
          + sample_injected.sum_feat_sq sample_config_rich.history_namespace) = true →
        sample_restored.total_sum_feat_sq = (sample_example 1 2).total_sum_feat_sq)) :=
  ⟨⟨by decide, by decide, by decide, by decide⟩, ⟨by decide!, by decide!, by decide!⟩,
    history_features_round_trip sample_config_rich (sample_example 1 2) [3, 2]
      (by decide) (by decide) (by decide) (by decide)⟩

/-! ## C8: the encode, learn, decode cycle -/

/-- C8 as stated fails, in two ways.  An example that already has a feature
in the history namespace (and lists that namespace) loses it in one `predict`
cycle with a learner that changes nothing, because
`remove_history_from_example` erases the whole namespace.  And an example
whose history namespace is free but whose `total_sum_feat_sq` is `2^-26` comes
back with `total_sum_feat_sq = 0`: the `float` sum `2^-26 + 1` of line 524
rounds to 1. -/
theorem predict_cycle_counterexample :
    learner_keeps_features sample_env ∧
    sample_example_history_taken.atomics 127 = [⟨1, 7⟩] ∧
    (predict sample_config sample_env
      (allocate_required_memory sample_config [] () ⟨fun _ => 0, 0⟩ ⟨0, 0, 0, 0, 0, 0, 1⟩)
      sample_example_history_taken [0] 0 1).2.1.atomics 127 = [] ∧
    (sample_example_small_value.atomics 127 = [] ∧
      sample_config.history_namespace ∉ sample_example_small_value.indices ∧
      sample_example_small_value.total_sum_feat_sq = 1 / 67108864 ∧
      is_f32 sample_example_small_value.total_sum_feat_sq = true) ∧
    (predict sample_config sample_env
      (allocate_required_memory sample_config [] () ⟨fun _ => 0, 0⟩ ⟨0, 0, 0, 0, 0, 0, 1⟩)
      sample_example_small_value [0] 0 1).2.1.total_sum_feat_sq = 0 := by
  refine ⟨sample_env_keeps_features, by decide, ?_,
    ⟨by decide!, by decide!, by decide!, by decide!⟩, by decide!⟩
  simp [predict, cs_learn_call, sample_env, remove_policy_offset, add_policy_offset,
      update_indicies, remove_history_from_example, add_history_to_example,
      sample_example_history_taken, sample_config, for_loop, add_history_unigram_step,
      push_history_feature]

/-- C8, amended: for an example whose history namespace is free (no features
there, not in the namespace list), every history and every policy other
than the oracle, if the learner call does not change the feature data then
after `predict`, and after `generate_training_example`, the example has the
same features with the same weight indices in every namespace, the same
namespace list and the same `num_features` as before.  `total_sum_feat_sq`, a
`float`, comes back as `fl(fl(T + m) - m)`, where `T` is its old value and `m`
is the sum of squares of the injected history features; it is the same as
before whenever `T` and the sum `T + m` are binary32 values, that is when line
524 does not round. -/
theorem encode_learn_decode_restores {L : Type} (cfg : config) (env : collaborators L)
    (s : state L) (ec : vw_example) (h : List Nat) (policy : Int) (truth : Nat)
    (costs : List ℚ)
    (hl : learner_keeps_features env)
    (hpol : policy ≠ -1)
    (hfree : ec.atomics cfg.history_namespace = [])
    (hidx : cfg.history_namespace ∉ ec.indices)
    (hw : ∀ ns, ∀ f ∈ ec.atomics ns, f.weight_index < 2 ^ 32)
    (hnf : ec.num_features < 2 ^ 64) :
    ((predict cfg env s ec h policy truth).2.1.atomics = ec.atomics ∧
      (predict cfg env s ec h policy truth).2.1.indices = ec.indices ∧
      (predict cfg env s ec h policy truth).2.1.num_features = ec.num_features ∧
      (predict cfg env s ec h policy truth).2.1.total_sum_feat_sq
        = f32_sub (f32_add ec.total_sum_feat_sq
            ((add_history_to_example cfg ec h).sum_feat_sq cfg.history_namespace))
          ((add_history_to_example cfg ec h).sum_feat_sq cfg.history_namespace)) ∧
    ((generate_training_example cfg env s ec h costs).1.atomics = ec.atomics ∧
      (generate_training_example cfg env s ec h costs).1.indices = ec.indices ∧
      (generate_training_example cfg env s ec h costs).1.num_features = ec.num_features ∧
      (generate_training_example cfg env s ec h costs).1.total_sum_feat_sq
        = f32_sub (f32_add ec.total_sum_feat_sq
            ((add_history_to_example cfg ec h).sum_feat_sq cfg.history_namespace))
          ((add_history_to_example cfg ec h).sum_feat_sq cfg.history_namespace)) ∧
    (is_f32 ec.total_sum_feat_sq = true →
      is_f32 (ec.total_sum_feat_sq
        + (add_history_to_example cfg ec h).sum_feat_sq cfg.history_namespace) = true →
      (predict cfg env s ec h policy truth).2.1.total_sum_feat_sq = ec.total_sum_feat_sq ∧
      (generate_training_example cfg env s ec h costs).1.total_sum_feat_sq
        = ec.total_sum_feat_sq) := by
  have hp : (predict cfg env s ec h policy truth).2.1.atomics = ec.atomics ∧
      (predict cfg env s ec h policy truth).2.1.indices = ec.indices ∧
      (predict cfg env s ec h policy truth).2.1.num_features = ec.num_features ∧
      (predict cfg env s ec h policy truth).2.1.total_sum_feat_sq
        = f32_sub (f32_add ec.total_sum_feat_sq
            ((add_history_to_example cfg ec h).sum_feat_sq cfg.history_namespace))
          ((add_history_to_example cfg ec h).sum_feat_sq cfg.history_namespace) := by
    simp only [predict, hpol, if_false, remove_policy_offset, add_policy_offset]
    obtain ⟨h1, h2, h3, h4, h5⟩ := cs_learn_call_features env s
      { (update_indicies (add_history_to_example cfg ec h)
          (policy_offset_amount cfg (size_t_of_int policy))) with
        ld := label_ptr.empty_costs } hl
    exact decode_after_encode cfg ec _ h _ hfree hidx (fun ns _ => hw ns) hnf h1 h2 h3 h4 h5
  have hg : (generate_training_example cfg env s ec h costs).1.atomics = ec.atomics ∧
      (generate_training_example cfg env s ec h costs).1.indices = ec.indices ∧
      (generate_training_example cfg env s ec h costs).1.num_features = ec.num_features ∧
      (generate_training_example cfg env s ec h costs).1.total_sum_feat_sq
        = f32_sub (f32_add ec.total_sum_feat_sq
            ((add_history_to_example cfg ec h).sum_feat_sq cfg.history_namespace))
          ((add_history_to_example cfg ec h).sum_feat_sq cfg.history_namespace) := by
    simp only [generate_training_example, remove_policy_offset, add_policy_offset]
    obtain ⟨h1, h2, h3, h4, h5⟩ := cs_learn_call_features env s
      { (update_indicies (add_history_to_example cfg ec h)
          (policy_offset_amount cfg s.current_policy)) with
        ld := label_ptr.costs costs } hl
    exact decode_after_encode cfg ec _ h _ hfree hidx (fun ns _ => hw ns) hnf h1 h2 h3 h4 h5
  refine ⟨hp, hg, ?_⟩
  intro hT hTm
  unfold is_f32 at hT hTm
  have hT1 := (of_decide_eq_true hT).1
  have hTm1 := (of_decide_eq_true hTm).1
  have hexact : f32_sub (f32_add ec.total_sum_feat_sq
      ((add_history_to_example cfg ec h).sum_feat_sq cfg.history_namespace))
      ((add_history_to_example cfg ec h).sum_feat_sq cfg.history_namespace)
      = ec.total_sum_feat_sq := by
    unfold f32_sub f32_add
    rw [hTm1, add_sub_cancel_right, hT1]
  exact ⟨hp.2.2.2.trans hexact, hg.2.2.2.trans hexact⟩

/-- C8, amended, on a sample example with the stub learner and policy 1: one
history feature is injected and `total_sum_feat_sq = 1` goes through
`1 + 1 = 2` and `2 - 1 = 1` without rounding. -/
theorem encode_learn_decode_restores_witness :
    (learner_keeps_features sample_env ∧ (1 : Int) ≠ -1 ∧
      (sample_example 1 2).atomics sample_config.history_namespace = [] ∧
      sample_config.history_namespace ∉ (sample_example 1 2).indices ∧
      (∀ ns, ∀ f ∈ (sample_example 1 2).atomics ns, f.weight_index < 2 ^ 32) ∧
      (sample_example 1 2).num_features < 2 ^ 64) ∧
    ((sample_predict_cycle).2.1.total_sum_feat_sq = 1 ∧
      (sample_training_cycle).1.total_sum_feat_sq = 1) ∧
    (((sample_predict_cycle).2.1.atomics = (sample_example 1 2).atomics ∧
      (sample_predict_cycle).2.1.indices = (sample_example 1 2).indices ∧
      (sample_predict_cycle).2.1.num_features = (sample_example 1 2).num_features ∧
      (sample_predict_cycle).2.1.total_sum_feat_sq
        = f32_sub (f32_add (sample_example 1 2).total_sum_feat_sq
            ((add_history_to_example sample_config (sample_example 1 2) [3]).sum_feat_sq
              sample_config.history_namespace))
          ((add_history_to_example sample_config (sample_example 1 2) [3]).sum_feat_sq
            sample_config.history_namespace)) ∧
    ((sample_training_cycle).1.atomics = (sample_example 1 2).atomics ∧
      (sample_training_cycle).1.indices = (sample_example 1 2).indices ∧
      (sample_training_cycle).1.num_features = (sample_example 1 2).num_features ∧
      (sample_training_cycle).1.total_sum_feat_sq
        = f32_sub (f32_add (sample_example 1 2).total_sum_feat_sq
            ((add_history_to_example sample_config (sample_example 1 2) [3]).sum_feat_sq
              sample_config.history_namespace))
          ((add_history_to_example sample_config (sample_example 1 2) [3]).sum_feat_sq
            sample_config.history_namespace)) ∧
    (is_f32 (sample_example 1 2).total_sum_feat_sq = true →
      is_f32 ((sample_example 1 2).total_sum_feat_sq
        + (add_history_to_example sample_config (sample_example 1 2) [3]).sum_feat_sq
          sample_config.history_namespace) = true →
      (sample_predict_cycle).2.1.total_sum_feat_sq = (sample_example 1 2).total_sum_feat_sq ∧
      (sample_training_cycle).1.total_sum_feat_sq
        = (sample_example 1 2).total_sum_feat_sq)) :=
  ⟨⟨sample_env_keeps_features, by decide, by decide, by decide,
      sample_example_weight_bound 1 2, by decide⟩, ⟨by decide!, by decide!⟩,
    encode_learn_decode_restores sample_config sample_env
      (allocate_required_memory sample_config [] () ⟨fun _ => 0, 0⟩ ⟨0, 0, 0, 0, 0, 0, 1⟩)
      (sample_example 1 2) [3] 1 2 [0, 1, 1]
      sample_env_keeps_features (by decide) (by decide) (by decide)
      (sample_example_weight_bound 1 2) (by decide)⟩
/-! ## C9: deterministic selection -/

/-- C9 as stated fails: with `beta = 1`, one frozen policy (`current_policy = 1`)
and `allow_current` set, `random_policy` returns 1, the id of the current
unfrozen policy, and not `current_policy - 1 = 0`. -/
theorem random_policy_deterministic_counterexample :
    (random_policy 1 1 0 1 ⟨fun _ => 0, 0⟩).1 = 1 ∧
    (random_policy 1 1 0 1 ⟨fun _ => 0, 0⟩).1 ≠ ((1 : Nat) : Int) - 1 := by
  constructor <;> simp [random_policy]

/-- C9, amended: with `beta >= 1` and `allow_current` set, for every value of
`allow_optimal` and every `current_policy`, `random_policy` returns
`current_policy`, the id of the current not yet frozen policy, and leaves the
random generator untouched, so no draw is made. -/
theorem random_policy_deterministic (beta : ℚ) (current_policy : Nat)
    (allow_optimal allow_current : Int) (g : drand48_state)
    (hbeta : beta ≥ 1) (hcur : allow_current ≠ 0) :
    random_policy beta current_policy allow_optimal allow_current g
      = ((current_policy : Int), g) := by
  simp [random_policy, hbeta, hcur]

/-- C9, amended, at `beta = 1`, three frozen policies, oracle allowed. -/
theorem random_policy_deterministic_witness :
    ((1 : ℚ) ≥ 1 ∧ (1 : Int) ≠ 0) ∧
    random_policy 1 3 1 1 ⟨fun _ => 1 / 2, 0⟩ = (((3 : Nat) : Int), ⟨fun _ => 1 / 2, 0⟩) :=
  ⟨⟨by norm_num, by decide⟩,
    random_policy_deterministic 1 3 1 1 ⟨fun _ => 1 / 2, 0⟩ (by norm_num) (by decide)⟩

/-! ## C10: the truncated geometric law -/

/-- C10: for `beta` in (0,1), `N = current_policy + allow_optimal + allow_current`
at least 2 and a draw `r` below 1 (so in particular every draw in [0,1)), the rank that `random_policy` computes
before mapping it to a policy id is `min(N-1, j*)`, where `j*` is the least `j`
with `r <= 1 - (1-beta)^(j+1)`; so a rank `j < N-1` is chosen exactly when `r`
exceeds the mass of the ranks before `j` and not the mass up to `j`, and the
last rank is chosen exactly when `r` exceeds the mass of all ranks before it. -/
theorem random_policy_rank_truncated_geometric (beta : ℚ) (current_policy : Nat)
    (allow_optimal allow_current : Int) (g : drand48_state)
    (hb0 : 0 < beta) (hb1 : beta < 1)
    (hN : 2 ≤ (current_policy : Int) + allow_optimal + allow_current)
    (hr1 : g.draws g.pos < 1) :
    (random_policy beta current_policy allow_optimal allow_current g).1 =
      random_policy_of_rank current_policy allow_optimal allow_current
        ((current_policy : Int) + allow_optimal + allow_current)
        (random_policy_rank beta ((current_policy : Int) + allow_optimal + allow_current)
          (g.draws g.pos)) ∧
    (∃ hex : ∃ j : Nat, g.draws g.pos ≤ 1 - (1 - beta) ^ (j + 1),
      random_policy_rank beta ((current_policy : Int) + allow_optimal + allow_current)
          (g.draws g.pos)
        = min ((current_policy : Int) + allow_optimal + allow_current - 1)
            ((Nat.find hex : Nat) : Int)) ∧
    (∀ j : Nat, (j : Int) < (current_policy : Int) + allow_optimal + allow_current - 1 →
      (random_policy_rank beta ((current_policy : Int) + allow_optimal + allow_current)
          (g.draws g.pos) = (j : Int)
        ↔ (g.draws g.pos ≤ 1 - (1 - beta) ^ (j + 1) ∧
            (j = 0 ∨ 1 - (1 - beta) ^ j < g.draws g.pos)))) ∧
    (random_policy_rank beta ((current_policy : Int) + allow_optimal + allow_current)
          (g.draws g.pos) = (current_policy : Int) + allow_optimal + allow_current - 1
        ↔ 1 - (1 - beta) ^ ((current_policy : Int) + allow_optimal + allow_current - 1).toNat
            < g.draws g.pos) := by
  have hN0 : ¬ ((current_policy : Int) + allow_optimal + allow_current = 0) := by omega
  have hN1 : ¬ ((current_policy : Int) + allow_optimal + allow_current = 1) := by omega
  have hq0 : (0 : ℚ) ≤ 1 - beta := by linarith
  have hq1 : (1 : ℚ) - beta ≤ 1 := by linarith
  have hmono : ∀ i j : Nat, i ≤ j → 1 - (1 - beta) ^ (i + 1) ≤ 1 - (1 - beta) ^ (j + 1) := by
    intro i j hij
    have := pow_le_pow_of_le_one hq0 hq1 (show i + 1 ≤ j + 1 by omega)
    linarith
  obtain ⟨m, hm, hmN, hlow, hup⟩ := random_policy_rank_spec beta (g.draws g.pos)
    ((current_policy : Int) + allow_optimal + allow_current) hN
  refine ⟨?_, ?_, ?_, ?_⟩
  · have hb : ¬ (beta ≥ 1) := by linarith
    simp only [random_policy, hb, if_false, hN0, hN1, drand48]
  · refine ⟨geometric_mass_covers beta _ hb0 hb1 hr1, ?_⟩
    rw [hm]
    rcases lt_or_eq_of_le hmN with hlt | heq
    · have hfind : Nat.find (geometric_mass_covers beta _ hb0 hb1 hr1) = m := by
        rw [Nat.find_eq_iff]
        exact ⟨hup hlt, fun i hi => not_le.mpr (hlow i hi)⟩
      rw [hfind, min_eq_right hmN]
    · have hfind : m ≤ Nat.find (geometric_mass_covers beta _ hb0 hb1 hr1) := by
        by_contra hcon
        have h1 := hlow _ (not_le.mp hcon)
        have h2 := Nat.find_spec (geometric_mass_covers beta _ hb0 hb1 hr1)
        linarith
      rw [← heq, min_eq_left (by exact_mod_cast hfind)]
  · intro j hj
    rw [hm]
    constructor
    · intro hmj
      have hmj2 : m = j := by exact_mod_cast hmj
      subst hmj2
      refine ⟨hup hj, ?_⟩
      rcases Nat.eq_zero_or_pos m with h0 | hpos
      · exact Or.inl h0
      · right
        have := hlow (m - 1) (by omega)
        have he : m - 1 + 1 = m := by omega
        rw [he] at this
        exact this
    · rintro ⟨h1, h2⟩
      have : m = j := by
        rcases Nat.lt_trichotomy m j with hlt | heq | hgt
        · exfalso
          rcases h2 with h0 | h3
          · omega
          · have h4 := hup (by omega)
            have h5 := hmono m (j - 1) (by omega)
            have he : j - 1 + 1 = j := by omega
            rw [he] at h5
            linarith
        · exact heq
        · exfalso
          have := hlow j hgt
          linarith
      rw [this]
  · rw [hm]
    have hexp : ((current_policy : Int) + allow_optimal + allow_current - 1).toNat
        = ((current_policy : Int) + allow_optimal + allow_current - 2).toNat + 1 := by omega
    rw [hexp]
    constructor
    · intro hmN2
      apply hlow
      omega
    · intro hgt
      by_contra hne
      have hlt : (m : Int) < (current_policy : Int) + allow_optimal + allow_current - 1 :=
        lt_of_le_of_ne hmN hne
      have h4 := hup hlt
      have h5 := hmono m ((current_policy : Int) + allow_optimal + allow_current - 2).toNat
        (by omega)
      linarith


/-- C10 at `beta = 1/2`, two frozen policies plus the oracle (`N = 3`) and the
draw `r = 4/5`: the mass up to rank 0 is `1/2` and up to rank 1 is `3/4`, so the
draw lands on the last rank, 2, which is the oracle. -/
theorem random_policy_rank_truncated_geometric_witness :
    (((0 : ℚ) < 1 / 2 ∧ (1 / 2 : ℚ) < 1 ∧ (2 : Int) ≤ ((2 : Nat) : Int) + 1 + 0
      ∧ (4 / 5 : ℚ) < 1) ∧
    random_policy_rank (1 / 2) 3 (4 / 5) = 2 ∧
    (random_policy (1 / 2) 2 1 0 ⟨fun _ => 4 / 5, 0⟩).1 = -1) ∧
    ((random_policy (1 / 2) 2 1 0 ⟨fun _ => 4 / 5, 0⟩).1 =
      random_policy_of_rank 2 1 0 (((2 : Nat) : Int) + 1 + 0)
        (random_policy_rank (1 / 2) (((2 : Nat) : Int) + 1 + 0) (4 / 5)) ∧
    (∃ hex : ∃ j : Nat, (4 / 5 : ℚ) ≤ 1 - (1 - 1 / 2) ^ (j + 1),
      random_policy_rank (1 / 2) (((2 : Nat) : Int) + 1 + 0) (4 / 5)
        = min (((2 : Nat) : Int) + 1 + 0 - 1) ((Nat.find hex : Nat) : Int)) ∧
    (∀ j : Nat, (j : Int) < ((2 : Nat) : Int) + 1 + 0 - 1 →
      (random_policy_rank (1 / 2) (((2 : Nat) : Int) + 1 + 0) (4 / 5) = (j : Int)
        ↔ ((4 / 5 : ℚ) ≤ 1 - (1 - 1 / 2) ^ (j + 1) ∧
            (j = 0 ∨ 1 - (1 - 1 / 2) ^ j < (4 / 5 : ℚ))))) ∧
    (random_policy_rank (1 / 2) (((2 : Nat) : Int) + 1 + 0) (4 / 5)
        = ((2 : Nat) : Int) + 1 + 0 - 1
        ↔ 1 - (1 - 1 / 2) ^ (((2 : Nat) : Int) + 1 + 0 - 1).toNat < (4 / 5 : ℚ))) :=
  ⟨⟨⟨by norm_num, by norm_num, by norm_num, by norm_num⟩,
      by norm_num [random_policy_rank, random_policy_loop],
      by norm_num [random_policy, random_policy_of_rank, random_policy_rank,
        random_policy_loop, drand48]⟩,
    random_policy_rank_truncated_geometric (1 / 2) 2 1 0 ⟨fun _ => 4 / 5, 0⟩
      (by norm_num) (by norm_num) (by norm_num) (by norm_num)⟩
/-! ## C11: from the rank to the policy -/

/-- C11: for `beta < 1`, every draw, flags that are 0 or 1 and at least one
valid option (`N = current_policy + allow_optimal + allow_current >= 1`), the
rank `j` that `random_policy` holds at line 140 lies in `0..N-1`; the result is
the oracle sentinel -1 exactly when `allow_optimal` is set and `j` is the final
rank `N-1`; every other result is `current_policy - j` when `allow_current` is
set and `current_policy - 1 - j` otherwise, so it lies in `0..current_policy`
and equals `current_policy` only when `allow_current` is set. -/
theorem random_policy_maps_rank (beta : ℚ) (current_policy : Nat)
    (allow_optimal allow_current : Int) (g : drand48_state) (hb : beta < 1)
    (hao : allow_optimal = 0 ∨ allow_optimal = 1)
    (hac : allow_current = 0 ∨ allow_current = 1)
    (hN : 1 ≤ (current_policy : Int) + allow_optimal + allow_current) :
    ∃ j : Nat,
      random_policy_pid beta ((current_policy : Int) + allow_optimal + allow_current)
        (g.draws g.pos) = (j : Int) ∧
      (j : Int) ≤ (current_policy : Int) + allow_optimal + allow_current - 1 ∧
      ((random_policy beta current_policy allow_optimal allow_current g).1 = -1 ↔
        (allow_optimal = 1 ∧
          (j : Int) = (current_policy : Int) + allow_optimal + allow_current - 1)) ∧
      ((random_policy beta current_policy allow_optimal allow_current g).1 ≠ -1 →
        (random_policy beta current_policy allow_optimal allow_current g).1 =
          (if allow_current = 1 then (current_policy : Int) - j
            else (current_policy : Int) - 1 - j) ∧
        0 ≤ (random_policy beta current_policy allow_optimal allow_current g).1 ∧
        (random_policy beta current_policy allow_optimal allow_current g).1
          ≤ (current_policy : Int) ∧
        ((random_policy beta current_policy allow_optimal allow_current g).1
          = (current_policy : Int) → allow_current = 1)) := by
  obtain ⟨j, hj, hjN⟩ := random_policy_pid_range beta (g.draws g.pos)
    ((current_policy : Int) + allow_optimal + allow_current) hN
  refine ⟨j, hj, hjN, ?_⟩
  rw [random_policy_eq_of_pid beta current_policy allow_optimal allow_current g hb hN, hj]
  unfold random_policy_of_rank
  rcases hao with hao | hao <;> rcases hac with hac | hac <;> subst hao <;> subst hac
  · simp only [ne_eq, not_true_eq_false, false_and, if_false, if_true]
    refine ⟨?_, ?_⟩
    · constructor
      · intro h
        omega
      · intro h
        omega
    · intro _
      refine ⟨?_, ?_, ?_, ?_⟩
      · omega
      · omega
      · omega
      · intro h
        omega
  · simp only [ne_eq, not_true_eq_false, false_and, if_false, one_ne_zero, if_true]
    refine ⟨?_, ?_⟩
    · constructor
      · intro h
        omega
      · intro h
        omega
    · intro _
      refine ⟨trivial, ?_, ?_, ?_⟩
      · omega
      · omega
      · intro _
        trivial
  · by_cases hlast : (j : Int) = (current_policy : Int) + 1 + 0 - 1
    · simp [hlast]
    · have hne : ¬ ((1 : Int) ≠ 0 ∧ (j : Int) = (current_policy : Int) + 1 + 0 - 1) :=
        fun h => hlast h.2
      rw [if_neg hne]
      simp only [if_true]
      refine ⟨?_, ?_⟩
      · constructor
        · intro h
          omega
        · intro h
          exact absurd h.2 hlast
      · intro _
        refine ⟨?_, ?_, ?_, ?_⟩
        · omega
        · omega
        · omega
        · intro h
          omega
  · by_cases hlast : (j : Int) = (current_policy : Int) + 1 + 1 - 1
    · simp [hlast]
    · have hne : ¬ ((1 : Int) ≠ 0 ∧ (j : Int) = (current_policy : Int) + 1 + 1 - 1) :=
        fun h => hlast h.2
      rw [if_neg hne]
      simp only [one_ne_zero, if_false, if_true]
      refine ⟨?_, ?_⟩
      · constructor
        · intro h
          omega
        · intro h
          exact absurd h.2 hlast
      · intro _
        refine ⟨trivial, ?_, ?_, ?_⟩
        · omega
        · omega
        · intro _
          trivial

/-- C11 at `beta = 1/2`, two frozen policies, the oracle and the current policy
allowed (`N = 4`) and the draw `r = 7/10`: the rank is 1 and the result is
policy `2 - 1 = 1`. -/
theorem random_policy_maps_rank_witness :
    ((1 / 2 : ℚ) < 1 ∧ (random_policy (1 / 2) 2 1 1 ⟨fun _ => 7 / 10, 0⟩).1 = 1) ∧
    ∃ j : Nat,
      random_policy_pid (1 / 2) (((2 : Nat) : Int) + 1 + 1) (7 / 10) = (j : Int) ∧
      (j : Int) ≤ ((2 : Nat) : Int) + 1 + 1 - 1 ∧
      ((random_policy (1 / 2) 2 1 1 ⟨fun _ => 7 / 10, 0⟩).1 = -1 ↔
        ((1 : Int) = 1 ∧ (j : Int) = ((2 : Nat) : Int) + 1 + 1 - 1)) ∧
      ((random_policy (1 / 2) 2 1 1 ⟨fun _ => 7 / 10, 0⟩).1 ≠ -1 →
        (random_policy (1 / 2) 2 1 1 ⟨fun _ => 7 / 10, 0⟩).1 =
          (if (1 : Int) = 1 then ((2 : Nat) : Int) - j else ((2 : Nat) : Int) - 1 - j) ∧
        0 ≤ (random_policy (1 / 2) 2 1 1 ⟨fun _ => 7 / 10, 0⟩).1 ∧
        (random_policy (1 / 2) 2 1 1 ⟨fun _ => 7 / 10, 0⟩).1 ≤ ((2 : Nat) : Int) ∧
        ((random_policy (1 / 2) 2 1 1 ⟨fun _ => 7 / 10, 0⟩).1 = ((2 : Nat) : Int) →
          (1 : Int) = 1)) :=
  ⟨⟨by norm_num, by
      norm_num [random_policy, random_policy_of_rank, random_policy_rank,
        random_policy_loop, drand48]⟩,
    random_policy_maps_rank (1 / 2) 2 1 1 ⟨fun _ => 7 / 10, 0⟩ (by norm_num)
      (Or.inr rfl) (Or.inr rfl) (by norm_num)⟩

/-! ## C12: no valid option, one valid option -/

/-- C12: with no valid option (`current_policy = 0`, both flags 0)
`random_policy` returns a value, namely `current_policy`, for every `beta`; and
with `beta < 1`, flags that are 0 or 1 and exactly one valid option it returns,
without drawing, that option: the oracle -1 if `allow_optimal` is set,
`current_policy` (which is 0) if `allow_current` is set, and policy 0 if there
is one frozen policy. -/
theorem random_policy_edge_cases (beta : ℚ) (current_policy : Nat)
    (allow_optimal allow_current : Int) (g : drand48_state) :
    (current_policy = 0 ∧ allow_optimal = 0 ∧ allow_current = 0 →
      random_policy beta current_policy allow_optimal allow_current g
        = ((current_policy : Int), g)) ∧
    (beta < 1 → (allow_optimal = 0 ∨ allow_optimal = 1) →
      (allow_current = 0 ∨ allow_current = 1) →
      (current_policy : Int) + allow_optimal + allow_current = 1 →
      random_policy beta current_policy allow_optimal allow_current g
        = ((if allow_optimal = 1 then -1
            else if allow_current = 1 then (current_policy : Int) else 0), g) ∧
      (allow_current = 1 → current_policy = 0) ∧
      (allow_optimal = 0 → allow_current = 0 → current_policy = 1)) := by
  constructor
  · rintro ⟨h1, h2, h3⟩
    subst h1 h2 h3
    by_cases hb : beta ≥ 1 <;> simp [random_policy, hb]
  · intro hb hao hac hN
    have hb1 : ¬ (beta ≥ 1) := by linarith
    have hN0 : ¬ ((current_policy : Int) + allow_optimal + allow_current = 0) := by omega
    refine ⟨?_, by omega, by omega⟩
    simp only [random_policy, hb1, if_false, hN0, hN, if_true, random_policy_of_rank]
    rcases hao with hao | hao <;> rcases hac with hac | hac <;> subst hao <;> subst hac
    · have hcp : (current_policy : Int) = 1 := by omega
      simp [hcp]
    · have hcp : (current_policy : Int) = 0 := by omega
      simp [hcp]
    · simp
    · omega

/-- C12 on the four edge cases at `beta = 1/2` (and `beta = 1` for the case
without a valid option), with a generator whose next draw is `9/10`. -/
theorem random_policy_edge_cases_witness :
    (random_policy 1 0 0 0 ⟨fun _ => 9 / 10, 0⟩ = (0, ⟨fun _ => 9 / 10, 0⟩) ∧
      random_policy (1 / 2) 0 0 0 ⟨fun _ => 9 / 10, 0⟩ = (0, ⟨fun _ => 9 / 10, 0⟩) ∧
      random_policy (1 / 2) 0 1 0 ⟨fun _ => 9 / 10, 0⟩ = (-1, ⟨fun _ => 9 / 10, 0⟩) ∧
      random_policy (1 / 2) 0 0 1 ⟨fun _ => 9 / 10, 0⟩ = (0, ⟨fun _ => 9 / 10, 0⟩) ∧
      random_policy (1 / 2) 1 0 0 ⟨fun _ => 9 / 10, 0⟩ = (0, ⟨fun _ => 9 / 10, 0⟩)) :=
  ⟨(random_policy_edge_cases 1 0 0 0 ⟨fun _ => 9 / 10, 0⟩).1 ⟨rfl, rfl, rfl⟩,
    (random_policy_edge_cases (1 / 2) 0 0 0 ⟨fun _ => 9 / 10, 0⟩).1 ⟨rfl, rfl, rfl⟩,
    ((random_policy_edge_cases (1 / 2) 0 1 0 ⟨fun _ => 9 / 10, 0⟩).2 (by norm_num)
      (Or.inr rfl) (Or.inl rfl) (by norm_num)).1,
    ((random_policy_edge_cases (1 / 2) 0 0 1 ⟨fun _ => 9 / 10, 0⟩).2 (by norm_num)
      (Or.inl rfl) (Or.inr rfl) (by norm_num)).1,
    ((random_policy_edge_cases (1 / 2) 1 0 0 ⟨fun _ => 9 / 10, 0⟩).2 (by norm_num)
      (Or.inl rfl) (Or.inl rfl) (by norm_num)).1⟩
/-! ## C13: the number of policies follows the passes -/

theorem pass_changes_append (l1 l2 : List Nat) : ∀ (last : Nat),
    pass_changes last (l1 ++ l2)
      = pass_changes last l1 + pass_changes (l1.getLastD last) l2 := by
  induction l1 with
  | nil =>
    intro last
    simp [pass_changes]
  | cons p ps ih =>
    intro last
    show (if p ≠ last then 1 else 0) + pass_changes p (ps ++ l2)
      = ((if p ≠ last then 1 else 0) + pass_changes p ps)
        + pass_changes ((p :: ps).getLastD last) l2
    rw [ih p, List.getLastD_cons]
    omega

theorem pass_changes_le_length (l : List Nat) : ∀ (last : Nat),
    pass_changes last l ≤ l.length := by
  induction l with
  | nil =>
    intro last
    simp [pass_changes]
  | cons p ps ih =>
    intro last
    have := ih p
    simp only [pass_changes, List.length_cons]
    split_ifs <;> omega

/-- One more pass on a clock that has counted `m` passes: the part of a policy
that is done and the number of policies, clamped to the budget `B`. -/
theorem policy_clock_step (m ppp B : Nat) (hppp : 1 ≤ ppp) :
    (if m % ppp + 1 ≥ ppp then 0 else m % ppp + 1) = (m + 1) % ppp ∧
    (if m % ppp + 1 ≥ ppp then
        (if min (m / ppp) B + 1 > B then B else min (m / ppp) B + 1)
      else min (m / ppp) B) = min ((m + 1) / ppp) B := by
  have hr : m % ppp < ppp := Nat.mod_lt _ (by omega)
  have hm : m % ppp + ppp * (m / ppp) = m := Nat.mod_add_div m ppp
  by_cases h : m % ppp + 1 ≥ ppp
  · have h1 : (m + 1) / ppp = m / ppp + 1 ∧ (m + 1) % ppp = 0 := by
      rw [Nat.div_mod_unique (by omega)]
      refine ⟨?_, by omega⟩
      have : ppp * (m / ppp + 1) = ppp * (m / ppp) + ppp := by ring
      omega
    rw [if_pos h, if_pos h, h1.1, h1.2]
    refine ⟨rfl, ?_⟩
    split_ifs <;> omega
  · have h1 : (m + 1) / ppp = m / ppp ∧ (m + 1) % ppp = m % ppp + 1 := by
      rw [Nat.div_mod_unique (by omega)]
      exact ⟨by omega, by omega⟩
    rw [if_neg h, if_neg h, h1.1, h1.2]
    exact ⟨rfl, rfl⟩

/-- One call of `safe_get_example` on a clock that has counted `m` passes: the
call consumes at most one example of the parser, and the clock counts the pass
change of that example, if any. -/
theorem safe_get_call_clock {L : Type} (cfg : config) (c : Bool × Int) (s : state L) (m : Nat)
    (hppp : 1 ≤ cfg.sequence_passes_per_policy)
    (h1 : s.passes_since_new_policy = m % cfg.sequence_passes_per_policy)
    (h2 : s.current_policy
      = min (m / cfg.sequence_passes_per_policy) cfg.total_number_of_policies) :
    ∃ d : List vw_example, d.length ≤ 1 ∧
      s.parser = d ++ (safe_get_call cfg c s).parser ∧
      (safe_get_call cfg c s).read_example_last_pass
        = (d.map (fun e => e.pass)).getLastD s.read_example_last_pass ∧
      (safe_get_call cfg c s).passes_since_new_policy
        = (m + pass_changes s.read_example_last_pass (d.map (fun e => e.pass)))
            % cfg.sequence_passes_per_policy ∧
      (safe_get_call cfg c s).current_policy
        = min ((m + pass_changes s.read_example_last_pass (d.map (fun e => e.pass)))
            / cfg.sequence_passes_per_policy) cfg.total_number_of_policies := by
  unfold safe_get_call
  lift_lets
  extract_lets s0
  have e1 : s0.parser = s.parser := by
    simp only [s0]
    split_ifs <;> rfl
  have e2 : s0.read_example_last_pass = s.read_example_last_pass := by
    simp only [s0]
    split_ifs <;> rfl
  have e3 : s0.passes_since_new_policy = s.passes_since_new_policy := by
    simp only [s0]
    split_ifs <;> rfl
  have e4 : s0.current_policy = s.current_policy := by
    simp only [s0]
    split_ifs <;> rfl
  rcases safe_get_example_cases cfg c.2 s0 with
    ⟨_, _, a1, a2, a3, a4, _, _, _⟩ | ⟨e, rest, hp, _, _, b6, b1, b2, b3, _, _, _⟩
  · refine ⟨[], by simp, ?_, ?_, ?_, ?_⟩
    · rw [a1, e1]
      rfl
    · rw [a2, e2]
      rfl
    · rw [a3, e3, h1]
      simp [pass_changes]
    · rw [a4, e4, h2]
      simp [pass_changes]
  · rw [e2, e3] at b2
    rw [e2, e3, e4] at b3
    obtain ⟨c1, c2⟩ := policy_clock_step m cfg.sequence_passes_per_policy
      cfg.total_number_of_policies hppp
    refine ⟨[e], by simp, ?_, ?_, ?_, ?_⟩
    · rw [b6, ← e1, hp]
      rfl
    · rw [b1]
      rfl
    · rw [b2]
      simp only [List.map_cons, List.map_nil, pass_changes, Nat.add_zero]
      by_cases hne : e.pass ≠ s.read_example_last_pass
      · rw [if_pos hne, if_pos hne, h1, c1]
      · rw [if_neg hne, if_neg hne, h1]
        rfl
    · rw [b3]
      simp only [List.map_cons, List.map_nil, pass_changes, Nat.add_zero]
      by_cases hne : e.pass ≠ s.read_example_last_pass
      · rw [if_pos hne, if_pos hne, h1, h2, c2]
      · rw [if_neg hne, if_neg hne, h2]
        rfl

/-- A run of calls of `safe_get_example` on a clock that has counted `m`
passes. -/
theorem safe_get_run_clock {L : Type} (cfg : config)
    (hppp : 1 ≤ cfg.sequence_passes_per_policy) (calls : List (Bool × Int)) :
    ∀ (s : state L) (m : Nat),
    s.passes_since_new_policy = m % cfg.sequence_passes_per_policy →
    s.current_policy = min (m / cfg.sequence_passes_per_policy) cfg.total_number_of_policies →
    ∃ d : List vw_example,
      s.parser = d ++ (safe_get_run cfg calls s).parser ∧
      (safe_get_run cfg calls s).passes_since_new_policy
        = (m + pass_changes s.read_example_last_pass (d.map (fun e => e.pass)))
            % cfg.sequence_passes_per_policy ∧
      (safe_get_run cfg calls s).current_policy
        = min ((m + pass_changes s.read_example_last_pass (d.map (fun e => e.pass)))
            / cfg.sequence_passes_per_policy) cfg.total_number_of_policies := by
  induction calls with
  | nil =>
    intro s m h1 h2
    refine ⟨[], by simp [safe_get_run], ?_, ?_⟩
    · simpa [safe_get_run, pass_changes] using h1
    · simpa [safe_get_run, pass_changes] using h2
  | cons c cs ih =>
    intro s m h1 h2
    obtain ⟨d1, _, a1, a2, a3, a4⟩ := safe_get_call_clock cfg c s m hppp h1 h2
    obtain ⟨d2, b1, b2, b3⟩ := ih (safe_get_call cfg c s) _ a3 a4
    refine ⟨d1 ++ d2, ?_, ?_, ?_⟩
    · rw [List.append_assoc]
      show s.parser = d1 ++ (d2 ++ (safe_get_run cfg cs (safe_get_call cfg c s)).parser)
      rw [← b1]
      exact a1
    · show (safe_get_run cfg cs (safe_get_call cfg c s)).passes_since_new_policy = _
      rw [b2, a2, List.map_append, pass_changes_append, Nat.add_assoc]
    · show (safe_get_run cfg cs (safe_get_call cfg c s)).current_policy = _
      rw [b3, a2, List.map_append, pass_changes_append, Nat.add_assoc]

theorem safe_get_run_append {L : Type} (cfg : config) (l1 l2 : List (Bool × Int)) :
    ∀ (s : state L),
    safe_get_run cfg (l1 ++ l2) s = safe_get_run cfg l2 (safe_get_run cfg l1 s) := by
  induction l1 with
  | nil =>
    intro s
    rfl
  | cons c cs ih =>
    intro s
    exact ih (safe_get_call cfg c s)

/-- C13: start with `current_policy = 0` and `passes_since_new_policy = 0`, let
`sequence_passes_per_policy >= 1`, and make any run of calls of
`safe_get_example`.  The run has consumed a prefix `delivered` of the parser,
and `current_policy` is `min(floor(m / sequence_passes_per_policy),
total_number_of_policies)`, where `m` is the number of times the pass counter
changed along `delivered` (the first example is compared with the pass seen
last before the run).  After one more call `current_policy` has not decreased,
has grown by at most one, and does not exceed `total_number_of_policies`. -/
theorem current_policy_counts_passes {L : Type} (cfg : config) (calls : List (Bool × Int))
    (s : state L) (hppp : 1 ≤ cfg.sequence_passes_per_policy)
    (hcp : s.current_policy = 0) (hps : s.passes_since_new_policy = 0) :
    (∃ delivered : List vw_example,
      s.parser = delivered ++ (safe_get_run cfg calls s).parser ∧
      (safe_get_run cfg calls s).current_policy
        = min (pass_changes s.read_example_last_pass (delivered.map (fun e => e.pass))
            / cfg.sequence_passes_per_policy) cfg.total_number_of_policies) ∧
    (∀ c : Bool × Int,
      (safe_get_run cfg calls s).current_policy
        ≤ (safe_get_run cfg (calls ++ [c]) s).current_policy ∧
      (safe_get_run cfg (calls ++ [c]) s).current_policy
        ≤ (safe_get_run cfg calls s).current_policy + 1 ∧
      (safe_get_run cfg (calls ++ [c]) s).current_policy ≤ cfg.total_number_of_policies) := by
  have h1 : s.passes_since_new_policy = 0 % cfg.sequence_passes_per_policy := by
    rw [hps, Nat.zero_mod]
  have h2 : s.current_policy
      = min (0 / cfg.sequence_passes_per_policy) cfg.total_number_of_policies := by
    rw [hcp, Nat.zero_div, Nat.zero_min]
  obtain ⟨d, a1, a2, a3⟩ := safe_get_run_clock cfg hppp calls s 0 h1 h2
  rw [Nat.zero_add] at a2 a3
  refine ⟨⟨d, a1, a3⟩, ?_⟩
  intro c
  obtain ⟨d1, hlen, _, _, _, b4⟩ := safe_get_call_clock cfg c (safe_get_run cfg calls s) _ hppp a2 a3
  rw [safe_get_run_append]
  show _ ≤ (safe_get_call cfg c (safe_get_run cfg calls s)).current_policy ∧
    (safe_get_call cfg c (safe_get_run cfg calls s)).current_policy ≤ _ ∧
    (safe_get_call cfg c (safe_get_run cfg calls s)).current_policy ≤ _
  rw [b4, a3]
  have hpc := pass_changes_le_length (d1.map (fun e => e.pass))
    (safe_get_run cfg calls s).read_example_last_pass
  rw [List.length_map] at hpc
  have hlo : pass_changes s.read_example_last_pass (d.map (fun e => e.pass))
        / cfg.sequence_passes_per_policy
      ≤ (pass_changes s.read_example_last_pass (d.map (fun e => e.pass))
          + pass_changes (safe_get_run cfg calls s).read_example_last_pass
              (d1.map (fun e => e.pass))) / cfg.sequence_passes_per_policy :=
    Nat.div_le_div_right (by omega)
  have hhi : (pass_changes s.read_example_last_pass (d.map (fun e => e.pass))
          + pass_changes (safe_get_run cfg calls s).read_example_last_pass
              (d1.map (fun e => e.pass))) / cfg.sequence_passes_per_policy
      ≤ pass_changes s.read_example_last_pass (d.map (fun e => e.pass))
        / cfg.sequence_passes_per_policy + 1 := by
    calc (pass_changes s.read_example_last_pass (d.map (fun e => e.pass))
          + pass_changes (safe_get_run cfg calls s).read_example_last_pass
              (d1.map (fun e => e.pass))) / cfg.sequence_passes_per_policy
        ≤ (pass_changes s.read_example_last_pass (d.map (fun e => e.pass))
          + cfg.sequence_passes_per_policy) / cfg.sequence_passes_per_policy :=
          Nat.div_le_div_right (by omega)
      _ = pass_changes s.read_example_last_pass (d.map (fun e => e.pass))
        / cfg.sequence_passes_per_policy + 1 := Nat.add_div_right _ (by omega)
  refine ⟨?_, ?_, ?_⟩
  · exact min_le_min hlo (le_refl _)
  · rcases Nat.le_total (pass_changes s.read_example_last_pass (d.map (fun e => e.pass))
        / cfg.sequence_passes_per_policy) cfg.total_number_of_policies with h | h
    · rw [min_eq_left h]
      exact le_trans (min_le_left _ _) hhi
    · rw [min_eq_right h]
      exact le_trans (min_le_right _ _) (Nat.le_succ _)
  · exact min_le_right _ _

/-- C13 on a stream of five examples with pass counters 0, 0, 1, 2, 2, two
passes per policy and a budget of 2: after five calls the pass counter has
changed twice, and `current_policy` is `min(2 / 2, 2) = 1`. -/
theorem current_policy_counts_passes_witness :
    ((1 ≤ sample_config_two_passes.sequence_passes_per_policy
      ∧ (sample_state sample_config_two_passes sample_pass_stream 0).current_policy = 0
      ∧ (sample_state sample_config_two_passes sample_pass_stream 0).passes_since_new_policy = 0)
      ∧ pass_changes 0 (sample_pass_stream.map (fun e => e.pass)) = 2
      ∧ (safe_get_run sample_config_two_passes sample_calls
          (sample_state sample_config_two_passes sample_pass_stream 0)).current_policy = 1) ∧
    ((∃ delivered : List vw_example,
      (sample_state sample_config_two_passes sample_pass_stream 0).parser
        = delivered ++ (safe_get_run sample_config_two_passes sample_calls
          (sample_state sample_config_two_passes sample_pass_stream 0)).parser ∧
      (safe_get_run sample_config_two_passes sample_calls
          (sample_state sample_config_two_passes sample_pass_stream 0)).current_policy
        = min (pass_changes
            (sample_state sample_config_two_passes sample_pass_stream 0).read_example_last_pass
            (delivered.map (fun e => e.pass))
            / sample_config_two_passes.sequence_passes_per_policy)
          sample_config_two_passes.total_number_of_policies) ∧
    (∀ c : Bool × Int,
      (safe_get_run sample_config_two_passes sample_calls
          (sample_state sample_config_two_passes sample_pass_stream 0)).current_policy
        ≤ (safe_get_run sample_config_two_passes (sample_calls ++ [c])
          (sample_state sample_config_two_passes sample_pass_stream 0)).current_policy ∧
      (safe_get_run sample_config_two_passes (sample_calls ++ [c])
          (sample_state sample_config_two_passes sample_pass_stream 0)).current_policy
        ≤ (safe_get_run sample_config_two_passes sample_calls
          (sample_state sample_config_two_passes sample_pass_stream 0)).current_policy + 1 ∧
      (safe_get_run sample_config_two_passes (sample_calls ++ [c])
          (sample_state sample_config_two_passes sample_pass_stream 0)).current_policy
        ≤ sample_config_two_passes.total_number_of_policies)) :=
  ⟨⟨⟨by decide, rfl, rfl⟩, by decide, by decide!⟩,
    current_policy_counts_passes sample_config_two_passes sample_calls
      (sample_state sample_config_two_passes sample_pass_stream 0) (by decide) rfl rfl⟩
/-! ## C14: labels above `sequence_k` -/

/-- A call of `safe_get_example` inside a run never clears the warning flag. -/
theorem safe_get_call_warned {L : Type} (cfg : config) (c : Bool × Int) (s : state L)
    (h : s.warned_about_class_overage = true) :
    (safe_get_call cfg c s).warned_about_class_overage = true := by
  unfold safe_get_call
  lift_lets
  extract_lets s0
  have e1 : s0.warned_about_class_overage = s.warned_about_class_overage := by
    simp only [s0]
    split_ifs <;> rfl
  rcases safe_get_example_cases cfg c.2 s0 with
    ⟨_, _, _, _, _, _, a5, _, _⟩ | ⟨e, rest, _, _, _, _, _, _, _, b4, _, _⟩
  · rw [a5, e1, h]
  · rw [b4, e1, h, Bool.true_or]

/-- Along a run of calls of `safe_get_example` the warning flag is first unset
and then set: it changes at most once. -/
theorem safe_get_trace_warned {L : Type} (cfg : config) (calls : List (Bool × Int)) :
    ∀ (s : state L), ∃ n m : Nat,
      (safe_get_trace cfg calls s).map (fun u => u.warned_about_class_overage)
        = List.replicate n false ++ List.replicate m true ∧
      (s.warned_about_class_overage = true → n = 0) := by
  induction calls with
  | nil =>
    intro s
    cases hw : s.warned_about_class_overage with
    | false =>
      refine ⟨1, 0, ?_, by simp⟩
      simp [safe_get_trace, hw]
    | true =>
      refine ⟨0, 1, ?_, by simp⟩
      simp [safe_get_trace, hw]
  | cons c cs ih =>
    intro s
    obtain ⟨n, m, h1, h2⟩ := ih (safe_get_call cfg c s)
    cases hw : s.warned_about_class_overage with
    | false =>
      refine ⟨n + 1, m, ?_, by simp⟩
      simp only [safe_get_trace, List.map_cons, h1, hw, List.replicate_succ, List.cons_append]
    | true =>
      have hn := h2 (safe_get_call_warned cfg c s hw)
      subst hn
      refine ⟨0, m + 1, ?_, by simp⟩
      simp only [safe_get_trace, List.map_cons, h1, hw, List.replicate_succ,
        List.replicate_zero, List.nil_append]

/-- C14: when `safe_get_example` returns an example `e`, it is the head `ec` of
the parser; if the (32-bit) label `ec` arrived with is greater than
`sequence_k`, `e` is `ec` with its label replaced by `sequence_k`, and if the
label is at most `sequence_k`, `e` is `ec` unchanged.  The warning flag after
the call is set if it was set before or the label was greater than
`sequence_k`; and along every run of calls the flag is first unset and then
set, so it is set at most once and never cleared. -/
theorem overflow_label_clamped {L : Type} (cfg : config) (a : Int) (s : state L)
    (e : vw_example) (calls : List (Bool × Int))
    (hret : (safe_get_example cfg a s).1 = some e) :
    (∃ ec rest, s.parser = ec :: rest ∧
      (cfg.sequence_k < ec.ld.deref.label → ec.ld.deref.label < 2 ^ 32 →
        e = { ec with ld := ec.ld.store_label cfg.sequence_k } ∧
        e.ld.deref.label = cfg.sequence_k) ∧
      (ec.ld.deref.label ≤ cfg.sequence_k → e = ec) ∧
      (safe_get_example cfg a s).2.warned_about_class_overage
        = (s.warned_about_class_overage || decide (cfg.sequence_k < ec.ld.deref.label))) ∧
    (∃ n m : Nat,
      (safe_get_trace cfg calls s).map (fun u => u.warned_about_class_overage)
        = List.replicate n false ++ List.replicate m true) := by
  refine ⟨?_, ?_⟩
  · rcases safe_get_example_cases cfg a s with
      ⟨a0, _⟩ | ⟨ec, rest, hp, _, b0, _, _, _, _, b4, _, _⟩
    · rw [a0] at hret
      exact absurd hret (by simp)
    · rw [b0] at hret
      have he : e = clamp_label cfg ec := (Option.some.inj hret).symm
      refine ⟨ec, rest, hp, ?_, ?_, b4⟩
      · intro hgt h32
        have hk : u32 cfg.sequence_k = cfg.sequence_k := by
          unfold u32
          exact Nat.mod_eq_of_lt (by omega)
        have he2 : e = { ec with ld := ec.ld.store_label cfg.sequence_k } := by
          rw [he]
          unfold clamp_label
          rw [if_pos hgt, hk]
        refine ⟨he2, ?_⟩
        rw [he2]
        rcases hld : ec.ld with ⟨addr, val⟩ | _ | c
        · rfl
        · rw [hld] at hgt
          exact absurd hgt (by simp [label_ptr.deref])
        · rw [hld] at hgt
          exact absurd hgt (by simp [label_ptr.deref])
      · intro hle
        rw [he]
        unfold clamp_label
        rw [if_neg (by omega)]
  · obtain ⟨n, m, h, _⟩ := safe_get_trace_warned cfg calls s
    exact ⟨n, m, h⟩

/-- C14 on the sample configuration (`k = 3`): an example that arrives with
label 7 is handed out with label 3. -/
theorem overflow_label_clamped_witness :
    ((safe_get_example sample_config 0
        (sample_state sample_config [sample_example 1 7, sample_example 2 2] 0)).1
      = some { sample_example 1 7 with ld := label_ptr.mc 101 ⟨3, 1⟩ }) ∧
    ((∃ ec rest,
      (sample_state sample_config [sample_example 1 7, sample_example 2 2] 0).parser
        = ec :: rest ∧
      (sample_config.sequence_k < ec.ld.deref.label → ec.ld.deref.label < 2 ^ 32 →
        ({ sample_example 1 7 with ld := label_ptr.mc 101 ⟨3, 1⟩ } : vw_example)
          = { ec with ld := ec.ld.store_label sample_config.sequence_k } ∧
        ({ sample_example 1 7 with ld := label_ptr.mc 101 ⟨3, 1⟩ } : vw_example).ld.deref.label
          = sample_config.sequence_k) ∧
      (ec.ld.deref.label ≤ sample_config.sequence_k →
        ({ sample_example 1 7 with ld := label_ptr.mc 101 ⟨3, 1⟩ } : vw_example) = ec) ∧
      (safe_get_example sample_config 0
          (sample_state sample_config [sample_example 1 7, sample_example 2 2] 0)).2.warned_about_class_overage
        = ((sample_state sample_config
              [sample_example 1 7, sample_example 2 2] 0).warned_about_class_overage
            || decide (sample_config.sequence_k < ec.ld.deref.label))) ∧
    (∃ n m : Nat,
      (safe_get_trace sample_config [(true, 1), (false, 0)]
          (sample_state sample_config [sample_example 1 7, sample_example 2 2] 0)).map
            (fun u => u.warned_about_class_overage)
        = List.replicate n false ++ List.replicate m true)) :=
  ⟨rfl, overflow_label_clamped sample_config 0
    (sample_state sample_config [sample_example 1 7, sample_example 2 2] 0)
    { sample_example 1 7 with ld := label_ptr.mc 101 ⟨3, 1⟩ } [(true, 1), (false, 0)] rfl⟩

/-! ## C15: the ring capacity -/

/-- The reading loop does nothing on a null pointer. -/
theorem read_sequence_loop_none {L : Type} (cfg : config) (fuel n : Nat) (skip : Bool)
    (s : state L) : read_sequence_loop cfg fuel n skip none s = (n, skip, none, s) :=
  read_sequence_loop_stop cfg fuel n skip none s (fun _ h => by simp at h)

/-- The reading loop never holds more examples than `safe_get_example` has
counted, so never more than the ring has room for, and it writes the slots
`n, n+1, ...` below the number of examples it ends with. -/
theorem read_sequence_loop_bound {L : Type} (cfg : config) :
    ∀ (fuel n : Nat) (skip : Bool) (cur : Option vw_example) (s : state L),
    n + (if cur.isSome then 1 else 0) ≤ s.read_example_this_loop →
    s.read_example_this_loop ≤ cfg.ring_size →
    n ≤ (read_sequence_loop cfg fuel n skip cur s).1 ∧
    (read_sequence_loop cfg fuel n skip cur s).1 ≤ cfg.ring_size ∧
    read_sequence_indices cfg fuel n cur s
      = List.range' n ((read_sequence_loop cfg fuel n skip cur s).1 - n) := by
  intro fuel
  induction fuel with
  | zero =>
    intro n skip cur s h1 h2
    refine ⟨le_refl _, ?_, ?_⟩
    · show n ≤ cfg.ring_size
      omega
    · show [] = List.range' n (n - n)
      simp
  | succ f ih =>
    intro n skip cur s h1 h2
    cases cur with
    | none =>
      refine ⟨le_refl _, ?_, ?_⟩
      · show n ≤ cfg.ring_size
        omega
      · show [] = List.range' n (n - n)
        simp
    | some cur_ec =>
      simp only [Option.isSome_some, if_true] at h1
      by_cases hnl : example_is_newline cfg cur_ec = true
      · simp only [read_sequence_loop, read_sequence_indices]
        rw [if_pos hnl, if_pos hnl]
        refine ⟨le_refl _, by omega, by simp⟩
      · simp only [read_sequence_loop, read_sequence_indices]
        rw [if_neg hnl, if_neg hnl]
        have hrtl : ({ s with ec_seq := s.ec_seq.set n (some cur_ec) } : state L).read_example_this_loop
            = s.read_example_this_loop := rfl
        have hpre : n + 1 + (if (safe_get_example cfg 0
              { s with ec_seq := s.ec_seq.set n (some cur_ec) }).1.isSome then 1 else 0)
            ≤ (safe_get_example cfg 0
              { s with ec_seq := s.ec_seq.set n (some cur_ec) }).2.read_example_this_loop ∧
            (safe_get_example cfg 0
              { s with ec_seq := s.ec_seq.set n (some cur_ec) }).2.read_example_this_loop
              ≤ cfg.ring_size := by
          rcases safe_get_example_cases cfg 0
              ({ s with ec_seq := s.ec_seq.set n (some cur_ec) } : state L) with
            ⟨a0, _, _, _, _, _, _, a7, _⟩ | ⟨e, rest, _, hne, b0, _, _, _, _, _, b6, _⟩
          · rw [a0, a7, hrtl]
            simp only [Option.isSome_none, Bool.false_eq_true, if_false]
            omega
          · rw [b0, b6, hrtl]
            rw [hrtl] at hne
            simp only [Option.isSome_some, if_true]
            omega
        obtain ⟨c1, c2, c3⟩ := ih (n + 1)
          (if example_is_test cur_ec = true ∧ ¬ skip = true then true else skip)
          (safe_get_example cfg 0 { s with ec_seq := s.ec_seq.set n (some cur_ec) }).1
          (safe_get_example cfg 0 { s with ec_seq := s.ec_seq.set n (some cur_ec) }).2
          hpre.1 hpre.2
        refine ⟨by omega, c2, ?_⟩
        rw [c3]
        have hsplit : (read_sequence_loop cfg f (n + 1)
              (if example_is_test cur_ec = true ∧ ¬ skip = true then true else skip)
              (safe_get_example cfg 0 { s with ec_seq := s.ec_seq.set n (some cur_ec) }).1
              (safe_get_example cfg 0 { s with ec_seq := s.ec_seq.set n (some cur_ec) }).2).1 - n
            = ((read_sequence_loop cfg f (n + 1)
              (if example_is_test cur_ec = true ∧ ¬ skip = true then true else skip)
              (safe_get_example cfg 0 { s with ec_seq := s.ec_seq.set n (some cur_ec) }).1
              (safe_get_example cfg 0 { s with ec_seq := s.ec_seq.set n (some cur_ec) }).2).1
              - (n + 1)) + 1 := by omega
        rw [hsplit, List.range'_succ]

/-- With as much fuel as the parser has examples, plus one, the reading loop
stops by itself: on a null pointer or on a boundary example. -/
theorem read_sequence_loop_terminates {L : Type} (cfg : config) :
    ∀ (fuel n : Nat) (skip : Bool) (cur : Option vw_example) (s : state L),
    s.parser.length < fuel →
    (read_sequence_loop cfg fuel n skip cur s).2.2.1 = none ∨
    ∃ b, (read_sequence_loop cfg fuel n skip cur s).2.2.1 = some b ∧
      example_is_newline cfg b = true := by
  intro fuel
  induction fuel with
  | zero =>
    intro n skip cur s h
    omega
  | succ f ih =>
    intro n skip cur s h
    cases cur with
    | none => exact Or.inl rfl
    | some cur_ec =>
      by_cases hnl : example_is_newline cfg cur_ec = true
      · simp only [read_sequence_loop]
        rw [if_pos hnl]
        exact Or.inr ⟨cur_ec, rfl, hnl⟩
      · simp only [read_sequence_loop]
        rw [if_neg hnl]
        have hpar : ({ s with ec_seq := s.ec_seq.set n (some cur_ec) } : state L).parser
            = s.parser := rfl
        rcases safe_get_example_cases cfg 0
            ({ s with ec_seq := s.ec_seq.set n (some cur_ec) } : state L) with
          ⟨a0, _⟩ | ⟨e, rest, hp, _, _, b1, _⟩
        · rw [a0, read_sequence_loop_none]
          exact Or.inl rfl
        · apply ih
          rw [b1]
          rw [hpar] at hp
          rw [hp] at h
          simp only [List.length_cons] at h
          omega

/-- The loop that skips initial newlines keeps the count of examples read
between 1 and the capacity of the ring. -/
theorem skip_initial_newlines_count {L : Type} (cfg : config) :
    ∀ (fuel : Nat) (cur : vw_example) (s : state L),
    1 ≤ s.read_example_this_loop → s.read_example_this_loop ≤ cfg.ring_size →
    1 ≤ (skip_initial_newlines cfg fuel cur s).2.read_example_this_loop ∧
    (skip_initial_newlines cfg fuel cur s).2.read_example_this_loop ≤ cfg.ring_size := by
  intro fuel
  induction fuel with
  | zero =>
    intro cur s h1 h2
    exact ⟨h1, h2⟩
  | succ f ih =>
    intro cur s h1 h2
    by_cases hnl : example_is_newline cfg cur = true
    · simp only [skip_initial_newlines]
      rw [if_pos hnl]
      have hrtl : (free_example s (some cur)).read_example_this_loop
          = s.read_example_this_loop := rfl
      rcases safe_get_example_cases cfg 1 (free_example s (some cur)) with
        ⟨a0, _, _, _, _, _, _, a7, _⟩ | ⟨e, rest, _, hne, b0, _, _, _, _, _, b6, _⟩
      · rw [a0]
        show 1 ≤ (safe_get_example cfg 1 (free_example s (some cur))).2.read_example_this_loop ∧
          (safe_get_example cfg 1 (free_example s (some cur))).2.read_example_this_loop
            ≤ cfg.ring_size
        rw [a7, hrtl]
        exact ⟨h1, h2⟩
      · rw [b0]
        show 1 ≤ (skip_initial_newlines cfg f (clamp_label cfg e)
            (safe_get_example cfg 1 (free_example s (some cur))).2).2.read_example_this_loop ∧
          (skip_initial_newlines cfg f (clamp_label cfg e)
            (safe_get_example cfg 1 (free_example s (some cur))).2).2.read_example_this_loop
            ≤ cfg.ring_size
        apply ih
        · rw [b6]
          omega
        · rw [b6, hrtl]
          rw [hrtl] at hne
          omega
    · simp only [skip_initial_newlines]
      rw [if_neg hnl]
      exact ⟨h1, h2⟩

/-- C15: when `read_example_this_loop` has reached the capacity of the ring,
`safe_get_example` returns null with the parser untouched and `got_null`
unset.  Consequently, in `process_next_example_sequence`, whatever the parser
holds: let `r1` be the first read after the counter is reset (lines 723-725),
`r2` the result of skipping the initial newlines (lines 730-735) and `rd` the
result of the reading loop (lines 745-754); then the number `n = rd.1` of
examples held is at most `ring_size`, the indices of the writes
`ec_seq[n] = cur_ec` are `0, 1, ..., n-1`, each below `ring_size`, and the loop
has ended by itself, on a null pointer or on a boundary example. -/
theorem ring_capacity_truncates {L : Type} (cfg : config) (s : state L) :
    (∀ a : Int, s.read_example_this_loop = cfg.ring_size →
      safe_get_example cfg a s = (none, { s with got_null := false })) ∧
    (∀ (r1 r2 : Option vw_example × state L) (first cur_ec : vw_example)
      (rd : Nat × Bool × Option vw_example × state L),
      safe_get_example cfg 1 { s with read_example_this_loop := 0 } = r1 →
      r1.1 = some first →
      skip_initial_newlines cfg (r1.2.parser.length + 1) first r1.2 = r2 →
      r2.1 = some cur_ec →
      read_sequence_loop cfg (r2.2.parser.length + 1) 0 false (some cur_ec) r2.2 = rd →
      rd.1 ≤ cfg.ring_size ∧
      read_sequence_indices cfg (r2.2.parser.length + 1) 0 (some cur_ec) r2.2
        = List.range rd.1 ∧
      (∀ i ∈ read_sequence_indices cfg (r2.2.parser.length + 1) 0 (some cur_ec) r2.2,
        i < cfg.ring_size) ∧
      (rd.2.2.1 = none ∨ ∃ b, rd.2.2.1 = some b ∧ example_is_newline cfg b = true)) := by
  refine ⟨?_, ?_⟩
  · intro a h
    unfold safe_get_example
    lift_lets
    extract_lets s0
    have h0 : s0.read_example_this_loop = cfg.ring_size := h
    rw [if_pos h0]
  · intro r1 r2 first cur_ec rd h1 h2 h3 h4 h5
    subst h1 h3 h5
    have hr1 : 1 ≤ (safe_get_example cfg 1
          { s with read_example_this_loop := 0 }).2.read_example_this_loop ∧
        (safe_get_example cfg 1
          { s with read_example_this_loop := 0 }).2.read_example_this_loop ≤ cfg.ring_size := by
      have hrtl : ({ s with read_example_this_loop := 0 } : state L).read_example_this_loop = 0 :=
        rfl
      rcases safe_get_example_cases cfg 1 ({ s with read_example_this_loop := 0 } : state L) with
        ⟨a0, _⟩ | ⟨e, rest, _, hne, _, _, _, _, _, _, b6, _⟩
      · rw [a0] at h2
        exact absurd h2 (by simp)
      · rw [b6, hrtl]
        rw [hrtl] at hne
        omega
    obtain ⟨hs1, hs2⟩ := skip_initial_newlines_count cfg
      ((safe_get_example cfg 1 { s with read_example_this_loop := 0 }).2.parser.length + 1)
      first (safe_get_example cfg 1 { s with read_example_this_loop := 0 }).2 hr1.1 hr1.2
    obtain ⟨_, c2, c3⟩ := read_sequence_loop_bound cfg
      ((skip_initial_newlines cfg
        ((safe_get_example cfg 1 { s with read_example_this_loop := 0 }).2.parser.length + 1)
        first (safe_get_example cfg 1 { s with read_example_this_loop := 0 }).2).2.parser.length
          + 1) 0 false (some cur_ec)
      (skip_initial_newlines cfg
        ((safe_get_example cfg 1 { s with read_example_this_loop := 0 }).2.parser.length + 1)
        first (safe_get_example cfg 1 { s with read_example_this_loop := 0 }).2).2
      (by simp only [Option.isSome_some, if_true]; omega) hs2
    rw [Nat.sub_zero] at c3
    have c3b : read_sequence_indices cfg
        ((skip_initial_newlines cfg
          ((safe_get_example cfg 1 { s with read_example_this_loop := 0 }).2.parser.length + 1)
          first (safe_get_example cfg 1 { s with read_example_this_loop := 0 }).2).2.parser.length
            + 1) 0 (some cur_ec)
        (skip_initial_newlines cfg
          ((safe_get_example cfg 1 { s with read_example_this_loop := 0 }).2.parser.length + 1)
          first (safe_get_example cfg 1 { s with read_example_this_loop := 0 }).2).2
        = List.range (read_sequence_loop cfg
          ((skip_initial_newlines cfg
            ((safe_get_example cfg 1 { s with read_example_this_loop := 0 }).2.parser.length + 1)
            first (safe_get_example cfg 1 { s with read_example_this_loop := 0 }).2).2.parser.length
              + 1) 0 false (some cur_ec)
          (skip_initial_newlines cfg
            ((safe_get_example cfg 1 { s with read_example_this_loop := 0 }).2.parser.length + 1)
            first (safe_get_example cfg 1 { s with read_example_this_loop := 0 }).2).2).1 := by
      rw [c3, List.range_eq_range']
    refine ⟨c2, c3b, ?_, ?_⟩
    · intro i hi
      rw [c3b, List.mem_range] at hi
      omega
    · exact read_sequence_loop_terminates cfg _ 0 false (some cur_ec) _ (Nat.lt_succ_self _)

/-- C15 on a ring of capacity 2 and a parser that holds a sequence of four
labelled examples and its boundary example: two examples are held, the writes
go to slots 0 and 1, the reader returns null, and the other two examples and
the boundary example stay in the parser. -/
theorem ring_capacity_truncates_witness :
    ((read_sequence_loop sample_config_small_ring 5 0 false (some (sample_example 1 1))
        (safe_get_example sample_config_small_ring 1
          (sample_state sample_config_small_ring sample_sequence 0)).2).1 = 2 ∧
      (read_sequence_loop sample_config_small_ring 5 0 false (some (sample_example 1 1))
        (safe_get_example sample_config_small_ring 1
          (sample_state sample_config_small_ring sample_sequence 0)).2).2.2.2.parser.length = 3) ∧
    ((read_sequence_loop sample_config_small_ring 5 0 false (some (sample_example 1 1))
        (safe_get_example sample_config_small_ring 1
          (sample_state sample_config_small_ring sample_sequence 0)).2).1
        ≤ sample_config_small_ring.ring_size ∧
      read_sequence_indices sample_config_small_ring 5 0 (some (sample_example 1 1))
        (safe_get_example sample_config_small_ring 1
          (sample_state sample_config_small_ring sample_sequence 0)).2
        = List.range (read_sequence_loop sample_config_small_ring 5 0 false
            (some (sample_example 1 1))
            (safe_get_example sample_config_small_ring 1
              (sample_state sample_config_small_ring sample_sequence 0)).2).1 ∧
      (∀ i ∈ read_sequence_indices sample_config_small_ring 5 0 (some (sample_example 1 1))
        (safe_get_example sample_config_small_ring 1
          (sample_state sample_config_small_ring sample_sequence 0)).2,
        i < sample_config_small_ring.ring_size) ∧
      ((read_sequence_loop sample_config_small_ring 5 0 false (some (sample_example 1 1))
        (safe_get_example sample_config_small_ring 1
          (sample_state sample_config_small_ring sample_sequence 0)).2).2.2.1 = none ∨
        ∃ b, (read_sequence_loop sample_config_small_ring 5 0 false (some (sample_example 1 1))
          (safe_get_example sample_config_small_ring 1
            (sample_state sample_config_small_ring sample_sequence 0)).2).2.2.1 = some b ∧
          example_is_newline sample_config_small_ring b = true)) :=
  ⟨⟨by decide!, by decide!⟩,
    (ring_capacity_truncates sample_config_small_ring
      (sample_state sample_config_small_ring sample_sequence 0)).2
      (safe_get_example sample_config_small_ring 1
        (sample_state sample_config_small_ring sample_sequence 0))
      (some (sample_example 1 1), (safe_get_example sample_config_small_ring 1
        (sample_state sample_config_small_ring sample_sequence 0)).2)
      (sample_example 1 1) (sample_example 1 1)
      (read_sequence_loop sample_config_small_ring 5 0 false (some (sample_example 1 1))
        (safe_get_example sample_config_small_ring 1
          (sample_state sample_config_small_ring sample_sequence 0)).2)
      rfl rfl rfl rfl rfl⟩
/-! ## C16: the policy of test mode -/

/-- The call `random_policy(0, 0)`: with at least one frozen policy the result
is the id of a frozen policy; with none it is 0, the value of
`current_policy`. -/
theorem random_policy_frozen (beta : ℚ) (current_policy : Nat) (g : drand48_state) :
    (1 ≤ current_policy →
      0 ≤ (random_policy beta current_policy 0 0 g).1 ∧
      (random_policy beta current_policy 0 0 g).1 < (current_policy : Int)) ∧
    (current_policy = 0 → (random_policy beta current_policy 0 0 g).1 = 0) := by
  constructor
  · intro hcp
    by_cases hb : beta ≥ 1
    · have hpos : current_policy > 0 := hcp
      simp only [random_policy, hb, if_true, ne_eq, not_true_eq_false, if_false, hpos]
      omega
    · have hb1 : beta < 1 := not_le.mp hb
      have hN : 1 ≤ (current_policy : Int) + 0 + 0 := by omega
      obtain ⟨j, hj, hjN⟩ := random_policy_pid_range beta (g.draws g.pos)
        ((current_policy : Int) + 0 + 0) hN
      rw [random_policy_eq_of_pid beta current_policy 0 0 g hb1 hN, hj]
      unfold random_policy_of_rank
      simp only [ne_eq, not_true_eq_false, false_and, if_false, if_true]
      omega
  · intro hcp
    subst hcp
    by_cases hb : beta ≥ 1 <;> simp [random_policy, hb]

/-- The record of policies follows the iterations of the loop of `run_test`:
one iteration of `run_test_loop` is the body `run_test_step`. -/
theorem run_test_loop_step {L : Type} (cfg : config) (env : collaborators L) (fuel : Nat)
    (ec : vw_example) (s : state L) :
    run_test_loop cfg env (fuel + 1) (some ec) s =
      if example_is_newline cfg ec then (some ec, s)
      else run_test_loop cfg env fuel (run_test_step cfg env ec s).1
        (run_test_step cfg env ec s).2 := rfl

/-- C16 as stated fails for `current_policy = 0`: on the first pass, with a
sequence that starts with a test example, `run_test` predicts its one position
with policy 0, which is the value of `current_policy`, the id of the policy
that is not frozen yet, and is not in the (empty) range of frozen ids. -/
theorem run_test_policy_counterexample :
    example_is_test (sample_test_example 1) = true ∧
    (sample_state sample_config_many_classes [sample_newline 2] (3 / 4)).current_policy = 0 ∧
    run_test_policies sample_config_many_classes sample_env
        ((sample_state sample_config_many_classes [sample_newline 2] (3 / 4)).parser.length + 1)
        (some (sample_test_example 1))
        { sample_state sample_config_many_classes [sample_newline 2] (3 / 4) with
          current_history := clear_history sample_config_many_classes.history_length
            (sample_state sample_config_many_classes
              [sample_newline 2] (3 / 4)).current_history }
      = [(0, 0)] ∧
    ¬ (∀ cp ∈ run_test_policies sample_config_many_classes sample_env
        ((sample_state sample_config_many_classes [sample_newline 2] (3 / 4)).parser.length + 1)
        (some (sample_test_example 1))
        { sample_state sample_config_many_classes [sample_newline 2] (3 / 4) with
          current_history := clear_history sample_config_many_classes.history_length
            (sample_state sample_config_many_classes
              [sample_newline 2] (3 / 4)).current_history },
      0 ≤ cp.2 ∧ cp.2 < (cp.1 : Int)) := by
  refine ⟨by decide, rfl, by decide!, by decide!⟩

/-- C16, amended: in test mode, at every position, for every `beta`: when
`current_policy` is at least 1 at the time of the prediction, the policy handed
to `predict` is the id of a frozen policy, in `0..current_policy-1`; when
`current_policy` is 0 it is policy 0.  It is never the oracle sentinel -1. -/
theorem run_test_uses_frozen_policy {L : Type} (cfg : config) (env : collaborators L) :
    ∀ (fuel : Nat) (cur : Option vw_example) (s : state L) (c : Nat) (p : Int),
    (c, p) ∈ run_test_policies cfg env fuel cur s →
    (1 ≤ c → 0 ≤ p ∧ p < (c : Int)) ∧ (c = 0 → p = 0) ∧ p ≠ -1 := by
  intro fuel
  induction fuel with
  | zero =>
    intro cur s c p h
    simp [run_test_policies] at h
  | succ f ih =>
    intro cur s c p h
    cases cur with
    | none => simp [run_test_policies] at h
    | some ec =>
      simp only [run_test_policies] at h
      by_cases hnl : example_is_newline cfg ec = true
      · rw [if_pos hnl] at h
        simp at h
      · rw [if_neg hnl, List.mem_cons] at h
        rcases h with h | h
        · obtain ⟨h1, h2⟩ := Prod.mk.inj h
          subst h1 h2
          obtain ⟨a1, a2⟩ := random_policy_frozen cfg.sequence_beta s.current_policy s.rng
          refine ⟨a1, a2, ?_⟩
          rcases Nat.eq_zero_or_pos s.current_policy with h0 | hpos
          · rw [a2 h0]
            decide
          · have := (a1 hpos).1
            omega
        · exact ih _ _ c p h

/-- C16, amended, on a test sequence of one position with one frozen policy:
the policy used is 0. -/
theorem run_test_uses_frozen_policy_witness :
    ((1, 0) ∈ run_test_policies sample_config_many_classes sample_env 2
        (some (sample_test_example 1))
        { sample_state sample_config_many_classes [sample_newline 2] (3 / 4) with
          current_policy := 1 }) ∧
    ((1 ≤ 1 → (0 : Int) ≤ 0 ∧ (0 : Int) < ((1 : Nat) : Int)) ∧ (1 = 0 → (0 : Int) = 0)
      ∧ (0 : Int) ≠ -1) :=
  ⟨by decide!,
    run_test_uses_frozen_policy sample_config_many_classes sample_env 2
      (some (sample_test_example 1))
      { sample_state sample_config_many_classes [sample_newline 2] (3 / 4) with
        current_policy := 1 } 1 0 (by decide!)⟩
/-! ## C17: a test example inside a training sequence -/

/-- With fewer than `2^32 - 1` classes no example that `safe_get_example` hands
out is a test example: the label `(uint32_t)-1` that marks a test example is
greater than `sequence_k`, so lines 669-676 replace it by `sequence_k`. -/
theorem safe_get_example_never_test {L : Type} (cfg : config) (a : Int) (s : state L)
    (e : vw_example) (hk : cfg.sequence_k < 2 ^ 32 - 1)
    (hret : (safe_get_example cfg a s).1 = some e) : example_is_test e = false := by
  rcases safe_get_example_cases cfg a s with
    ⟨a0, _⟩ | ⟨ec, rest, _, _, b0, _⟩
  · rw [a0] at hret
    exact absurd hret (by simp)
  · rw [b0] at hret
    have he : e = clamp_label cfg ec := (Option.some.inj hret).symm
    rw [he]
    unfold clamp_label example_is_test
    have hk32 : u32 cfg.sequence_k = cfg.sequence_k := by
      unfold u32
      exact Nat.mod_eq_of_lt (by omega)
    by_cases hgt : ec.ld.deref.label > cfg.sequence_k
    · rw [if_pos hgt]
      rcases hld : ec.ld with ⟨addr, val⟩ | _ | c
      · simp only [label_ptr.store_label, label_ptr.deref, hk32, decide_eq_false_iff_not]
        omega
      · simp [label_ptr.store_label, label_ptr.deref]
      · simp [label_ptr.store_label, label_ptr.deref]
    · rw [if_neg hgt]
      simp only [decide_eq_false_iff_not]
      omega

/-- C17 fails on the code.  With `k = 3` classes the parser delivers a training
example (label 1, address 1), a test example (label `(uint32_t)-1`, address 2)
and a boundary example.  `process_next_example_sequence` does not drop the
sequence: the learner is called four times, two of the calls are training
calls, one for each position, the test example being trained as class 3; the
running history, `pred_seq`, `policy_seq` and the counters of `global.sd`
change.  With `k = 2^32 - 1` classes, where line 670 leaves the label of the
test example alone, the same sequence is dropped as the claim says. -/
theorem mixed_sequence_is_trained :
    (example_is_test (sample_example 1 1) = false ∧
      example_is_test (sample_test_example 2) = true) ∧
    ((process_next_example_sequence sample_config sample_env
        (sample_state sample_config sample_mixed_sequence (3 / 4))).learn_calls.length = 4 ∧
      training_calls (process_next_example_sequence sample_config sample_env
          (sample_state sample_config sample_mixed_sequence (3 / 4))).learn_calls
        = [(1, [0, 1, 1]), (2, [1, 1, 0])] ∧
      ((sample_state sample_config sample_mixed_sequence (3 / 4)).current_history = [0] ∧
        (process_next_example_sequence sample_config sample_env
          (sample_state sample_config sample_mixed_sequence (3 / 4))).current_history = [3]) ∧
      ((sample_state sample_config sample_mixed_sequence (3 / 4)).pred_seq.take 2 = [0, 0] ∧
        (process_next_example_sequence sample_config sample_env
          (sample_state sample_config sample_mixed_sequence (3 / 4))).pred_seq.take 2 = [1, 3]) ∧
      ((sample_state sample_config sample_mixed_sequence (3 / 4)).policy_seq.take 2 = [0, 0] ∧
        (process_next_example_sequence sample_config sample_env
          (sample_state sample_config sample_mixed_sequence (3 / 4))).policy_seq.take 2
          = [-1, -1]) ∧
      ((sample_state sample_config sample_mixed_sequence (3 / 4)).sd.example_number = 0 ∧
        (process_next_example_sequence sample_config sample_env
          (sample_state sample_config sample_mixed_sequence (3 / 4))).sd.example_number = 1) ∧
      ((sample_state sample_config sample_mixed_sequence (3 / 4)).sd.weighted_examples = 0 ∧
        (process_next_example_sequence sample_config sample_env
          (sample_state sample_config sample_mixed_sequence (3 / 4))).sd.weighted_examples
          = 2)) ∧
    ((process_next_example_sequence sample_config_many_classes sample_env
        (sample_state sample_config_many_classes sample_mixed_sequence (3 / 4))).learn_calls = [] ∧
      (process_next_example_sequence sample_config_many_classes sample_env
        (sample_state sample_config_many_classes sample_mixed_sequence (3 / 4))).current_history
        = [0] ∧
      (process_next_example_sequence sample_config_many_classes sample_env
        (sample_state sample_config_many_classes sample_mixed_sequence (3 / 4))).pred_seq.take 2
        = [0, 0] ∧
      (process_next_example_sequence sample_config_many_classes sample_env
        (sample_state sample_config_many_classes sample_mixed_sequence (3 / 4))).policy_seq.take 2
        = [0, 0] ∧
      (process_next_example_sequence sample_config_many_classes sample_env
        (sample_state sample_config_many_classes sample_mixed_sequence (3 / 4))).sd.example_number
        = 0 ∧
      (process_next_example_sequence sample_config_many_classes sample_env
        (sample_state sample_config_many_classes sample_mixed_sequence (3 / 4))).sd.weighted_examples
        = 0) := by
  refine ⟨⟨by decide, by decide⟩,
    ⟨by decide!, by decide!, ⟨by decide!, by decide!⟩, ⟨by decide!, by decide!⟩,
      ⟨by decide!, by decide!⟩, ⟨by decide!, by decide!⟩, ⟨by decide!, by decide!⟩⟩,
    ⟨?_, by decide!, by decide!, by decide!, by decide!, by decide!⟩⟩
  have h : (process_next_example_sequence sample_config_many_classes sample_env
      (sample_state sample_config_many_classes sample_mixed_sequence (3 / 4))).learn_calls.length
      = 0 := by decide!
  exact List.length_eq_zero.mp h
/-! ## C18: duplicate marks -/

/-- What the marks of `sort_hcache_and_mark_equality` mean on the code: item
`i >= 1` of the sorted cache is marked exactly when its hash is not below the
hash of item `i-1` and the two histories agree in their last slot. -/
theorem mark_iff_last_slot {L : Type} (cfg : config) (env : collaborators L) (s : state L)
    (hq : ∀ cmp l, (env.qsort cmp l).Perm l) (hlen : s.hcache.length = cfg.sequence_k)
    (i : Nat) (h1 : 1 ≤ i) (hi : i < cfg.sequence_k) :
    ((sort_hcache_and_mark_equality cfg env s).hcache.getD i default).same = true ↔
      (¬ ((env.qsort (order_history_item cfg s.all_histories) s.hcache).getD i
            default).predictions_hash
          < ((env.qsort (order_history_item cfg s.all_histories) s.hcache).getD (i - 1)
            default).predictions_hash ∧
        last_prediction cfg (s.all_histories.getD
            ((env.qsort (order_history_item cfg s.all_histories) s.hcache).getD i
              default).predictions [])
          = last_prediction cfg (s.all_histories.getD
            ((env.qsort (order_history_item cfg s.all_histories) s.hcache).getD (i - 1)
              default).predictions [])) := by
  rw [(sort_hcache_marks cfg env s hq hlen).2 i hi, ← order_history_item_eq_zero_iff]
  simp [h1]

/-- C18 fails on the code.  With two history slots and `k = 3`, take the cache
of three candidates with rolling hash 0 and histories `[1,1]`, `[2,1]`, `[3,1]`
(the cache after the first rollout step at position 0 of the sample sequence,
when the learner predicts label 1 for every candidate).  After
`sort_hcache_and_mark_equality` items 1 and 2 are marked duplicate although no
two of the three histories are equal: `order_history_item` compares the last
slot only.  On a cache whose items 0 and 1 have the same history and the
hashes 0 and 5, item 1 is marked duplicate although the hashes differ: the
second test of `order_history_item` repeats the first. -/
theorem duplicate_mark_ignores_key :
    ((rollout_loop sample_config_two_slots sample_env 0 1 1
        (for_loop 0 3 (seed_item sample_config_two_slots 0)
          (sample_state_held_for sample_config_two_slots))).hcache = sample_state_cache.hcache ∧
      (rollout_loop sample_config_two_slots sample_env 0 1 1
        (for_loop 0 3 (seed_item sample_config_two_slots 0)
          (sample_state_held_for sample_config_two_slots))).all_histories
        = sample_state_cache.all_histories) ∧
    ((sort_hcache_and_mark_equality sample_config_two_slots sample_env
          sample_state_cache).hcache.map
        (fun hi => (hi.predictions_hash,
          sample_state_cache.all_histories.getD hi.predictions [], hi.same))
      = [(0, [1, 1], false), (0, [2, 1], true), (0, [3, 1], true)]) ∧
    ((sort_hcache_and_mark_equality sample_config_two_slots sample_env
          sample_state_cache_hashes).hcache.map
        (fun hi => (hi.predictions_hash,
          sample_state_cache_hashes.all_histories.getD hi.predictions [], hi.same))
      = [(0, [2, 1], false), (5, [2, 1], true), (9, [0, 0], false)]) := by
  refine ⟨⟨by decide!, by decide!⟩, by decide!, by decide!⟩

/-! ## C19: identical candidates end the rollout -/

/-- When all items of the cache have the same hash and the same history,
every item from index 1 on is marked by `sort_hcache_and_mark_equality`. -/
theorem marks_of_identical {L : Type} (cfg : config) (env : collaborators L) (s : state L)
    (hq : ∀ cmp l, (env.qsort cmp l).Perm l) (hlen : s.hcache.length = cfg.sequence_k)
    (hsame : ∀ a ∈ s.hcache, ∀ b ∈ s.hcache,
      a.predictions_hash = b.predictions_hash ∧
      s.all_histories.getD a.predictions [] = s.all_histories.getD b.predictions []) :
    ∀ i, 1 ≤ i → i < cfg.sequence_k →
      ((sort_hcache_and_mark_equality cfg env s).hcache.getD i default).same = true := by
  intro i h1 hi
  rw [mark_iff_last_slot cfg env s hq hlen i h1 hi]
  have hl0 : (env.qsort (order_history_item cfg s.all_histories) s.hcache).length
      = cfg.sequence_k := (hq _ _).length_eq.trans hlen
  have hmem : ∀ j, j < cfg.sequence_k →
      (env.qsort (order_history_item cfg s.all_histories) s.hcache).getD j default
        ∈ s.hcache := by
    intro j hj
    rw [List.getD_eq_getElem _ _ (by rw [hl0]; exact hj)]
    exact (hq _ _).mem_iff.mp (List.getElem_mem _)
  obtain ⟨e1, e2⟩ := hsame _ (hmem i hi) _ (hmem (i - 1) (by omega))
  rw [e1, e2]
  exact ⟨lt_irrefl _, rfl⟩

/-- C19: with the shared-history optimisation enabled, a `qsort` that
rearranges, and a cache of `k` items that all have the same rolling hash and
the same history: `sort_hcache_and_mark_equality` marks every item from index
1 on, `hcache_all_equal` returns true, and the rollout loop, entered with
`fuel + 1` steps still to go, returns after the sort of its first step: the
learner is not called at this step or at any later one, and `entered_rollout`
is not set. -/
theorem identical_candidates_stop_rollout {L : Type} (cfg : config) (env : collaborators L)
    (t fuel t2 : Nat) (s : state L)
    (hopt : cfg.OPTIMIZE_SHARED_HISTORIES = true)
    (hq : ∀ cmp l, (env.qsort cmp l).Perm l)
    (hlen : s.hcache.length = cfg.sequence_k)
    (hsame : ∀ a ∈ s.hcache, ∀ b ∈ s.hcache,
      a.predictions_hash = b.predictions_hash ∧
      s.all_histories.getD a.predictions [] = s.all_histories.getD b.predictions []) :
    (∀ i, 1 ≤ i → i < cfg.sequence_k →
      ((sort_hcache_and_mark_equality cfg env s).hcache.getD i default).same = true) ∧
    hcache_all_equal cfg (sort_hcache_and_mark_equality cfg env s) = true ∧
    rollout_loop cfg env t (fuel + 1) t2 s
      = sort_hcache_and_mark_equality cfg env { s with gamma := s.gamma * cfg.sequence_gamma } ∧
    (rollout_loop cfg env t (fuel + 1) t2 s).learn_calls = s.learn_calls ∧
    (rollout_loop cfg env t (fuel + 1) t2 s).entered_rollout = s.entered_rollout := by
  have hmarks := marks_of_identical cfg env s hq hlen hsame
  have hmarks1 := marks_of_identical cfg env
    ({ s with gamma := s.gamma * cfg.sequence_gamma } : state L) hq hlen hsame
  have hloop : rollout_loop cfg env t (fuel + 1) t2 s
      = sort_hcache_and_mark_equality cfg env
          { s with gamma := s.gamma * cfg.sequence_gamma } := by
    unfold rollout_loop
    lift_lets
    extract_lets s1 s2 s3 s4
    have hs2 : s2 = sort_hcache_and_mark_equality cfg env s1 := by
      simp only [s2]
      rw [if_pos hopt]
    have hall : hcache_all_equal cfg s2 = true := by
      rw [hs2, hcache_all_equal_iff]
      exact hmarks1
    rw [if_pos ⟨hopt, hall⟩]
    exact hs2
  refine ⟨hmarks, (hcache_all_equal_iff cfg _).mpr hmarks, hloop, ?_, ?_⟩
  · rw [hloop]
    rfl
  · rw [hloop]
    rfl

/-- C19 for `k = 2` at position 0 of the sample sequence of four examples: the
candidates start from the histories `[1]` and `[2]`, the learner predicts
label 1 for both at the first rollout step, and from the second step on they
are identical.  The horizon allows three rollout steps (`end_pos = 4`), but the
learner is called at the first one only (two calls). -/
theorem identical_candidates_stop_rollout_witness :
    ((sample_config_two_classes.OPTIMIZE_SHARED_HISTORIES = true ∧
      sample_state_after_first_step.hcache.length = sample_config_two_classes.sequence_k ∧
      sample_state_after_first_step.all_histories = [[1], [1]] ∧
      sample_state_after_first_step.hcache.map (fun hi => hi.predictions_hash) = [0, 0]) ∧
      rollout_end_pos sample_config_two_classes 4 0
          (sample_state_held_for sample_config_two_classes) = 4 ∧
      (rollout_position sample_config_two_classes sample_env 4 0
          (sample_state_held_for sample_config_two_classes)).learn_calls.length = 2) ∧
    ((∀ i, 1 ≤ i → i < sample_config_two_classes.sequence_k →
      ((sort_hcache_and_mark_equality sample_config_two_classes sample_env
          sample_state_after_first_step).hcache.getD i default).same = true) ∧
    hcache_all_equal sample_config_two_classes
        (sort_hcache_and_mark_equality sample_config_two_classes sample_env
          sample_state_after_first_step) = true ∧
    rollout_loop sample_config_two_classes sample_env 0 (1 + 1) 2 sample_state_after_first_step
      = sort_hcache_and_mark_equality sample_config_two_classes sample_env
          { sample_state_after_first_step with
            gamma := sample_state_after_first_step.gamma
              * sample_config_two_classes.sequence_gamma } ∧
    (rollout_loop sample_config_two_classes sample_env 0 (1 + 1) 2
        sample_state_after_first_step).learn_calls
      = sample_state_after_first_step.learn_calls ∧
    (rollout_loop sample_config_two_classes sample_env 0 (1 + 1) 2
        sample_state_after_first_step).entered_rollout
      = sample_state_after_first_step.entered_rollout) :=
  ⟨⟨⟨rfl, by decide!, by decide!, by decide!⟩, by decide!, by decide!⟩,
    identical_candidates_stop_rollout sample_config_two_classes sample_env 0 1 2
      sample_state_after_first_step rfl (fun cmp l => insertion_qsort_perm cmp l)
      (by decide!) (by decide!)⟩
/-! ## C20: seeding the candidates -/

/-- The function `clear_history` zeroes a buffer of `history_length` slots. -/
theorem clear_history_eq (hl : Nat) (h : List Nat) (hlen : h.length = hl) :
    clear_history hl h = List.replicate hl 0 := by
  unfold clear_history
  have key := for_loop_inv
    (fun j (b : List Nat) => b.length = hl ∧
      ∀ i, i < hl → b.getD i 0 = if i < j then 0 else h.getD i 0)
    (fun t b => b.set t 0) 0 hl h (Nat.zero_le _)
    ⟨hlen, fun i _ => by simp⟩
    (by
      rintro j b _ hj ⟨hb, hget⟩
      refine ⟨by rw [List.length_set]; exact hb, ?_⟩
      intro i hi
      rcases Nat.lt_trichotomy i j with hlt | heq | hgt
      · rw [getD_set_ne _ _ _ _ _ (by omega), hget i hi, if_pos hlt, if_pos (by omega)]
      · subst heq
        rw [getD_set_eq _ _ _ _ (by omega), if_pos (by omega)]
      · rw [getD_set_ne _ _ _ _ _ (by omega), hget i hi, if_neg (by omega),
          if_neg (by omega)])
  obtain ⟨k1, k2⟩ := key
  apply list_eq_of_getD _ _ (by rw [k1, List.length_replicate])
  intro i
  by_cases hi : i < hl
  · rw [k2 i hi, if_pos hi]
    simp [List.getD_eq_getElem?_getD, List.getElem?_replicate, hi]
  · rw [List.getD_eq_default _ _ (by rw [k1]; omega),
      List.getD_eq_default _ _ (by rw [List.length_replicate]; omega)]

/-- What lines 808-818 leave behind for candidate `i`: the buffer
`all_histories[i]` is cleared and then gets the label value `i+1` appended, the
cache entry `i` points to that buffer, has hash 0, is not marked, stands for
label index `i`, and its loss is the weight of the true label at `t` if `i+1`
differs from that label and 0 otherwise.  The running history
`current_history` is not read. -/
theorem seed_item_spec {L : Type} (cfg : config) (t i : Nat) (s : state L)
    (hah : i < s.all_histories.length) (hhc : i < s.hcache.length) :
    (seed_item cfg t i s).all_histories.length = s.all_histories.length ∧
    (seed_item cfg t i s).hcache.length = s.hcache.length ∧
    (seed_item cfg t i s).true_labels = s.true_labels ∧
    (seed_item cfg t i s).current_history = s.current_history ∧
    (seed_item cfg t i s).all_histories.getD i [] =
      (if cfg.history_length > 0 then
        append_history cfg.history_length
          (clear_history cfg.history_length (s.all_histories.getD i [])) (u32 (i + 1))
        else clear_history cfg.history_length (s.all_histories.getD i [])) ∧
    (seed_item cfg t i s).hcache.getD i default =
      { predictions := i, predictions_hash := 0,
        loss := (true_label_at s t).weight * (if i + 1 ≠ (true_label_at s t).label then 1 else 0),
        original_label := i, same := false } ∧
    (∀ j, j ≠ i → (seed_item cfg t i s).all_histories.getD j [] = s.all_histories.getD j []) ∧
    (∀ j, j ≠ i → (seed_item cfg t i s).hcache.getD j default = s.hcache.getD j default) := by
  unfold seed_item
  lift_lets
  extract_lets s1 hi s2
  have a1 : s1.all_histories
      = s.all_histories.set i (clear_history cfg.history_length (s.all_histories.getD i [])) :=
    rfl
  have a2 : s2.all_histories = s1.all_histories := rfl
  have a3 : s2.hcache = s.hcache.set i hi := rfl
  have a4 : s2.hcache.getD i default = hi := by
    rw [a3, getD_set_eq _ _ _ _ hhc]
  have a5 : hi.predictions = i := rfl
  have hbuf : s2.all_histories.getD i []
      = clear_history cfg.history_length (s.all_histories.getD i []) := by
    rw [a2, a1, getD_set_eq _ _ _ _ hah]
  have hres : (append_history_item cfg s2.all_histories (s2.hcache.getD i default)
        (u32 (i + 1))).1
      = if cfg.history_length > 0 then
          s2.all_histories.set i (append_history cfg.history_length
            (clear_history cfg.history_length (s.all_histories.getD i [])) (u32 (i + 1)))
        else s2.all_histories := by
    unfold append_history_item
    rw [a4, a5, hbuf]
    split_ifs <;> rfl
  have hlen2 : s2.all_histories.length = s.all_histories.length := by
    rw [a2, a1, List.length_set]
  refine ⟨?_, ?_, rfl, rfl, ?_, ?_, ?_, ?_⟩
  · show (append_history_item cfg s2.all_histories (s2.hcache.getD i default)
        (u32 (i + 1))).1.length = _
    rw [hres]
    split_ifs
    · rw [List.length_set, hlen2]
    · exact hlen2
  · show s2.hcache.length = _
    rw [a3, List.length_set]
  · show (append_history_item cfg s2.all_histories (s2.hcache.getD i default)
        (u32 (i + 1))).1.getD i [] = _
    rw [hres]
    by_cases hl : cfg.history_length > 0
    · rw [if_pos hl, if_pos hl, getD_set_eq _ _ _ _ (by rw [hlen2]; exact hah)]
    · rw [if_neg hl, if_neg hl, hbuf]
  · show s2.hcache.getD i default = _
    exact a4.trans rfl
  · intro j hj
    show (append_history_item cfg s2.all_histories (s2.hcache.getD i default)
        (u32 (i + 1))).1.getD j [] = _
    rw [hres]
    have : s2.all_histories.getD j [] = s.all_histories.getD j [] := by
      rw [a2, a1, getD_set_ne _ _ _ _ _ (by omega)]
    split_ifs
    · rw [getD_set_ne _ _ _ _ _ (by omega), this]
    · exact this
  · intro j hj
    show s2.hcache.getD j default = _
    rw [a3, getD_set_ne _ _ _ _ _ (by omega)]

/-- The seeding loop of position `t` (lines 808-818) on buffers as
`allocate_required_memory` sets them up: candidate `i` starts from the history
that is zero everywhere except for the label value `i+1` in its last slot,
whatever the running history is, and with the loss of the claim. -/
theorem seed_loop_spec {L : Type} (cfg : config) (t : Nat) (s : state L)
    (hah : s.all_histories.length = cfg.sequence_k)
    (hhc : s.hcache.length = cfg.sequence_k)
    (hbuf : ∀ b ∈ s.all_histories, b.length = cfg.history_length)
    (hl : 0 < cfg.history_length) :
    (for_loop 0 cfg.sequence_k (seed_item cfg t) s).current_history = s.current_history ∧
    ∀ i, i < cfg.sequence_k →
      (for_loop 0 cfg.sequence_k (seed_item cfg t) s).all_histories.getD i [] =
        append_history cfg.history_length (List.replicate cfg.history_length 0) (u32 (i + 1)) ∧
      (for_loop 0 cfg.sequence_k (seed_item cfg t) s).hcache.getD i default =
        { predictions := i, predictions_hash := 0,
          loss := (true_label_at s t).weight *
            (if i + 1 ≠ (true_label_at s t).label then 1 else 0),
          original_label := i, same := false } := by
  have key := for_loop_inv
    (fun j (u : state L) => u.all_histories.length = cfg.sequence_k ∧
      u.hcache.length = cfg.sequence_k ∧ u.true_labels = s.true_labels ∧
      u.current_history = s.current_history ∧
      (∀ i, j ≤ i → u.all_histories.getD i [] = s.all_histories.getD i []) ∧
      ∀ i, i < j →
        u.all_histories.getD i [] =
          append_history cfg.history_length (List.replicate cfg.history_length 0)
            (u32 (i + 1)) ∧
        u.hcache.getD i default =
          { predictions := i, predictions_hash := 0,
            loss := (true_label_at s t).weight *
              (if i + 1 ≠ (true_label_at s t).label then 1 else 0),
            original_label := i, same := false })
    (seed_item cfg t) 0 cfg.sequence_k s (Nat.zero_le _)
    ⟨hah, hhc, rfl, rfl, fun _ _ => rfl, fun i hi => absurd hi (Nat.not_lt_zero i)⟩
    (by
      rintro j u _ hj ⟨b1, b2, b3, b4, b5, b6⟩
      obtain ⟨c1, c2, c3, c4, c5, c6, c7, c8⟩ :=
        seed_item_spec cfg t j u (by rw [b1]; exact hj) (by rw [b2]; exact hj)
      have htl : true_label_at u t = true_label_at s t := by
        unfold true_label_at
        rw [b3]
      refine ⟨c1.trans b1, c2.trans b2, c3.trans b3, c4.trans b4, ?_, ?_⟩
      · intro i hi
        rw [c7 i (by omega), b5 i (by omega)]
      · intro i hi
        rcases Nat.lt_or_ge i j with hlt | hge
        · rw [c7 i (by omega), c8 i (by omega)]
          exact b6 i hlt
        · have hij : i = j := by omega
          subst hij
          rw [c5, c6, if_pos hl, htl, b5 i (le_refl _)]
          refine ⟨?_, rfl⟩
          rw [clear_history_eq]
          apply hbuf
          rw [List.getD_eq_getElem _ _ (by rw [hah]; exact hj)]
          exact List.getElem_mem _)
  obtain ⟨_, _, _, k4, _, k6⟩ := key
  exact ⟨k4, k6⟩

/-- C20 fails on the code for two history slots (`sequence_history = 2`,
`k = 3`).  On the sample sequence of four positions the whole call ends with
the cache seeded for the last position `t = 3`: the candidates' histories are
`[0,1]`, `[0,2]`, `[0,3]`, while the running history at that position ends in
the prediction 3 of position 2 (it is `[3,1]` once the prediction of position
3 is appended), so that the claim requires `[3,1]`, `[3,2]`, `[3,3]`.  Likewise
at position `t = 1` of the main loop: the running history is `[0,1]`, the
candidates are seeded with `[0,1]`, `[0,2]`, `[0,3]`, and the claim requires
`[1,1]`, `[1,2]`, `[1,3]`.  The seeded losses are as the claim says. -/
theorem candidates_start_from_empty_history :
    ((process_next_example_sequence sample_config_two_slots sample_env
        (sample_state sample_config_two_slots sample_sequence (3 / 4))).pred_seq.take 4
        = [1, 2, 3, 1] ∧
      (process_next_example_sequence sample_config_two_slots sample_env
        (sample_state sample_config_two_slots sample_sequence (3 / 4))).current_history
        = [3, 1] ∧
      (process_next_example_sequence sample_config_two_slots sample_env
        (sample_state sample_config_two_slots sample_sequence (3 / 4))).hcache.map
          (fun hi => hi.predictions) = [0, 1, 2] ∧
      (process_next_example_sequence sample_config_two_slots sample_env
        (sample_state sample_config_two_slots sample_sequence (3 / 4))).all_histories
        = [[0, 1], [0, 2], [0, 3]]) ∧
    ((learn_position sample_config_two_slots sample_env 4 0
        (sample_state_held_for sample_config_two_slots)).current_history = [0, 1] ∧
      (for_loop 0 3 (seed_item sample_config_two_slots 1)
        (learn_position sample_config_two_slots sample_env 4 0
          (sample_state_held_for sample_config_two_slots))).hcache.map
          (fun hi => (hi.predictions, hi.loss)) = [(0, 1), (1, 0), (2, 1)] ∧
      (for_loop 0 3 (seed_item sample_config_two_slots 1)
        (learn_position sample_config_two_slots sample_env 4 0
          (sample_state_held_for sample_config_two_slots))).all_histories
        = [[0, 1], [0, 2], [0, 3]] ∧
      (List.range 3).map (fun i => append_history 2
        (learn_position sample_config_two_slots sample_env 4 0
          (sample_state_held_for sample_config_two_slots)).current_history (i + 1))
        = [[1, 1], [1, 2], [1, 3]]) := by
  refine ⟨⟨by decide!, by decide!, by decide!, by decide!⟩,
    ⟨by decide!, by decide!, by decide!, by decide!⟩⟩
/-! ## C21: the end of the rollout -/

/-- The loop of lines 828-832, started at `e >= t` with enough fuel: it stops
at some `r` between `t` and `e`, every position from `r` up to `e - 1` has a
negative (oracle) policy, the loop has left by its own test, and it has read
`policy_seq` between `t` and `e - 1` only. -/
theorem end_pos_loop_spec (ps : List Int) (t : Nat) :
    ∀ (fuel e : Nat), t ≤ e → e - t < fuel →
    t ≤ end_pos_loop ps t fuel e ∧ end_pos_loop ps t fuel e ≤ e ∧
    (∀ p, end_pos_loop ps t fuel e ≤ p → p < e → ps.getD p 0 < 0) ∧
    (end_pos_loop ps t fuel e < t + 1 ∨ 0 ≤ ps.getD (end_pos_loop ps t fuel e - 1) 0) ∧
    (∀ i ∈ end_pos_reads ps t fuel e, t ≤ i ∧ i < e) := by
  intro fuel
  induction fuel with
  | zero =>
    intro e _ h
    omega
  | succ f ih =>
    intro e hte hf
    unfold end_pos_loop end_pos_reads
    by_cases h1 : e ≥ t + 1
    · rw [if_pos h1, if_pos h1]
      by_cases h2 : ps.getD (e - 1) 0 ≥ 0
      · rw [if_pos h2, if_pos h2]
        refine ⟨hte, le_refl _, ?_, Or.inr h2, ?_⟩
        · intro p hp1 hp2
          omega
        · intro i hi
          simp only [List.mem_singleton] at hi
          omega
      · rw [if_neg h2, if_neg h2]
        obtain ⟨a1, a2, a3, a4, a5⟩ := ih (e - 1) (by omega) (by omega)
        refine ⟨a1, by omega, ?_, a4, ?_⟩
        · intro p hp1 hp2
          rcases Nat.lt_or_ge p (e - 1) with hlt | hge
          · exact a3 p hp1 hlt
          · have hp : p = e - 1 := by omega
            rw [hp]
            exact not_le.mp h2
        · intro i hi
          rw [List.mem_cons] at hi
          rcases hi with hi | hi
          · omega
          · have := a5 i hi
            omega
    · rw [if_neg h1, if_neg h1]
      refine ⟨hte, le_refl _, ?_, Or.inl (by omega), ?_⟩
      · intro p hp1 hp2
        omega
      · intro i hi
        simp at hi

/-- The loop of lines 792-796 leaves `policy_seq` alone and sets
`all_policies_optimal` exactly when every position below `n` has a negative
(oracle) policy. -/
theorem all_policies_optimal_loop {L : Type} (n : Nat) (s : state L) :
    (for_loop 0 n (fun t (s : state L) =>
        let s := if s.policy_seq.getD t 0 ≥ 0 then { s with all_policies_optimal := false }
          else s
        { s with pred_seq := s.pred_seq.set 0 (2 ^ 64 - 1) })
      { s with all_policies_optimal := true }).policy_seq = s.policy_seq ∧
    ((for_loop 0 n (fun t (s : state L) =>
        let s := if s.policy_seq.getD t 0 ≥ 0 then { s with all_policies_optimal := false }
          else s
        { s with pred_seq := s.pred_seq.set 0 (2 ^ 64 - 1) })
      { s with all_policies_optimal := true }).all_policies_optimal = true ↔
      ∀ p, p < n → s.policy_seq.getD p 0 < 0) := by
  have key := for_loop_inv
    (fun j (u : state L) => u.policy_seq = s.policy_seq ∧
      (u.all_policies_optimal = true ↔ ∀ p, p < j → s.policy_seq.getD p 0 < 0))
    (fun t (s : state L) =>
        let s := if s.policy_seq.getD t 0 ≥ 0 then { s with all_policies_optimal := false }
          else s
        { s with pred_seq := s.pred_seq.set 0 (2 ^ 64 - 1) })
    0 n ({ s with all_policies_optimal := true } : state L) (Nat.zero_le _)
    ⟨rfl, ⟨fun _ p hp => absurd hp (Nat.not_lt_zero p), fun _ => rfl⟩⟩
    (by
      rintro j u _ _ ⟨h1, h2⟩
      beta_reduce
      lift_lets
      extract_lets u1
      have e1 : u1.policy_seq = s.policy_seq := by
        simp only [u1]
        split_ifs
        · exact h1
        · exact h1
      have e2 : u1.all_policies_optimal = true ↔ ∀ p, p < j + 1 → s.policy_seq.getD p 0 < 0 := by
        simp only [u1]
        by_cases hj : u.policy_seq.getD j 0 ≥ 0
        · rw [if_pos hj]
          constructor
          · intro h
            exact absurd h (by simp)
          · intro h
            have := h j (Nat.lt_succ_self j)
            rw [h1] at hj
            omega
        · rw [if_neg hj, h2]
          rw [h1] at hj
          constructor
          · intro h p hp
            rcases Nat.lt_or_ge p j with hlt | hge
            · exact h p hlt
            · have hpj : p = j := by omega
              rw [hpj]
              exact not_le.mp hj
          · intro h p hp
            exact h p (by omega)
      exact ⟨e1, e2⟩)
  exact key

/-- C21 as stated fails when the `size_t` sum `t + 1 + sequence_rollout` of line
821 wraps.  Take the rollout length `2^64 - 3`, `n = 8` positions whose
policies are all 0 (none is the oracle), and `t = 5`: the sum wraps to 3, so
`end_pos = min(8, 3) = 3` and the loop of lines 828-832 does not run.  Then
`end_pos = 3` is below `t = 5`, the positions from 3 up to `H0 - 1 = 7` do not
have the oracle policy, and `end_pos` is below `t + 1` although position 5 has
a non-oracle policy. -/
theorem rollout_end_wraps_counterexample :
    (5 < 8 ∧ sample_config_long_rollout.sequence_rollout = 2 ^ 64 - 3 ∧
      (sample_state_no_oracle.all_policies_optimal = true ↔
        ∀ p, p < 8 → sample_state_no_oracle.policy_seq.getD p 0 < 0) ∧
      min 8 (5 + 1 + sample_config_long_rollout.sequence_rollout) = 8) ∧
    rollout_end_pos sample_config_long_rollout 8 5 sample_state_no_oracle = 3 ∧
    ¬ (5 ≤ rollout_end_pos sample_config_long_rollout 8 5 sample_state_no_oracle) ∧
    ¬ (∀ p, rollout_end_pos sample_config_long_rollout 8 5 sample_state_no_oracle ≤ p →
      p < min 8 (5 + 1 + sample_config_long_rollout.sequence_rollout) →
      sample_state_no_oracle.policy_seq.getD p 0 < 0) ∧
    ¬ ((∃ p, 5 ≤ p ∧ p < min 8 (5 + 1 + sample_config_long_rollout.sequence_rollout) ∧
        0 ≤ sample_state_no_oracle.policy_seq.getD p 0) →
      5 + 1 ≤ rollout_end_pos sample_config_long_rollout 8 5 sample_state_no_oracle ∧
      0 ≤ sample_state_no_oracle.policy_seq.getD
        (rollout_end_pos sample_config_long_rollout 8 5 sample_state_no_oracle - 1) 0) := by
  have hend : rollout_end_pos sample_config_long_rollout 8 5 sample_state_no_oracle = 3 := by
    decide!
  have hmin : min 8 (5 + 1 + sample_config_long_rollout.sequence_rollout) = 8 := by
    decide!
  refine ⟨⟨by decide, rfl, by decide!, hmin⟩, hend, ?_, ?_, ?_⟩
  · rw [hend]
    decide
  · rw [hend, hmin]
    intro h
    exact absurd (h 5 (by decide) (by decide)) (by decide!)
  · rw [hend, hmin]
    intro h
    have := (h ⟨5, le_refl 5, by decide, by decide!⟩).1
    exact absurd this (by decide)

/-- C21, amended: at a position `t < n`, with the flag `all_policies_optimal` as
lines 792-796 compute it (set exactly when every position below `n` has a
negative, that is oracle, policy), and a rollout length for which the `size_t`
sum `t + 1 + sequence_rollout` does not wrap:
for `H0 = min(n, t + 1 + sequence_rollout)` the value `end_pos` of lines
821-832 satisfies `t <= end_pos <= H0`; every position from `end_pos` up to
`H0 - 1` has the oracle policy; if some position from `t` up to `H0 - 1` has a
non-oracle policy then `end_pos >= t + 1` and the policy at `end_pos - 1` is
non-oracle; and the loop ends by its own test within its fuel, having read
`policy_seq` at indices between `t` and `n - 1` only. -/
theorem rollout_end_truncated {L : Type} (cfg : config) (n t : Nat) (s : state L)
    (ht : t < n) (hsum : t + 1 + cfg.sequence_rollout < 2 ^ 64)
    (hflag : s.all_policies_optimal = true ↔ ∀ p, p < n → s.policy_seq.getD p 0 < 0) :
    t ≤ rollout_end_pos cfg n t s ∧
    rollout_end_pos cfg n t s ≤ min n (t + 1 + cfg.sequence_rollout) ∧
    (∀ p, rollout_end_pos cfg n t s ≤ p → p < min n (t + 1 + cfg.sequence_rollout) →
      s.policy_seq.getD p 0 < 0) ∧
    ((∃ p, t ≤ p ∧ p < min n (t + 1 + cfg.sequence_rollout) ∧ 0 ≤ s.policy_seq.getD p 0) →
      t + 1 ≤ rollout_end_pos cfg n t s ∧
      0 ≤ s.policy_seq.getD (rollout_end_pos cfg n t s - 1) 0) ∧
    (s.all_policies_optimal = false →
      (rollout_end_pos cfg n t s < t + 1 ∨
        0 ≤ s.policy_seq.getD (rollout_end_pos cfg n t s - 1) 0)) ∧
    (∀ i ∈ rollout_end_pos_reads cfg n t s, t ≤ i ∧ i < n) := by
  have hu : u64 (t + 1 + cfg.sequence_rollout) = t + 1 + cfg.sequence_rollout := by
    unfold u64
    exact Nat.mod_eq_of_lt hsum
  have hmin : (if n < u64 (t + 1 + cfg.sequence_rollout) then n
      else u64 (t + 1 + cfg.sequence_rollout))
      = min n (t + 1 + cfg.sequence_rollout) := by
    rw [hu]
    split_ifs with h
    · exact (min_eq_left (le_of_lt h)).symm
    · exact (min_eq_right (not_lt.mp h)).symm
  have hH : t + 1 ≤ min n (t + 1 + cfg.sequence_rollout) := by
    apply le_min
    · omega
    · omega
  have hHn : min n (t + 1 + cfg.sequence_rollout) ≤ n := min_le_left _ _
  unfold rollout_end_pos rollout_end_pos_reads
  lift_lets
  extract_lets end_pos
  have he : end_pos = min n (t + 1 + cfg.sequence_rollout) := hmin
  by_cases hopt : s.all_policies_optimal = true
  · have hall := hflag.mp hopt
    rw [if_pos hopt, if_pos hopt]
    refine ⟨by omega, hH, ?_, ?_, ?_, ?_⟩
    · intro p _ hp
      exact hall p (by omega)
    · rintro ⟨p, _, hp2, hp3⟩
      have := hall p (by omega)
      omega
    · intro h
      rw [hopt] at h
      exact absurd h (by simp)
    · intro i hi
      simp at hi
  · rw [if_neg hopt, if_neg hopt]
    obtain ⟨a1, a2, a3, a4, a5⟩ := end_pos_loop_spec s.policy_seq t (end_pos + 1) end_pos
      (by omega) (by omega)
    rw [← he]
    refine ⟨a1, a2, a3, ?_, fun _ => a4, ?_⟩
    · rintro ⟨p, hp1, hp2, hp3⟩
      rcases a4 with h | h
      · have := a3 p (by omega) hp2
        omega
      · refine ⟨?_, h⟩
        by_contra hcon
        have := a3 p (by omega) hp2
        omega
    · intro i hi
      have := a5 i hi
      omega

/-- C21, amended, on the sample configuration (rollout length 256), `n = 4`, `t = 0` and
the policies 0, 0, -1, -1: the horizon `H0 = 4` is cut back to `end_pos = 2`,
the position after the last non-oracle policy, and `policy_seq` is read at the
indices 3, 2, 1. -/
theorem rollout_end_truncated_witness :
    ((0 < 4 ∧ 0 + 1 + sample_config.sequence_rollout < 2 ^ 64 ∧
      (sample_state_policies.all_policies_optimal = true ↔
        ∀ p, p < 4 → sample_state_policies.policy_seq.getD p 0 < 0)) ∧
      rollout_end_pos sample_config 4 0 sample_state_policies = 2 ∧
      rollout_end_pos_reads sample_config 4 0 sample_state_policies = [3, 2, 1]) ∧
    (0 ≤ rollout_end_pos sample_config 4 0 sample_state_policies ∧
    rollout_end_pos sample_config 4 0 sample_state_policies
      ≤ min 4 (0 + 1 + sample_config.sequence_rollout) ∧
    (∀ p, rollout_end_pos sample_config 4 0 sample_state_policies ≤ p →
      p < min 4 (0 + 1 + sample_config.sequence_rollout) →
      sample_state_policies.policy_seq.getD p 0 < 0) ∧
    ((∃ p, 0 ≤ p ∧ p < min 4 (0 + 1 + sample_config.sequence_rollout) ∧
        0 ≤ sample_state_policies.policy_seq.getD p 0) →
      0 + 1 ≤ rollout_end_pos sample_config 4 0 sample_state_policies ∧
      0 ≤ sample_state_policies.policy_seq.getD
        (rollout_end_pos sample_config 4 0 sample_state_policies - 1) 0) ∧
    (sample_state_policies.all_policies_optimal = false →
      (rollout_end_pos sample_config 4 0 sample_state_policies < 0 + 1 ∨
        0 ≤ sample_state_policies.policy_seq.getD
          (rollout_end_pos sample_config 4 0 sample_state_policies - 1) 0)) ∧
    (∀ i ∈ rollout_end_pos_reads sample_config 4 0 sample_state_policies, 0 ≤ i ∧ i < 4)) :=
  ⟨⟨⟨by decide, by decide, by decide!⟩, by decide!, by decide!⟩,
    rollout_end_truncated sample_config 4 0 sample_state_policies (by decide) (by decide)
      (by decide!)⟩
/-! ## C22: the shared-history optimisation -/

/-- C22 fails on the code for two history slots.  Take `k = 3`, the sample
sequence of four positions (true labels 1, 2, 3, 1), one frozen policy and a
learner whose prediction is a function of the older history slot as encoded in
the example.  With `OPTIMIZE_SHARED_HISTORIES` enabled the first cost vector is
`[0, 1, 1]`; with it disabled the first cost vector is `[0, 0, 1]`.  At position
0 the three candidates have the histories `[1,1]`, `[2,1]`, `[3,1]` after the
first rollout step; they agree in the last slot only, yet with the optimisation
they are all marked duplicate and the rollout stops (18 learner calls in all),
while without it the learner is asked again and tells them apart (27 learner
calls). -/
theorem pruning_changes_cost_vectors :
    (sample_config_two_slots.OPTIMIZE_SHARED_HISTORIES = true ∧
      sample_config_two_slots_plain.OPTIMIZE_SHARED_HISTORIES = false) ∧
    training_calls (process_next_example_sequence sample_config_two_slots
        sample_env_older_slot (sample_state_second_pass sample_config_two_slots)).learn_calls
      = [(1, [0, 1, 1]), (2, [1, 0, 1]), (3, [1, 1, 0]), (4, [0, 1, 1])] ∧
    training_calls (process_next_example_sequence sample_config_two_slots_plain
        sample_env_older_slot
        (sample_state_second_pass sample_config_two_slots_plain)).learn_calls
      = [(1, [0, 0, 1]), (2, [1, 0, 1]), (3, [1, 1, 0]), (4, [0, 1, 1])] ∧
    (process_next_example_sequence sample_config_two_slots
        sample_env_older_slot
        (sample_state_second_pass sample_config_two_slots)).learn_calls.length = 18 ∧
    (process_next_example_sequence sample_config_two_slots_plain
        sample_env_older_slot
        (sample_state_second_pass sample_config_two_slots_plain)).learn_calls.length = 27 ∧
    (rollout_loop sample_config_two_slots sample_env_older_slot 0 1 1
        (for_loop 0 3 (seed_item sample_config_two_slots 0)
          (sample_state_held_for sample_config_two_slots))).all_histories
      = [[1, 1], [2, 1], [3, 1]] := by
  refine ⟨⟨rfl, rfl⟩, by decide!, by decide!, by decide!, by decide!, by decide!⟩

/-! ## C23: the stored hash -/

/-- The hash that `append_history_item` computes on its copy of the item is
the update of the claim: `(old - evicted * c^history_length + p) * c` in 32-bit
arithmetic, for a history of `history_length >= 1` slots that hold 32-bit values
below `2^31` (so that the conversion to `int` at line 301 keeps the value). -/
theorem append_history_item_copy_hash (cfg : config) (ah : List (List Nat)) (hi : history_item)
    (p : Nat) (hl : 0 < cfg.history_length)
    (hslot : (ah.getD hi.predictions []).getD 0 0 < 2 ^ 31) :
    ((append_history_item cfg ah hi p).2 : Int) =
      (((hi.predictions_hash : Int)
          - ((ah.getD hi.predictions []).getD 0 0 : Int) * cfg.constant_pow_history_length
          + p) * cfg.quadratic_constant) % 2 ^ 32 := by
  unfold append_history_item
  rw [if_pos hl]
  lift_lets
  extract_lets buf old_val hash1 hash2 hash3
  show ((hash3 : Nat) : Int) = _
  have hv : buf.getD 0 0 < 2 ^ 31 := hslot
  have hold : old_val = ((buf.getD 0 0 : Nat) : Int) := by
    show int_of_u32 (buf.getD 0 0) = _
    unfold int_of_u32
    have h32 : buf.getD 0 0 % 2 ^ 32 = buf.getD 0 0 := Nat.mod_eq_of_lt (by omega)
    rw [h32, if_pos hv]
  have hconv : size_t_of_int old_val = buf.getD 0 0 := by
    rw [hold]
    unfold size_t_of_int
    have : ((buf.getD 0 0 : Nat) : Int) % 2 ^ 64 = ((buf.getD 0 0 : Nat) : Int) := by
      apply Int.emod_eq_of_lt
      · omega
      · have : (buf.getD 0 0 : Int) < 2 ^ 31 := by exact_mod_cast hv
        omega
    rw [this]
    simp
  simp only [hash3, hash2, hash1, hconv, u32, u64, size_t_sub]
  have hX : ((buf.getD 0 0 : Nat) : Int) * (cfg.constant_pow_history_length : Int)
      = ((buf.getD 0 0 * cfg.constant_pow_history_length : Nat) : Int) := by
    push_cast
    rfl
  show _ = (((hi.predictions_hash : Int) - ((buf.getD 0 0 : Nat) : Int) * _ + p) * _) % 2 ^ 32
  rw [hX]
  generalize buf.getD 0 0 * cfg.constant_pow_history_length = X
  generalize hi.predictions_hash = y
  have key : (((((y % 2 ^ 64 + (2 ^ 64 - X % 2 ^ 64 % 2 ^ 64)) % 2 ^ 64 % 2 ^ 32 + p)
      % 2 ^ 32 : Nat)) : Int) = ((y : Int) - X + p) % 2 ^ 32 := by
    omega
  push_cast at key ⊢
  rw [key]
  exact (Int.mod_modEq _ _).mul_right _

/-- Writing an item whose stored hash is 0 into a cache whose stored hashes are
0 leaves all stored hashes 0. -/
theorem hash_zero_set (l : List history_item) (i : Nat) (x : history_item)
    (hx : x.predictions_hash = 0) (h : ∀ hi ∈ l, hi.predictions_hash = 0) :
    ∀ hi ∈ l.set i x, hi.predictions_hash = 0 := by
  intro hi hm
  rcases List.mem_or_eq_of_mem_set hm with h1 | h1
  · exact h hi h1
  · rw [h1]
    exact hx

theorem hash_zero_getD (l : List history_item) (i : Nat)
    (h : ∀ hi ∈ l, hi.predictions_hash = 0) :
    (l.getD i default).predictions_hash = 0 := by
  by_cases hi : i < l.length
  · rw [List.getD_eq_getElem _ _ hi]
    exact h _ (List.getElem_mem hi)
  · rw [List.getD_eq_default _ _ (by omega)]
    rfl

/-- The seeding loop (lines 808-818) leaves every stored hash 0: line 813
writes 0 and the call of line 817 works on a copy. -/
theorem seed_hash_zero {L : Type} (cfg : config) (t : Nat) (s : state L)
    (hlen : s.hcache.length = cfg.sequence_k) :
    ∀ hi ∈ (for_loop 0 cfg.sequence_k (seed_item cfg t) s).hcache, hi.predictions_hash = 0 := by
  have key := for_loop_inv
    (fun i (u : state L) => u.hcache.length = cfg.sequence_k ∧
      ∀ j, j < i → (u.hcache.getD j default).predictions_hash = 0)
    (seed_item cfg t) 0 cfg.sequence_k s (Nat.zero_le _)
    ⟨hlen, fun j hj => absurd hj (Nat.not_lt_zero _)⟩
    (by
      rintro i u _ hi ⟨hl, hj⟩
      have hset : (seed_item cfg t i u).hcache = u.hcache.set i
          { predictions := i, predictions_hash := 0,
            loss := (true_label_at u t).weight *
              (if i + 1 ≠ (true_label_at u t).label then 1 else 0),
            same := false, original_label := i } := rfl
      rw [hset]
      refine ⟨by simp [hl], ?_⟩
      intro j hjlt
      rw [List.getD_eq_getElem?_getD, List.getElem?_set]
      by_cases hij : i = j
      · subst hij
        rw [if_pos rfl, if_pos (by omega)]
        rfl
      · rw [if_neg hij, ← List.getD_eq_getElem?_getD]
        exact hj j (by omega))
  obtain ⟨hl, hj⟩ := key
  intro hi hm
  obtain ⟨n, hn, rfl⟩ := List.getElem_of_mem hm
  have := hj n (by omega)
  rw [List.getD_eq_getElem _ _ hn] at this
  exact this

/-- Sorting and marking (lines 334-347) leaves every stored hash 0. -/
theorem sort_hash_zero {L : Type} (cfg : config) (env : collaborators L) (s : state L)
    (hq : ∀ cmp l, (env.qsort cmp l).Perm l)
    (h : ∀ hi ∈ s.hcache, hi.predictions_hash = 0) :
    ∀ hi ∈ (sort_hcache_and_mark_equality cfg env s).hcache, hi.predictions_hash = 0 := by
  unfold sort_hcache_and_mark_equality
  lift_lets
  extract_lets hc0 src hc1 hc2
  have h0 : ∀ hi ∈ hc0, hi.predictions_hash = 0 := by
    intro hi hm
    exact h hi ((hq _ _).mem_iff.mp hm)
  have h1 : ∀ hi ∈ hc1, hi.predictions_hash = 0 :=
    hash_zero_set hc0 0 _ (hash_zero_getD hc0 0 h0) h0
  have h2 : ∀ hi ∈ hc2, hi.predictions_hash = 0 := by
    simp only [hc2]
    apply for_loop_preserves (fun (hc : List history_item) => ∀ hi ∈ hc, hi.predictions_hash = 0)
    · exact h1
    · intro i hc _ _ hh
      exact hash_zero_set hc i _ (hash_zero_getD hc i hh) hh
  exact h2

/-- One step of the rollout for one cache entry (lines 845-873) leaves every
stored hash 0: the call of line 866 works on a copy, and line 856 copies a
stored hash. -/
theorem rollout_item_hash_zero {L : Type} (cfg : config) (env : collaborators L) (t t2 i : Nat)
    (s : state L) (h : ∀ hi ∈ s.hcache, hi.predictions_hash = 0) :
    ∀ hi ∈ (rollout_item cfg env t t2 i s).hcache, hi.predictions_hash = 0 := by
  have hnew : ∀ u : state L, (∀ hi ∈ u.hcache, hi.predictions_hash = 0) →
      ∀ hi ∈ (rollout_item_new cfg env t t2 i u).hcache, hi.predictions_hash = 0 := by
    intro u hu
    unfold rollout_item_new
    lift_lets
    extract_lets s1 hi s2 p src s3 yhat s4 hi2
    have h4 : s4.hcache = u.hcache := by
      show p.2.2.hcache = _
      simp only [p]
      rw [(predict_hcache cfg env s2 _ _ _ _).1]
    have h4z : ∀ hi ∈ s4.hcache, hi.predictions_hash = 0 := by
      rw [h4]
      exact hu
    exact hash_zero_set s4.hcache i _ (hash_zero_getD s4.hcache i h4z) h4z
  have hcopy : ∀ u : state L, (∀ hi ∈ u.hcache, hi.predictions_hash = 0) →
      ∀ hi ∈ (rollout_item_copy cfg t t2 i u).hcache, hi.predictions_hash = 0 := by
    intro u hu
    unfold rollout_item_copy
    lift_lets
    extract_lets hi s1 ln src1 s2 ln2 src2 s3 ln3 hi3
    have h2 : ∀ hi ∈ s2.hcache, hi.predictions_hash = 0 :=
      hash_zero_set u.hcache i _ (hash_zero_getD u.hcache i hu) hu
    have h3 : ∀ hi ∈ s3.hcache, hi.predictions_hash = 0 :=
      hash_zero_set s2.hcache i _ (hash_zero_getD s2.hcache _ h2) h2
    exact hash_zero_set s3.hcache i _ (hash_zero_getD s3.hcache i h3) h3
  unfold rollout_item
  lift_lets
  extract_lets s1 s2 src s3
  have h2 : ∀ hi ∈ s2.hcache, hi.predictions_hash = 0 := by
    simp only [s2]
    split_ifs
    · exact hnew s1 h
    · exact hcopy s1 h
    · exact hnew s1 h
  have h3 : ∀ hi ∈ s3.hcache, hi.predictions_hash = 0 :=
    hash_zero_set s2.hcache i _ (hash_zero_getD s2.hcache i h2) h2
  split_ifs
  · exact h3
  · exact h3

theorem rollout_loop_hash_zero {L : Type} (cfg : config) (env : collaborators L) (t : Nat)
    (hq : ∀ cmp l, (env.qsort cmp l).Perm l) :
    ∀ (fuel t2 : Nat) (s : state L), (∀ hi ∈ s.hcache, hi.predictions_hash = 0) →
      ∀ hi ∈ (rollout_loop cfg env t fuel t2 s).hcache, hi.predictions_hash = 0 := by
  intro fuel
  induction fuel with
  | zero =>
    intro t2 s h
    exact h
  | succ fuel ih =>
    intro t2 s h
    unfold rollout_loop
    lift_lets
    extract_lets s1 s2 s3 s4
    have h2 : ∀ hi ∈ s2.hcache, hi.predictions_hash = 0 := by
      simp only [s2]
      split_ifs
      · exact sort_hash_zero cfg env s1 hq h
      · exact h
    split_ifs
    · exact h2
    · have h4 : ∀ hi ∈ s4.hcache, hi.predictions_hash = 0 := by
        apply for_loop_preserves
          (fun u : state L => ∀ hi ∈ u.hcache, hi.predictions_hash = 0)
        · exact h2
        · intro i u _ _ hu
          exact rollout_item_hash_zero cfg env t t2 i u hu
      exact ih (t2 + 1) s4 h4

/-- Whatever the learner predicts, when the rollout of position `t` is over
every cache entry holds the stored hash 0: the hash of the claim is computed on
the copy made by the call of `append_history_item` and never stored. -/
theorem rollout_position_hash_zero {L : Type} (cfg : config) (env : collaborators L)
    (n t : Nat) (s : state L) (hq : ∀ cmp l, (env.qsort cmp l).Perm l)
    (hlen : s.hcache.length = cfg.sequence_k) :
    ∀ hi ∈ (rollout_position cfg env n t s).hcache, hi.predictions_hash = 0 := by
  unfold rollout_position
  lift_lets
  extract_lets s1 end_pos s2 s3
  have h1 : ∀ hi ∈ s1.hcache, hi.predictions_hash = 0 := seed_hash_zero cfg t s hlen
  have h3 : ∀ hi ∈ s3.hcache, hi.predictions_hash = 0 :=
    rollout_loop_hash_zero cfg env t hq _ _ s2 h1
  split_ifs
  · exact h3
  · exact h3

/-- C23 fails on the code.  With `k = 3` and one history slot, the cache seeded
for position 0 holds the histories `[1]`, `[2]`, `[3]`, whose rolling hashes are
27942141, 55884282 and 83826423, but the stored hashes are 0, 0, 0.  With two
history slots and a learner that predicts from the older slot, after the first
rollout step the cache holds `[1,1]`, `[2,1]`, `[3,1]` with rolling hashes
2641702662, 960495887, 3574256408 and stored hashes 0, 0, 0.  When
`process_next_example_sequence` returns on the sample sequence the stored
hashes are still 0.  The copy that `append_history_item` works on does hold the
hash of the claim (27942141 after appending 1 to the empty history; the rolling
hash of `[4,5]` after appending 5 to `[3,4]` with the rolling hash of `[3,4]`),
but it is lost on return. -/
theorem stored_hash_stays_zero :
    (stored_hashes (for_loop 0 3 (seed_item sample_config 0)
        (sample_state_held_for sample_config)) = [0, 0, 0] ∧
      cache_histories (for_loop 0 3 (seed_item sample_config 0)
        (sample_state_held_for sample_config)) = [[1], [2], [3]] ∧
      rolling_hashes sample_config (for_loop 0 3 (seed_item sample_config 0)
        (sample_state_held_for sample_config)) = [27942141, 55884282, 83826423]) ∧
    (stored_hashes (rollout_loop sample_config_two_slots sample_env_older_slot 0 1 1
        (for_loop 0 3 (seed_item sample_config_two_slots 0)
          (sample_state_held_for sample_config_two_slots))) = [0, 0, 0] ∧
      cache_histories (rollout_loop sample_config_two_slots sample_env_older_slot 0 1 1
        (for_loop 0 3 (seed_item sample_config_two_slots 0)
          (sample_state_held_for sample_config_two_slots))) = [[1, 1], [2, 1], [3, 1]] ∧
      rolling_hashes sample_config_two_slots
        (rollout_loop sample_config_two_slots sample_env_older_slot 0 1 1
          (for_loop 0 3 (seed_item sample_config_two_slots 0)
            (sample_state_held_for sample_config_two_slots)))
        = [2641702662, 960495887, 3574256408]) ∧
    (stored_hashes (process_next_example_sequence sample_config sample_env
        (sample_state sample_config sample_sequence (3 / 4))) = [0, 0, 0] ∧
      rolling_hashes sample_config (process_next_example_sequence sample_config sample_env
        (sample_state sample_config sample_sequence (3 / 4)))
        = [27942141, 55884282, 83826423]) ∧
    (append_history_item sample_config [[0], [0], [0]] ⟨0, 0, 0, 0, false⟩ 1
        = ([[1], [0], [0]], 27942141) ∧
      rolling_hash sample_config [1] = 27942141) ∧
    (rolling_hash sample_config_two_slots [3, 4] = 3658082831 ∧
      append_history_item sample_config_two_slots [[3, 4], [0, 0], [0, 0]]
        ⟨0, 3658082831, 0, 0, false⟩ 5 = ([[4, 5], [0, 0], [0, 0]], 2004818197) ∧
      rolling_hash sample_config_two_slots [4, 5] = 2004818197) := by
  refine ⟨⟨by decide!, by decide!, by decide!⟩, ⟨by decide!, by decide!, by decide!⟩,
    ⟨by decide!, by decide!⟩, ⟨by decide!, by decide!⟩, by decide!, by decide!, by decide!⟩
/-! ## C24: the label of a test example -/

/-- C24 fails on the code.  With `k = 3` classes the parser delivers a test
example (label `(uint32_t)-1`, address 1) and a boundary example.
`safe_get_example` returns the example with the label 3, so `example_is_test`
is false on it, and `process_next_example_sequence` trains on it: two learner
calls, one of them a training call with the cost vector `[1, 1, 0]` of class 3.
With `k = 2^32 - 1` classes, where line 670 leaves the label alone, the same
input is returned with the label `(uint32_t)-1` and handled in test mode: one
learner call, none of them a training call. -/
theorem test_label_is_clamped :
    (example_is_test (sample_test_example 1) = true ∧
      (sample_test_example 1).ld.deref.label = 2 ^ 32 - 1) ∧
    (returned_label (safe_get_example sample_config 1
        (sample_state sample_config sample_test_sequence (3 / 4))).1 = some 3 ∧
      (safe_get_example sample_config 1
        (sample_state sample_config sample_test_sequence (3 / 4))).1.map example_is_test
        = some false) ∧
    (training_calls (process_next_example_sequence sample_config sample_env
        (sample_state sample_config sample_test_sequence (3 / 4))).learn_calls
        = [(1, [1, 1, 0])] ∧
      (process_next_example_sequence sample_config sample_env
        (sample_state sample_config sample_test_sequence (3 / 4))).learn_calls.length = 2 ∧
      (process_next_example_sequence sample_config sample_env
        (sample_state sample_config sample_test_sequence (3 / 4))).freed = [some 1, some 2]) ∧
    (returned_label (safe_get_example sample_config_many_classes 1
        (sample_state sample_config_many_classes sample_test_sequence (3 / 4))).1
        = some (2 ^ 32 - 1) ∧
      (safe_get_example sample_config_many_classes 1
        (sample_state sample_config_many_classes sample_test_sequence (3 / 4))).1.map
          example_is_test = some true) ∧
    (training_calls (process_next_example_sequence sample_config_many_classes sample_env
        (sample_state sample_config_many_classes sample_test_sequence (3 / 4))).learn_calls
        = [] ∧
      (process_next_example_sequence sample_config_many_classes sample_env
        (sample_state sample_config_many_classes sample_test_sequence (3 / 4))).learn_calls.length
        = 1 ∧
      (process_next_example_sequence sample_config_many_classes sample_env
        (sample_state sample_config_many_classes sample_test_sequence (3 / 4))).freed
        = [some 1, some 2]) := by
  refine ⟨⟨by decide!, by decide!⟩, ⟨by decide!, by decide!⟩,
    ⟨by decide!, by decide!, by decide!⟩, ⟨by decide!, by decide!⟩,
    by decide!, by decide!, by decide!⟩

/-! ## C25: the comparator as an ordering -/

/-- On two items with the same stored hash the comparator is consistent: it is
negative one way exactly when it is positive the other way, and 0 one way
exactly when it is 0 the other way. -/
theorem order_history_item_equal_hash (cfg : config) (ah : List (List Nat))
    (a b : history_item) (h : a.predictions_hash = b.predictions_hash) :
    (order_history_item cfg ah a b < 0 ↔ order_history_item cfg ah b a > 0) ∧
    (order_history_item cfg ah a b = 0 ↔ order_history_item cfg ah b a = 0) := by
  unfold order_history_item
  lift_lets
  extract_lets i pa pb
  have h1 : ¬ a.predictions_hash < b.predictions_hash := by omega
  have h2 : ¬ b.predictions_hash < a.predictions_hash := by omega
  rw [if_neg h1, if_neg h1, if_neg h2, if_neg h2]
  rcases Nat.lt_trichotomy pa pb with hlt | heq | hgt
  · have n1 : ¬ pb < pa := by omega
    have n2 : pb > pa := hlt
    rw [if_pos hlt, if_neg n1, if_pos n2]
    decide
  · have n1 : ¬ pa < pb := by omega
    have n2 : ¬ pa > pb := by omega
    have n3 : ¬ pb < pa := by omega
    have n4 : ¬ pb > pa := by omega
    rw [if_neg n1, if_neg n2, if_neg n3, if_neg n4]
    decide
  · have n1 : ¬ pa < pb := by omega
    have n2 : pb < pa := hgt
    rw [if_neg n1, if_pos hgt, if_pos n2]
    decide

/-- The second test of the comparator repeats the first (line 320 has `<`
where `>` is meant): when the stored hash of `a` is the larger one the
comparator does not return 1 but goes on to the slots, while the reversed call
returns -1.  No cache entry has a stored hash other than 0 (see
`rollout_position_hash_zero`), so the sort never meets this case. -/
theorem order_history_item_larger_hash (cfg : config) (ah : List (List Nat))
    (a b : history_item) (h : b.predictions_hash < a.predictions_hash) :
    order_history_item cfg ah b a = -1 ∧
    (order_history_item cfg ah a b = 0 ↔
      last_prediction cfg (ah.getD a.predictions [])
        = last_prediction cfg (ah.getD b.predictions [])) := by
  constructor
  · unfold order_history_item
    rw [if_pos h]
  · rw [order_history_item_eq_zero_iff]
    constructor
    · intro hh
      exact hh.2
    · intro hh
      exact ⟨by omega, hh⟩

/-- Every state in which the rollout loop calls the sort holds the stored
hash 0 in every cache entry, when the loop starts from such a state. -/
theorem rollout_sort_states_hash_zero {L : Type} (cfg : config) (env : collaborators L)
    (t : Nat) (hq : ∀ cmp l, (env.qsort cmp l).Perm l) :
    ∀ (fuel t2 : Nat) (s : state L), (∀ hi ∈ s.hcache, hi.predictions_hash = 0) →
      ∀ u ∈ rollout_sort_states cfg env t fuel t2 s, ∀ hi ∈ u.hcache,
        hi.predictions_hash = 0 := by
  intro fuel
  induction fuel with
  | zero =>
    intro t2 s _ u hu
    simp [rollout_sort_states] at hu
  | succ fuel ih =>
    intro t2 s h u hu
    unfold rollout_sort_states at hu
    lift_lets at hu
    extract_lets s1 called s2 s3 s4 at hu
    have h1 : ∀ hi ∈ s1.hcache, hi.predictions_hash = 0 := h
    have hcalled : u ∈ called → ∀ hi ∈ u.hcache, hi.predictions_hash = 0 := by
      intro hc
      simp only [called] at hc
      split_ifs at hc
      · rw [List.mem_singleton.mp hc]
        exact h1
      · exact absurd hc (List.not_mem_nil _)
    have h2 : ∀ hi ∈ s2.hcache, hi.predictions_hash = 0 := by
      simp only [s2]
      split_ifs
      · exact sort_hash_zero cfg env s1 hq h1
      · exact h1
    split_ifs at hu
    · exact hcalled hu
    · rcases List.mem_append.mp hu with hc | hr
      · exact hcalled hc
      · have h4 : ∀ hi ∈ s4.hcache, hi.predictions_hash = 0 := by
          apply for_loop_preserves
            (fun v : state L => ∀ hi ∈ v.hcache, hi.predictions_hash = 0)
          · exact h2
          · intro i v _ _ hv
            exact rollout_item_hash_zero cfg env t t2 i v hv
        exact ih (t2 + 1) s4 h4 u hr

/-- C25, on every pair of history items that the sort can compare: in every
state in which the rollout of a position calls `sort_hcache_and_mark_equality`
(line 839), all items `a`, `b` of the cache carry the stored hash 0 (line 813
writes 0, line 856 copies a stored hash, and `append_history_item` works on a
copy), and on them `order_history_item(a, b) < 0` exactly when
`order_history_item(b, a) > 0`, and `order_history_item(a, b) = 0` exactly when
`order_history_item(b, a) = 0`.  `qsort` is taken to rearrange the array, and
the cache to have its `sequence_k` entries. -/
theorem comparator_consistent_where_called {L : Type} (cfg : config) (env : collaborators L)
    (n t : Nat) (s : state L) (hq : ∀ cmp l, (env.qsort cmp l).Perm l)
    (hlen : s.hcache.length = cfg.sequence_k) :
    ∀ u ∈ position_sort_states cfg env n t s, ∀ a ∈ u.hcache, ∀ b ∈ u.hcache,
      (a.predictions_hash = 0 ∧ b.predictions_hash = 0) ∧
      (order_history_item cfg u.all_histories a b < 0 ↔
        order_history_item cfg u.all_histories b a > 0) ∧
      (order_history_item cfg u.all_histories a b = 0 ↔
        order_history_item cfg u.all_histories b a = 0) := by
  intro u hu a ha b hb
  unfold position_sort_states at hu
  lift_lets at hu
  extract_lets s1 end_pos s2 at hu
  have h1 : ∀ hi ∈ s1.hcache, hi.predictions_hash = 0 := seed_hash_zero cfg t s hlen
  have hz := rollout_sort_states_hash_zero cfg env t hq _ _ s2 h1 u hu
  have hab : a.predictions_hash = b.predictions_hash := by
    rw [hz a ha, hz b hb]
  exact ⟨⟨hz a ha, hz b hb⟩, order_history_item_equal_hash cfg u.all_histories a b hab⟩

/-- C25 at position 0 of the sample sequence, with two history slots and the
learner that predicts from the older slot: the sort is called twice, the
second time on the histories `[1,1]`, `[2,1]`, `[3,1]`. -/
theorem comparator_consistent_where_called_witness :
    ((∀ cmp l, (sample_env_older_slot.qsort cmp l).Perm l) ∧
      (sample_state_held_for sample_config_two_slots).hcache.length
        = sample_config_two_slots.sequence_k) ∧
    (position_sort_states sample_config_two_slots sample_env_older_slot 4 0
        (sample_state_held_for sample_config_two_slots)).map cache_histories
      = [[[0, 1], [0, 2], [0, 3]], [[1, 1], [2, 1], [3, 1]]] ∧
    ∀ u ∈ position_sort_states sample_config_two_slots sample_env_older_slot 4 0
        (sample_state_held_for sample_config_two_slots),
      ∀ a ∈ u.hcache, ∀ b ∈ u.hcache,
        (a.predictions_hash = 0 ∧ b.predictions_hash = 0) ∧
        (order_history_item sample_config_two_slots u.all_histories a b < 0 ↔
          order_history_item sample_config_two_slots u.all_histories b a > 0) ∧
        (order_history_item sample_config_two_slots u.all_histories a b = 0 ↔
          order_history_item sample_config_two_slots u.all_histories b a = 0) :=
  ⟨⟨insertion_qsort_perm, by decide!⟩, by decide!,
    comparator_consistent_where_called sample_config_two_slots sample_env_older_slot 4 0
      (sample_state_held_for sample_config_two_slots) insertion_qsort_perm (by decide!)⟩

/-! ## C26: the history slots that are read -/

/-- With the cross bigram features switched off, every history slot that
`add_history_to_example` reads lies in the window `0..history_length-1`. -/
theorem add_history_reads_in_window (cfg : config) (ec : vw_example)
    (hmax : cfg.history_length = max cfg.sequence_history cfg.sequence_features)
    (hsz : cfg.history_length < 2 ^ 64)
    (hoff : cfg.sequence_bigram_features = false) :
    ∀ i ∈ add_history_reads cfg ec, i < cfg.history_length := by
  have hh : cfg.sequence_history ≤ cfg.history_length := by
    rw [hmax]
    exact le_max_left _ _
  have hf : cfg.sequence_features ≤ cfg.history_length := by
    rw [hmax]
    exact le_max_right _ _
  have hsub : ∀ t, 1 ≤ t → t ≤ cfg.history_length →
      size_t_sub cfg.history_length t = cfg.history_length - t := by
    intro t h1 h2
    unfold size_t_sub
    omega
  have huni : ∀ t, 1 ≤ t → t < 1 + cfg.sequence_history →
      ∀ i ∈ unigram_reads cfg t, i < cfg.history_length := by
    intro t h1 h2 i hi
    unfold unigram_reads at hi
    rw [hsub t h1 (by omega)] at hi
    rcases List.mem_cons.mp hi with h | h
    · omega
    · by_cases hb : t > 1 ∧ cfg.sequence_bigrams
      · rw [if_pos hb] at h
        have : i = u64 (cfg.history_length - t + 1) := by simpa using h
        unfold u64 at this
        omega
      · rw [if_neg hb] at h
        exact absurd h (List.not_mem_nil _)
  have hcross : ∀ t, 1 ≤ t → t < 1 + cfg.sequence_features →
      ∀ i ∈ cross_reads cfg t, i < cfg.history_length := by
    intro t h1 h2 i hi
    unfold cross_reads at hi
    rw [hsub t h1 (by omega)] at hi
    have hb : ¬ (t > 0 ∧ cfg.sequence_bigram_features) := by
      rw [hoff]
      simp
    rw [if_neg hb] at hi
    have : i = cfg.history_length - t := by simpa using hi
    omega
  intro i hi
  unfold add_history_reads at hi
  rcases List.mem_append.mp hi with h | h
  · obtain ⟨t, ht, hit⟩ := List.mem_flatMap.mp h
    have := List.mem_range'_1.mp ht
    exact huni t this.1 this.2 i hit
  · by_cases hpos : cfg.sequence_features > 0
    · rw [if_pos hpos] at h
      obtain ⟨_, _, h⟩ := List.mem_flatMap.mp h
      obtain ⟨_, _, h⟩ := List.mem_flatMap.mp h
      obtain ⟨t, ht, hit⟩ := List.mem_flatMap.mp h
      have := List.mem_range'_1.mp ht
      exact hcross t this.1 this.2 i hit
    · rw [if_neg hpos] at h
      exact absurd h (List.not_mem_nil _)

/-- The guard of line 499 is `t > 0` where line 440 has `t > 1`: were
`sequence_bigram_features` set, the first iteration `t = 1` of the innermost
loop would read the slot `history_length`, one past the window.  No statement
of the file sets it (see `parse_sequence_args_history`). -/
theorem cross_bigram_reads_history_length (cfg : config)
    (hpos : 1 ≤ cfg.history_length) (hsz : cfg.history_length < 2 ^ 64)
    (hon : cfg.sequence_bigram_features = true) :
    cfg.history_length ∈ cross_reads cfg 1 := by
  unfold cross_reads
  have hb : (1 > 0 ∧ cfg.sequence_bigram_features) := ⟨by decide, hon⟩
  rw [if_pos hb]
  have : u64 (size_t_sub cfg.history_length 1 + 1) = cfg.history_length := by
    unfold u64 size_t_sub
    omega
  rw [this]
  simp

/-- What `parse_sequence_args` leaves in the settings that steer the history
features: the two lengths are the option values or the initial values 1 and 0,
`history_length` is their maximum, either toggle sets `sequence_bigrams`, and
`sequence_bigram_features` keeps its initial value `false`, because no
statement assigns it. -/
theorem parse_sequence_args_history (vm : sequence_options) (numpasses : Nat) (g : config) :
    (parse_sequence_args vm numpasses (initial_settings g)).sequence_history
      = vm.sequence_history.getD 1 ∧
    (parse_sequence_args vm numpasses (initial_settings g)).sequence_features
      = vm.sequence_features.getD 0 ∧
    (parse_sequence_args vm numpasses (initial_settings g)).history_length
      = max (vm.sequence_history.getD 1) (vm.sequence_features.getD 0) ∧
    (parse_sequence_args vm numpasses (initial_settings g)).sequence_bigrams
      = (vm.sequence_bigrams || vm.sequence_bigram_features) ∧
    (parse_sequence_args vm numpasses (initial_settings g)).sequence_bigram_features
      = false := by
  unfold parse_sequence_args
  lift_lets
  extract_lets c1 c2 c3 c4 c5 c6 c7 c8 c9 c10 c11 c12 c13
  have a3 : c3.sequence_bigrams = (vm.sequence_bigrams || vm.sequence_bigram_features) := by
    show (if vm.sequence_bigram_features = true then true
      else (if vm.sequence_bigrams = true then true else false)) = _
    cases vm.sequence_bigrams <;> cases vm.sequence_bigram_features <;> rfl
  have a4 : c10.sequence_history = vm.sequence_history.getD 1 := rfl
  have a5 : c10.sequence_features = vm.sequence_features.getD 0 := rfl
  have hlen : c11.history_length
      = max (vm.sequence_history.getD 1) (vm.sequence_features.getD 0) := by
    show (if c10.sequence_history > c10.sequence_features then c10.sequence_history
      else c10.sequence_features) = _
    rw [a4, a5]
    split_ifs with hgt
    · exact (max_eq_left (le_of_lt hgt)).symm
    · exact (max_eq_right (not_lt.mp hgt)).symm
  exact ⟨rfl, rfl, hlen, a3, rfl⟩

/-- C26: for the settings that `parse_sequence_args` produces from any options,
with either, both or none of the two bigram toggles given, and for every
example, every history slot that `add_history_to_example` reads lies in
`0..history_length-1`, where `history_length` is the maximum of
`sequence_history` and `sequence_features`.  The option values are `size_t`
values. -/
theorem history_reads_in_window (vm : sequence_options) (numpasses : Nat) (g : config)
    (ec : vw_example)
    (hh : ∀ v, vm.sequence_history = some v → v < 2 ^ 64)
    (hf : ∀ v, vm.sequence_features = some v → v < 2 ^ 64) :
    (parse_sequence_args vm numpasses (initial_settings g)).history_length
      = max (parse_sequence_args vm numpasses (initial_settings g)).sequence_history
          (parse_sequence_args vm numpasses (initial_settings g)).sequence_features ∧
    (parse_sequence_args vm numpasses (initial_settings g)).sequence_bigrams
      = (vm.sequence_bigrams || vm.sequence_bigram_features) ∧
    ∀ i ∈ add_history_reads (parse_sequence_args vm numpasses (initial_settings g)) ec,
      i < (parse_sequence_args vm numpasses (initial_settings g)).history_length := by
  obtain ⟨p1, p2, p3, p4, p5⟩ := parse_sequence_args_history vm numpasses g
  have hmax : (parse_sequence_args vm numpasses (initial_settings g)).history_length
      = max (parse_sequence_args vm numpasses (initial_settings g)).sequence_history
          (parse_sequence_args vm numpasses (initial_settings g)).sequence_features := by
    rw [p1, p2, p3]
  have h1 : vm.sequence_history.getD 1 < 2 ^ 64 := by
    cases hv : vm.sequence_history with
    | none => decide
    | some v => exact hh v hv
  have h2 : vm.sequence_features.getD 0 < 2 ^ 64 := by
    cases hv : vm.sequence_features with
    | none => decide
    | some v => exact hf v hv
  have hsz : (parse_sequence_args vm numpasses (initial_settings g)).history_length
      < 2 ^ 64 := by
    rw [p3]
    exact max_lt h1 h2
  exact ⟨hmax, p4,
    add_history_reads_in_window (parse_sequence_args vm numpasses (initial_settings g)) ec
      hmax hsz p5⟩

/-- C26 for the options `--sequence 3 --sequence_history 2 --sequence_features 1
--sequence_bigrams --sequence_bigram_features` and an example with one feature:
`history_length` is 2, the toggle `sequence_bigrams` is set,
`sequence_bigram_features` is not, and the slots 1, 0, 1, 1 are read. -/
theorem history_reads_in_window_witness :
    ((∀ v, sample_options.sequence_history = some v → v < 2 ^ 64) ∧
      (∀ v, sample_options.sequence_features = some v → v < 2 ^ 64)) ∧
    ((parse_sequence_args sample_options 1 (initial_settings sample_config)).history_length = 2 ∧
      (parse_sequence_args sample_options 1
        (initial_settings sample_config)).sequence_bigram_features = false ∧
      add_history_reads (parse_sequence_args sample_options 1 (initial_settings sample_config))
        (sample_example 1 1) = [1, 0, 1, 1]) ∧
    ((parse_sequence_args sample_options 1 (initial_settings sample_config)).history_length
      = max (parse_sequence_args sample_options 1 (initial_settings sample_config)).sequence_history
          (parse_sequence_args sample_options 1
            (initial_settings sample_config)).sequence_features ∧
    (parse_sequence_args sample_options 1 (initial_settings sample_config)).sequence_bigrams
      = (sample_options.sequence_bigrams || sample_options.sequence_bigram_features) ∧
    ∀ i ∈ add_history_reads (parse_sequence_args sample_options 1
        (initial_settings sample_config)) (sample_example 1 1),
      i < (parse_sequence_args sample_options 1 (initial_settings sample_config)).history_length) :=
  ⟨⟨by
      intro v hv
      have : v = 2 := (Option.some.inj hv).symm
      omega, by
      intro v hv
      have : v = 1 := (Option.some.inj hv).symm
      omega⟩,
    ⟨by decide!, by decide!, by decide!⟩,
    history_reads_in_window sample_options 1 sample_config (sample_example 1 1)
      (by
        intro v hv
        have : v = 2 := (Option.some.inj hv).symm
        omega)
      (by
        intro v hv
        have : v = 1 := (Option.some.inj hv).symm
        omega)⟩

end Sequence
